import Mathlib

/-! RoverGauge: the object `CUXInterface`.

A shallow embedding of `src/cuxinterface.cpp` (the worker-side object that polls the
14CUX engine-control unit through the `Comm14CUX` serial library) together with the
properties of its read scheduler, of its command handlers and of its unit conversions.

* The object's members become the fields of the structure `CUXInterface`.
* The serial library, the wall clock and the Qt timer are external: the library's
  answers and the clock's readings are taken from two arbitrary functions indexed by
  the number of requests made so far, so that every behaviour of the device and of the
  clock is covered by quantifying over them.
* Everything observable that a member function does (a point read and its outcome, an
  emitted signal, a call of `disconnect`, a timer start) is appended to `trace`.
* A member function that dereferences `cux` or `timer` while the pointer is null has
  no defined behaviour; such a function returns `none` there.
-/

namespace RoverGauge

/-! ## Result of a group of reads -/

/-- Modelled from the spec: the enumeration `CUXInterface::ReadResult` is declared in
`cuxinterface.h`, which is not among the sources. The spec gives the verdict of one or more
read attempts as the tri-state `Unset | Success | Failure`; the three enumerators below
are the ones that `cuxinterface.cpp` uses, `NoStatement` being the spec's `Unset`. -/
inductive ReadResult
  | NoStatement
  | Success
  | Failure
  deriving DecidableEq, Repr

/-- Merge of a tier verdict into the running verdict,
`CUXInterface::mergeResult(ReadResult total, ReadResult single)`. -/
def mergeResult (total single : ReadResult) : ReadResult :=
  if (total = ReadResult.NoStatement ∨ single = ReadResult.Success) ∨
     (total = ReadResult.Failure ∧ single = ReadResult.Success) then
    single
  else
    total

/-- Merge of one boolean read outcome into the running verdict,
`CUXInterface::mergeResult(ReadResult total, bool single)`. -/
def mergeResultBool (total : ReadResult) (single : Bool) : ReadResult :=
  if total = ReadResult.NoStatement then
    (if single then ReadResult.Success else ReadResult.Failure)
  else if total = ReadResult.Failure ∧ single = true then
    ReadResult.Success
  else
    total

/-- Position of a verdict in the order `NoStatement < Failure < Success`. -/
def ReadResult.rank : ReadResult → Nat
  | ReadResult.NoStatement => 0
  | ReadResult.Failure => 1
  | ReadResult.Success => 2

/-- The verdict with the given position in the order `NoStatement < Failure < Success`. -/
def ReadResult.ofRank : Nat → ReadResult
  | 0 => ReadResult.NoStatement
  | 1 => ReadResult.Failure
  | _ => ReadResult.Success

/-- A running verdict is fed either a tier verdict or a single boolean outcome. -/
inductive MergeInput
  | tier (single : ReadResult)
  | single (ok : Bool)
  deriving DecidableEq, Repr

/-- One merge step with whichever overload of `mergeResult` fits the input. -/
def mergeStep (total : ReadResult) : MergeInput → ReadResult
  | MergeInput.tier r => mergeResult total r
  | MergeInput.single b => mergeResultBool total b

/-! ## Data model -/

/-- Sample kinds of `commonunits.h`, the keys of the enablement registry. -/
inductive SampleType
  | EngineTemperature
  | RoadSpeed
  | EngineRPM
  | FuelTemperature
  | MAF
  | Throttle
  | IdleBypassPosition
  | TargetIdleRPM
  | GearSelection
  | MainVoltage
  | LambdaTrim
  | FuelMap
  | FuelPumpRelay
  deriving DecidableEq, Repr

/-- Speed units of `commonunits.h`. -/
inductive SpeedUnits
  | MPH
  | FPS
  | KPH
  deriving DecidableEq, Repr

/-- Temperature units of `commonunits.h`. -/
inductive TemperatureUnits
  | Fahrenheit
  | Celcius
  deriving DecidableEq, Repr

/-- Airflow reading mode handed to the library with each airflow read. -/
inductive Comm14CUXAirflowType
  | Direct
  | Linearized
  deriving DecidableEq, Repr

/-- Throttle reading mode handed to the library with each throttle read. -/
inductive Comm14CUXThrottlePosType
  | Absolute
  | Corrected
  deriving DecidableEq, Repr

/-- The point reads that a poll cycle can ask of the library, one per call site in
`readHighFreqData`, `readMidFreqData` and `readLowFreqData`. -/
inductive Point
  | MAFReading
  | ThrottlePosition
  | LambdaTrimShortLeft
  | LambdaTrimShortRight
  | EngineRPM
  | FuelMapRowIndex
  | FuelMapColumnIndex
  | IdleBypassMotorPosition
  | LambdaTrimLongLeft
  | LambdaTrimLongRight
  | MainVoltage
  | TargetIdle
  | IdleMode
  | FuelPumpRelayState
  | GearSelection
  | RoadSpeed
  | MILOn
  | CoolantTemp
  | FuelTemp
  | CurrentFuelMap
  deriving DecidableEq, Repr

/-- The three read tiers of `readData`. -/
inductive Tier
  | high
  | mid
  | low
  deriving DecidableEq, Repr

/-- Signals emitted by `CUXInterface`, each with the arguments it is emitted with. -/
inductive Signal
  | connected
  | disconnected
  | readSuccess
  | readError
  | dataReady
  | failedToConnect (deviceName : String)
  | revisionNumberReady (tuneRevision : Int)
  | notConnected
  | faultCodesReady
  | faultCodesReadFailed
  | faultCodesClearSuccess (faultCodes : Int)
  | faultCodesClearFailure
  | promImageReady
  | promImageReadFailed
  | fuelMapReady (fuelMapId : Int)
  | rpmLimitReady (rpmLimit : Int)
  | interfaceReadyForPolling
  deriving DecidableEq, Repr

/-- Observable actions of the object, in the order in which they happen. -/
inductive Event
  /-- A point read was issued to the library and returned `ok`. -/
  | read (p : Point) (ok : Bool)
  /-- Entry into the body of one of the three tier functions. -/
  | tier (t : Tier)
  /-- A Qt signal was emitted. -/
  | emit (sig : Signal)
  /-- Call of the library's `disconnect`. -/
  | linkDisconnect
  /-- Call of `timer->start(msec)`. -/
  | timerStart (msec : Int)
  /-- Call of `QThread::currentThread()->quit()`. -/
  | threadQuit
  deriving DecidableEq, Repr

/-- What the library hands back for one point read: the boolean it returns and, when it
wrote to its output argument, the value written (of the kind the call takes). -/
structure Reply where
  ok : Bool
  int : Option Int := none
  real : Option Rat := none
  flag : Option Bool := none

/-- The part of the library handle `Comm14CUX` that the polling path observes:
what `isConnected()` reports. -/
structure Comm14CUX where
  connected : Bool
  deriving DecidableEq, Repr

/-- The part of `QTimer` that the polling path uses. -/
structure QTimer where
  singleShot : Bool
  active : Bool
  interval : Int
  deriving DecidableEq, Repr

/-- The library's enumerator `Comm14CUXGear_NoReading`, with which the constructor
initialises `gear`. Its numeric value is outside the sources and the object never inspects
it; 0 stands for it. -/
def Comm14CUXGear_NoReading : Int := 0

/-- Modelled from the spec: the statement `readCount++`. The member `readCount` is declared
in `cuxinterface.h`, which is not among the sources; the spec calls it a monotonically
increasing cycle counter, so it is a natural number and the increment never wraps. -/
def incrementCount (readCount : Nat) : Nat := readCount + 1

/-- Members of `CUXInterface`, followed by the environment it runs in and the record
of what it did.

`cux`, `timer` and `promImage` are pointers that may be null. The `qint64` timestamps are
milliseconds since the epoch and stay far from the bounds of `qint64`, so they are
integers here. `enabledSamples` is a `QHash<SampleType, bool>` whose `operator[]` yields
`false` for a missing key, hence a total function here. `fuelMaps` is a
`QHash<int, QByteArray*>`: a map number is a key exactly when it is mapped to a buffer.
A byte buffer is the list of its bytes; the fault-code block is held as one number. -/
structure CUXInterface where
  deviceName : String
  cux : Option Comm14CUX
  timer : Option QTimer
  stopPolling : Bool
  shutdownThread : Bool
  readCanceled : Bool
  readCount : Nat
  lambdaTrimType : Int
  airflowType : Comm14CUXAirflowType
  throttlePosType : Comm14CUXThrottlePosType
  roadSpeedMPH : Int
  engineSpeedRPM : Int
  targetIdleSpeed : Int
  coolantTempF : Int
  fuelTempF : Int
  throttlePos : Rat
  gear : Int
  mainVoltage : Rat
  currentFuelMapIndex : Int
  currentFuelMapRowIndex : Int
  currentFuelMapColumnIndex : Int
  mafReading : Rat
  idleBypassPos : Rat
  fuelPumpRelayOn : Bool
  leftLambdaTrim : Int
  rightLambdaTrim : Int
  milOn : Bool
  idleMode : Bool
  promImage : Option (List Nat)
  fuelMapAdjFactor : Int
  speedUnits : SpeedUnits
  tempUnits : TemperatureUnits
  lastMidFreqReadTime : Int
  lastLowFreqReadTime : Int
  enabledSamples : SampleType → Bool
  fuelMaps : Int → Option (List Nat)
  faultCodes : Int
  tuneRevision : Int
  rpmLimit : Int
  /-- Reading number `k` of `QDateTime::currentMSecsSinceEpoch()`. -/
  clock : Nat → Int
  /-- Number of clock readings taken so far. -/
  clockReads : Nat
  /-- Answer of the library to point read number `k`, by the point asked for. -/
  reply : Nat → Point → Reply
  /-- Number of point reads issued so far. -/
  linkCalls : Nat
  /-- Everything the object did so far, oldest first. -/
  trace : List Event

namespace CUXInterface

/-- State left by the constructor `CUXInterface::CUXInterface`, in a given environment.
The constructor leaves `faultCodes`, `tuneRevision` and `rpmLimit` uninitialised; 0 stands
for what they hold. -/
def init (device : String) (sUnits : SpeedUnits) (tUnits : TemperatureUnits)
    (clock : Nat → Int) (reply : Nat → Point → Reply) : CUXInterface where
  deviceName := device
  cux := none
  timer := none
  stopPolling := false
  shutdownThread := false
  readCanceled := false
  readCount := 0
  lambdaTrimType := 1
  airflowType := Comm14CUXAirflowType.Linearized
  throttlePosType := Comm14CUXThrottlePosType.Corrected
  roadSpeedMPH := 0
  engineSpeedRPM := 0
  targetIdleSpeed := 0
  coolantTempF := 0
  fuelTempF := 0
  throttlePos := 0
  gear := Comm14CUXGear_NoReading
  mainVoltage := 0
  currentFuelMapIndex := 0
  currentFuelMapRowIndex := 0
  currentFuelMapColumnIndex := 0
  mafReading := 0
  idleBypassPos := 0
  fuelPumpRelayOn := false
  leftLambdaTrim := 0
  rightLambdaTrim := 0
  milOn := false
  idleMode := false
  promImage := none
  fuelMapAdjFactor := 0
  speedUnits := sUnits
  tempUnits := tUnits
  lastMidFreqReadTime := 0
  lastLowFreqReadTime := 0
  enabledSamples := fun _ => false
  fuelMaps := fun _ => none
  faultCodes := 0
  tuneRevision := 0
  rpmLimit := 0
  clock := clock
  clockReads := 0
  reply := reply
  linkCalls := 0
  trace := []

/-- Append one action to the record. -/
def log (s : CUXInterface) (e : Event) : CUXInterface :=
  { s with trace := s.trace ++ [e] }

/-- Qt `emit`. -/
def emit (s : CUXInterface) (sig : Signal) : CUXInterface :=
  s.log (Event.emit sig)

/-- Reading of `QDateTime::currentMSecsSinceEpoch()`: the next value of the clock. -/
def currentMSecsSinceEpoch (s : CUXInterface) : Int × CUXInterface :=
  (s.clock s.clockReads, { s with clockReads := s.clockReads + 1 })

/-- The library call `cux->isConnected()`, `false` standing in where `cux` is null and the
call is not made. -/
def linkConnected (s : CUXInterface) : Bool :=
  match s.cux with
  | some link => link.connected
  | none => false

/-- Storing of the output argument of a point read into the member passed by reference. -/
def store (p : Point) (r : Reply) (s : CUXInterface) : CUXInterface :=
  match p with
  | Point.MAFReading => { s with mafReading := r.real.getD s.mafReading }
  | Point.ThrottlePosition => { s with throttlePos := r.real.getD s.throttlePos }
  | Point.LambdaTrimShortLeft => { s with leftLambdaTrim := r.int.getD s.leftLambdaTrim }
  | Point.LambdaTrimShortRight => { s with rightLambdaTrim := r.int.getD s.rightLambdaTrim }
  | Point.EngineRPM => { s with engineSpeedRPM := r.int.getD s.engineSpeedRPM }
  | Point.FuelMapRowIndex =>
      { s with currentFuelMapRowIndex := r.int.getD s.currentFuelMapRowIndex }
  | Point.FuelMapColumnIndex =>
      { s with currentFuelMapColumnIndex := r.int.getD s.currentFuelMapColumnIndex }
  | Point.IdleBypassMotorPosition => { s with idleBypassPos := r.real.getD s.idleBypassPos }
  | Point.LambdaTrimLongLeft => { s with leftLambdaTrim := r.int.getD s.leftLambdaTrim }
  | Point.LambdaTrimLongRight => { s with rightLambdaTrim := r.int.getD s.rightLambdaTrim }
  | Point.MainVoltage => { s with mainVoltage := r.real.getD s.mainVoltage }
  | Point.TargetIdle => { s with targetIdleSpeed := r.int.getD s.targetIdleSpeed }
  | Point.IdleMode => { s with idleMode := r.flag.getD s.idleMode }
  | Point.FuelPumpRelayState => { s with fuelPumpRelayOn := r.flag.getD s.fuelPumpRelayOn }
  | Point.GearSelection => { s with gear := r.int.getD s.gear }
  | Point.RoadSpeed => { s with roadSpeedMPH := r.int.getD s.roadSpeedMPH }
  | Point.MILOn => { s with milOn := r.flag.getD s.milOn }
  | Point.CoolantTemp => { s with coolantTempF := r.int.getD s.coolantTempF }
  | Point.FuelTemp => { s with fuelTempF := r.int.getD s.fuelTempF }
  | Point.CurrentFuelMap => { s with currentFuelMapIndex := r.int.getD s.currentFuelMapIndex }

/-- The state right after the point read `p` issued in state `s`: the library has answered
request number `linkCalls`, the call is recorded and the output argument is stored. -/
def afterRead (p : Point) (s : CUXInterface) : CUXInterface :=
  store p (s.reply s.linkCalls p)
    { s with linkCalls := s.linkCalls + 1,
             trace := s.trace ++ [Event.read p (s.reply s.linkCalls p).ok] }

/-- One call `cux->getX(member)`: undefined when `cux` is null; otherwise the library
answers and the boolean it returns is handed back. -/
def pointRead (p : Point) (s : CUXInterface) : Option (Bool × CUXInterface) :=
  match s.cux with
  | none => none
  | some _ => some ((s.reply s.linkCalls p).ok, afterRead p s)

/-- The statement `result = mergeResult(result, cux->getX(member));`. -/
def mergeRead (p : Point) (a : ReadResult × CUXInterface) : Option (ReadResult × CUXInterface) :=
  (pointRead p a.2).map fun b => (mergeResultBool a.1 b.1, b.2)

/-- The statement `if (cond) body`, the condition being evaluated on the object. -/
def onlyIf (cond : CUXInterface → Bool)
    (body : ReadResult × CUXInterface → Option (ReadResult × CUXInterface))
    (a : ReadResult × CUXInterface) : Option (ReadResult × CUXInterface) :=
  if cond a.2 then body a else some a

/-- The statement `if (cond) body else other`. -/
def ifElse (cond : CUXInterface → Bool)
    (body other : ReadResult × CUXInterface → Option (ReadResult × CUXInterface))
    (a : ReadResult × CUXInterface) : Option (ReadResult × CUXInterface) :=
  if cond a.2 then body a else other a

/-- Body of `CUXInterface::readHighFreqData`. -/
def readHighFreqData (s : CUXInterface) : Option (ReadResult × CUXInterface) :=
  some (ReadResult.NoStatement, s.log (Event.tier Tier.high))
  >>= onlyIf (fun s => s.enabledSamples SampleType.MAF) (mergeRead Point.MAFReading)
  >>= onlyIf (fun s => s.enabledSamples SampleType.Throttle) (mergeRead Point.ThrottlePosition)
  >>= onlyIf (fun s => s.enabledSamples SampleType.LambdaTrim && decide (s.lambdaTrimType = 1))
        (fun a => mergeRead Point.LambdaTrimShortLeft a >>= mergeRead Point.LambdaTrimShortRight)
  >>= onlyIf (fun s => s.enabledSamples SampleType.EngineRPM) (mergeRead Point.EngineRPM)
  >>= onlyIf (fun s => s.enabledSamples SampleType.FuelMap)
        (fun a => mergeRead Point.FuelMapRowIndex a >>= mergeRead Point.FuelMapColumnIndex)
  >>= onlyIf (fun s => s.enabledSamples SampleType.IdleBypassPosition)
        (mergeRead Point.IdleBypassMotorPosition)

/-- The closing statement of the mid tier:
`if (result == ReadResult_Success) lastMidFreqReadTime = QDateTime::currentMSecsSinceEpoch();`. -/
def stampMid (a : ReadResult × CUXInterface) : ReadResult × CUXInterface :=
  if a.1 = ReadResult.Success then
    let t := a.2.currentMSecsSinceEpoch
    (a.1, { t.2 with lastMidFreqReadTime := t.1 })
  else a

/-- The closing statement of the low tier:
`if (result == ReadResult_Success) lastLowFreqReadTime = QDateTime::currentMSecsSinceEpoch();`. -/
def stampLow (a : ReadResult × CUXInterface) : ReadResult × CUXInterface :=
  if a.1 = ReadResult.Success then
    let t := a.2.currentMSecsSinceEpoch
    (a.1, { t.2 with lastLowFreqReadTime := t.1 })
  else a

/-- Body of `CUXInterface::readMidFreqData`. -/
def readMidFreqData (s : CUXInterface) : Option (ReadResult × CUXInterface) :=
  (some (ReadResult.NoStatement, s.log (Event.tier Tier.mid))
  >>= onlyIf (fun s => s.enabledSamples SampleType.LambdaTrim && decide (s.lambdaTrimType = 2))
        (fun a => mergeRead Point.LambdaTrimLongLeft a >>= mergeRead Point.LambdaTrimLongRight)
  >>= onlyIf (fun s => s.enabledSamples SampleType.MainVoltage) (mergeRead Point.MainVoltage)
  >>= onlyIf (fun s => s.enabledSamples SampleType.TargetIdleRPM)
        (fun a => mergeRead Point.TargetIdle a >>= mergeRead Point.IdleMode)
  >>= onlyIf (fun s => s.enabledSamples SampleType.FuelPumpRelay)
        (mergeRead Point.FuelPumpRelayState)
  >>= onlyIf (fun s => s.enabledSamples SampleType.GearSelection) (mergeRead Point.GearSelection)
  >>= onlyIf (fun s => s.enabledSamples SampleType.RoadSpeed) (mergeRead Point.RoadSpeed)).map
    stampMid

/-- The statement `if (!cux->isMILOn(milOn)) milOn = false;`, whose outcome is not merged. -/
def readMIL (a : ReadResult × CUXInterface) : Option (ReadResult × CUXInterface) :=
  (pointRead Point.MILOn a.2).map fun b =>
    (a.1, if b.1 then b.2 else { b.2 with milOn := false })

/-- Body of `CUXInterface::readLowFreqData`. -/
def readLowFreqData (s : CUXInterface) : Option (ReadResult × CUXInterface) :=
  (some (ReadResult.NoStatement, s.log (Event.tier Tier.low))
  >>= readMIL
  >>= ifElse (fun s => s.enabledSamples SampleType.EngineTemperature && decide (s.readCount % 2 = 0))
        (mergeRead Point.CoolantTemp)
        (onlyIf (fun s => s.enabledSamples SampleType.FuelTemperature) (mergeRead Point.FuelTemp))
  >>= onlyIf (fun s => s.enabledSamples SampleType.FuelMap && decide (s.readCount % 7 = 0))
        (mergeRead Point.CurrentFuelMap)).map
    stampLow

/-- The statement `totalResult = mergeResult(totalResult, tier());`. -/
def mergeTier (tier : CUXInterface → Option (ReadResult × CUXInterface))
    (a : ReadResult × CUXInterface) : Option (ReadResult × CUXInterface) :=
  (tier a.2).map fun b => (mergeResult a.1 b.1, b.2)

/-- Body of `CUXInterface::readData`. -/
def readData (s : CUXInterface) : Option (ReadResult × CUXInterface) :=
  let t := s.currentMSecsSinceEpoch
  let now := t.1
  some (ReadResult.NoStatement, t.2)
  >>= mergeTier readHighFreqData
  >>= onlyIf (fun s => decide (now > s.lastMidFreqReadTime + 200)) (mergeTier readMidFreqData)
  >>= onlyIf (fun s => decide (now > s.lastLowFreqReadTime + 800)) (mergeTier readLowFreqData)

/-- The condition `stopPolling || shutdownThread || (cux == 0) || (!cux->isConnected())`. -/
def stopCondition (s : CUXInterface) : Bool :=
  s.stopPolling || s.shutdownThread || s.cux.isNone || !s.linkConnected

/-- The statement `if ((cux != 0) && cux->isConnected()) cux->disconnect();`, after which the
library reports not connected. -/
def disconnectIfConnected (s : CUXInterface) : CUXInterface :=
  match s.cux with
  | some link =>
    if link.connected then
      { s with cux := some { link with connected := false },
               trace := s.trace ++ [Event.linkDisconnect] }
    else s
  | none => s

/-- The statement `timer->start(msec)`: undefined when `timer` is null. -/
def timerStart (msec : Int) (s : CUXInterface) : Option CUXInterface :=
  match s.timer with
  | none => none
  | some t =>
    some { s with timer := some { t with active := true, interval := msec },
                  trace := s.trace ++ [Event.timerStart msec] }

/-- The signals of `pollEcu` that follow the verdict of `readData`. -/
def emitVerdict (res : ReadResult) (s : CUXInterface) : CUXInterface :=
  if res = ReadResult.Success then
    (s.emit Signal.readSuccess).emit Signal.dataReady
  else if res = ReadResult.Failure then
    s.emit Signal.readError
  else s

/-- Body of `CUXInterface::pollEcu`. -/
def pollEcu (s : CUXInterface) : Option CUXInterface :=
  if s.stopCondition then
    let s1 := s.disconnectIfConnected.emit Signal.disconnected
    some (if s1.shutdownThread then s1.log Event.threadQuit else s1)
  else
    readData s >>= fun a =>
      let s1 := emitVerdict a.1 a.2
      timerStart 0 { s1 with readCount := incrementCount s1.readCount }

/-- Body of `CUXInterface::onTimer`. -/
def onTimer (s : CUXInterface) : Option CUXInterface :=
  pollEcu s

/-- Expiry of the timer as Qt delivers it: nothing happens unless the timer is pending;
a pending single-shot timer stops being pending and its slot `onTimer` runs. -/
def timeout (s : CUXInterface) : Option CUXInterface :=
  match s.timer with
  | some t =>
    if t.active then
      onTimer { s with timer := some { t with active := if t.singleShot then false else true } }
    else some s
  | none => some s

/-- Consecutive poll cycles: `n` runs of `pollEcu`. -/
def pollCycles : Nat → CUXInterface → Option CUXInterface
  | 0, s => some s
  | n + 1, s => pollEcu s >>= pollCycles n

/-- Consecutive timer expiries. -/
def timeouts : Nat → CUXInterface → Option CUXInterface
  | 0, s => some s
  | n + 1, s => timeout s >>= timeouts n

/-- What was recorded between an earlier state `s` and a later state `s1`. -/
def newEvents (s s1 : CUXInterface) : List Event :=
  s1.trace.drop s.trace.length

/-- The start time of the poll cycle that begins in state `s`: the clock reading that
`readData` takes first. -/
def startTime (s : CUXInterface) : Int :=
  s.clock s.clockReads

end CUXInterface

/-- The signals among a list of actions, in order. -/
def signalsOf : List Event → List Signal
  | [] => []
  | Event.emit sig :: es => sig :: signalsOf es
  | _ :: es => signalsOf es

/-- The point reads among a list of actions, in order, with their outcomes. -/
def readsOf : List Event → List (Point × Bool)
  | [] => []
  | Event.read p ok :: es => (p, ok) :: readsOf es
  | _ :: es => readsOf es

/-- The outcomes that a poll cycle merges: those of every point read but the MIL read. -/
def mergedOutcomes (es : List Event) : List Bool :=
  ((readsOf es).filter fun r => decide (r.1 ≠ Point.MILOn)).map Prod.snd

/-! ## Closed forms used to describe a poll cycle -/

/-- The members and environment functions that no tier function writes. -/
structure Static where
  cux : Option Comm14CUX
  timer : Option QTimer
  stopPolling : Bool
  shutdownThread : Bool
  readCount : Nat
  lambdaTrimType : Int
  enabledSamples : SampleType → Bool
  clock : Nat → Int
  reply : Nat → Point → Reply

/-- Projection of the object onto the part that no tier function writes. -/
def CUXInterface.static (s : CUXInterface) : Static where
  cux := s.cux
  timer := s.timer
  stopPolling := s.stopPolling
  shutdownThread := s.shutdownThread
  readCount := s.readCount
  lambdaTrimType := s.lambdaTrimType
  enabledSamples := s.enabledSamples
  clock := s.clock
  reply := s.reply

/-- A run of merged point reads, in order. -/
def runReads : List Point → ReadResult × CUXInterface → Option (ReadResult × CUXInterface)
  | [], a => some a
  | p :: ps, a => CUXInterface.mergeRead p a >>= runReads ps

/-- The outcomes of the point reads `ps` when they are issued from request number `k` on. -/
def answers (reply : Nat → Point → Reply) : Nat → List Point → List Bool
  | _, [] => []
  | k, p :: ps => (reply k p).ok :: answers reply (k + 1) ps

/-- The record of the point reads `ps` when they are issued from request number `k` on. -/
def readEvents (reply : Nat → Point → Reply) : Nat → List Point → List Event
  | _, [] => []
  | k, p :: ps => Event.read p (reply k p).ok :: readEvents reply (k + 1) ps

/-- Verdict of a run of boolean outcomes merged one by one from `NoStatement`. -/
def verdict (oks : List Bool) : ReadResult :=
  oks.foldl mergeResultBool ReadResult.NoStatement

/-- The point reads that `readHighFreqData` issues in state `s`, in order. -/
def highPlan (s : CUXInterface) : List Point :=
  (if s.enabledSamples SampleType.MAF then [Point.MAFReading] else []) ++
  (if s.enabledSamples SampleType.Throttle then [Point.ThrottlePosition] else []) ++
  (if s.enabledSamples SampleType.LambdaTrim && decide (s.lambdaTrimType = 1) then
    [Point.LambdaTrimShortLeft, Point.LambdaTrimShortRight] else []) ++
  (if s.enabledSamples SampleType.EngineRPM then [Point.EngineRPM] else []) ++
  (if s.enabledSamples SampleType.FuelMap then
    [Point.FuelMapRowIndex, Point.FuelMapColumnIndex] else []) ++
  (if s.enabledSamples SampleType.IdleBypassPosition then
    [Point.IdleBypassMotorPosition] else [])

/-- The point reads that `readMidFreqData` issues in state `s`, in order. -/
def midPlan (s : CUXInterface) : List Point :=
  (if s.enabledSamples SampleType.LambdaTrim && decide (s.lambdaTrimType = 2) then
    [Point.LambdaTrimLongLeft, Point.LambdaTrimLongRight] else []) ++
  (if s.enabledSamples SampleType.MainVoltage then [Point.MainVoltage] else []) ++
  (if s.enabledSamples SampleType.TargetIdleRPM then [Point.TargetIdle, Point.IdleMode] else []) ++
  (if s.enabledSamples SampleType.FuelPumpRelay then [Point.FuelPumpRelayState] else []) ++
  (if s.enabledSamples SampleType.GearSelection then [Point.GearSelection] else []) ++
  (if s.enabledSamples SampleType.RoadSpeed then [Point.RoadSpeed] else [])

/-- The merged point reads that `readLowFreqData` issues in state `s` after the MIL read,
in order. -/
def lowPlan (s : CUXInterface) : List Point :=
  (if s.enabledSamples SampleType.EngineTemperature && decide (s.readCount % 2 = 0) then
    [Point.CoolantTemp]
   else if s.enabledSamples SampleType.FuelTemperature then [Point.FuelTemp] else []) ++
  (if s.enabledSamples SampleType.FuelMap && decide (s.readCount % 7 = 0) then
    [Point.CurrentFuelMap] else [])

/-- The mid tier's timing gate of `readData`, for the cycle that starts in state `s`. -/
def midGate (s : CUXInterface) : Bool :=
  decide (s.startTime > s.lastMidFreqReadTime + 200)

/-- The low tier's timing gate of `readData`, for the cycle that starts in state `s`. -/
def lowGate (s : CUXInterface) : Bool :=
  decide (s.startTime > s.lastLowFreqReadTime + 800)

/-- The point reads of the cycle that starts in state `s` that come before the low tier. -/
def headPlan (s : CUXInterface) : List Point :=
  highPlan s ++ (if midGate s then midPlan s else [])

/-- Record of the high tier in the cycle that starts in state `s`. -/
def highEvents (s : CUXInterface) : List Event :=
  Event.tier Tier.high :: readEvents s.reply s.linkCalls (highPlan s)

/-- Record of the mid tier in the cycle that starts in state `s`. -/
def midEvents (s : CUXInterface) : List Event :=
  if midGate s then
    Event.tier Tier.mid :: readEvents s.reply (s.linkCalls + (highPlan s).length) (midPlan s)
  else []

/-- Record of the low tier in the cycle that starts in state `s`. -/
def lowEvents (s : CUXInterface) : List Event :=
  if lowGate s then
    Event.tier Tier.low ::
      Event.read Point.MILOn (s.reply (s.linkCalls + (headPlan s).length) Point.MILOn).ok ::
      readEvents s.reply (s.linkCalls + (headPlan s).length + 1) (lowPlan s)
  else []

/-- Record of `readData` in the cycle that starts in state `s`. -/
def cycleEvents (s : CUXInterface) : List Event :=
  highEvents s ++ midEvents s ++ lowEvents s

/-- Two states that differ at most in the cached values, the number of requests made and
the record: what a point read can change. -/
def Agree (s x : CUXInterface) : Prop :=
  x.static = s.static ∧ x.lastMidFreqReadTime = s.lastMidFreqReadTime ∧
  x.lastLowFreqReadTime = s.lastLowFreqReadTime ∧ x.clockReads = s.clockReads

/-- The state in which `readLowFreqData` starts its merged reads: the tier entered, the MIL
read done and `milOn` cleared if that read failed. -/
def CUXInterface.afterMIL (s : CUXInterface) : CUXInterface :=
  let s1 := CUXInterface.afterRead Point.MILOn (s.log (Event.tier Tier.low))
  if (s.reply s.linkCalls Point.MILOn).ok then s1 else { s1 with milOn := false }

/-- The actions by which `pollEcu` reports the verdict of `readData`. -/
def verdictEvents : ReadResult → List Event
  | ReadResult.Success => [Event.emit Signal.readSuccess, Event.emit Signal.dataReady]
  | ReadResult.Failure => [Event.emit Signal.readError]
  | ReadResult.NoStatement => []

/-- The signals by which `pollEcu` reports the verdict of `readData`. -/
def verdictSignals : ReadResult → List Signal
  | ReadResult.Success => [Signal.readSuccess, Signal.dataReady]
  | ReadResult.Failure => [Signal.readError]
  | ReadResult.NoStatement => []

/-- The cached last-known values that the getters hand out. -/
structure LastKnownValues where
  roadSpeedMPH : Int
  engineSpeedRPM : Int
  targetIdleSpeed : Int
  coolantTempF : Int
  fuelTempF : Int
  throttlePos : Rat
  gear : Int
  mainVoltage : Rat
  currentFuelMapIndex : Int
  currentFuelMapRowIndex : Int
  currentFuelMapColumnIndex : Int
  mafReading : Rat
  idleBypassPos : Rat
  fuelPumpRelayOn : Bool
  leftLambdaTrim : Int
  rightLambdaTrim : Int
  milOn : Bool
  idleMode : Bool
  fuelMapAdjFactor : Int

/-- Projection of the object onto its cached last-known values. -/
def CUXInterface.cache (s : CUXInterface) : LastKnownValues where
  roadSpeedMPH := s.roadSpeedMPH
  engineSpeedRPM := s.engineSpeedRPM
  targetIdleSpeed := s.targetIdleSpeed
  coolantTempF := s.coolantTempF
  fuelTempF := s.fuelTempF
  throttlePos := s.throttlePos
  gear := s.gear
  mainVoltage := s.mainVoltage
  currentFuelMapIndex := s.currentFuelMapIndex
  currentFuelMapRowIndex := s.currentFuelMapRowIndex
  currentFuelMapColumnIndex := s.currentFuelMapColumnIndex
  mafReading := s.mafReading
  idleBypassPos := s.idleBypassPos
  fuelPumpRelayOn := s.fuelPumpRelayOn
  leftLambdaTrim := s.leftLambdaTrim
  rightLambdaTrim := s.rightLambdaTrim
  milOn := s.milOn
  idleMode := s.idleMode
  fuelMapAdjFactor := s.fuelMapAdjFactor

/-- Record of `pollEcu` in a cycle that starts in state `s` under a stop condition. -/
def stopEvents (s : CUXInterface) : List Event :=
  (if s.linkConnected then [Event.linkDisconnect] else []) ++
  [Event.emit Signal.disconnected] ++
  (if s.shutdownThread then [Event.threadQuit] else [])

/-- The state in which `pollEcu` leaves the object when it starts in state `s` under a stop
condition: the link, if present, reports not connected, and the record has grown. -/
def CUXInterface.stopped (s : CUXInterface) : CUXInterface :=
  { s with cux := s.cux.map (fun link => { link with connected := false }),
           trace := s.trace ++ stopEvents s }

/-! ## Concrete sessions -/

/-- A device that answers every point read with success. -/
def allOk : Nat → Point → Reply := fun _ _ => { ok := true }

/-- A device that fails every point read. -/
def allFail : Nat → Point → Reply := fun _ _ => { ok := false }

/-- A clock that advances by 100 ms from one reading to the next, from 1000 on. -/
def steadyClock : Nat → Int := fun k => 1000 + 100 * k

/-- A clock whose readings are 1000, 1000, 1400 and 2000 from then on. -/
def tempClock : Nat → Int := fun k =>
  if k ≤ 1 then 1000 else if k = 2 then 1400 else 2000

/-- A clock whose readings are 1000, 1000, 1300, 1500 and 2000 from then on. -/
def slowClock : Nat → Int := fun k =>
  if k ≤ 1 then 1000 else if k = 2 then 1300 else if k = 3 then 1500 else 2000

/-- A session right after a successful start of the worker and of the link: link present
and connected, timer present and not pending, the listed samples enabled, nothing polled
yet. -/
def session (clock : Nat → Int) (reply : Nat → Point → Reply) (enabled : List SampleType) :
    CUXInterface :=
  { CUXInterface.init "COM1" SpeedUnits.MPH TemperatureUnits.Fahrenheit clock reply with
    cux := some { connected := true }
    timer := some { singleShot := true, active := false, interval := 0 }
    enabledSamples := fun k => enabled.contains k }

/-- A session with road speed, engine speed and the fuel map enabled on a device that
answers. -/
def driveSession : CUXInterface :=
  session steadyClock allOk [SampleType.RoadSpeed, SampleType.EngineRPM, SampleType.FuelMap]

/-- The session `driveSession` after the interactive side has asked to stop. -/
def haltedSession : CUXInterface :=
  { driveSession with stopPolling := true }

/-- A session with both temperatures enabled on a device that answers. -/
def tempSession : CUXInterface :=
  session tempClock allOk [SampleType.EngineTemperature, SampleType.FuelTemperature]

/-- A session with both temperatures enabled, under the clock `slowClock`. -/
def slowSession : CUXInterface :=
  session slowClock allOk [SampleType.EngineTemperature, SampleType.FuelTemperature]

/-- The session `slowSession` after its first poll cycle. -/
def slowSession1 : CUXInterface :=
  (CUXInterface.pollCycles 1 slowSession).getD slowSession

/-- The session `slowSession` after its second poll cycle. -/
def slowSession2 : CUXInterface :=
  (CUXInterface.pollCycles 2 slowSession).getD slowSession

/-- The session `slowSession` after its third poll cycle. -/
def slowSession3 : CUXInterface :=
  (CUXInterface.pollCycles 3 slowSession).getD slowSession

/-- A session with road speed and engine speed enabled on a device that fails every
read. -/
def failingSession : CUXInterface :=
  session steadyClock allFail [SampleType.RoadSpeed, SampleType.EngineRPM]

/-- A session with only the fuel map enabled on a device that answers. -/
def fuelSession : CUXInterface :=
  session steadyClock allOk [SampleType.FuelMap]

/-- The session `fuelSession` after its first seven poll cycles, of which the first
entered the low tier and stamped 1100 ms; the eighth cycle will start at 1800 ms. -/
def fuelSession7 : CUXInterface :=
  (CUXInterface.pollCycles 7 fuelSession).getD fuelSession

/-- The entries into the low tier and the temperature reads among a list of actions. -/
def temperatureSteps (es : List Event) : List Event :=
  es.filter fun e =>
    decide (e = Event.tier Tier.low) ||
    decide (e = Event.read Point.CoolantTemp true) ||
    decide (e = Event.read Point.CoolantTemp false) ||
    decide (e = Event.read Point.FuelTemp true) ||
    decide (e = Event.read Point.FuelTemp false)

/-! ## The command handlers -/

/-- What the library answers to the requests that one command handler makes, in the order
in which the handler makes them, and what the interactive side does meanwhile.
`connect` is the answer of `cux->connect(device)`, `first` and `second` are the answers of
the requests that follow it, `bytes` is what the first request left in the buffer it was
handed (if it wrote to it), and `cancelDuring` tells whether the interactive side calls
`cancelRead` while the handler's transfer runs. -/
structure Answers where
  connect : Bool
  first : Reply
  second : Reply
  bytes : Option (List Nat) := none
  cancelDuring : Bool := false

/-- The buffer `new QByteArray(size, 0x00)`. -/
def zeroBuffer (size : Nat) : List Nat :=
  List.replicate size 0

namespace CUXInterface

/-- Modelled from the spec: the library call `cux->connect(device)` on a present link. The
library is outside the sources; the spec gives `connect(address) -> bool` as the attempt to
open the transport and `isConnected() -> bool` as its state, so after the call the link
reports connected exactly when the call returned true. -/
def linkConnect (ok : Bool) (s : CUXInterface) : CUXInterface :=
  { s with cux := s.cux.map fun link => { link with connected := ok } }

/-- Body of `CUXInterface::onFaultCodesRequested`. -/
def onFaultCodesRequested (env : Answers) (s : CUXInterface) : CUXInterface :=
  match s.cux with
  | some _ =>
    let s1 := { s with faultCodes := 0 }
    let s2 := s1.linkConnect env.connect
    if env.connect then
      let s3 := { s2 with faultCodes := env.first.int.getD s2.faultCodes }
      if env.first.ok then s3.emit Signal.faultCodesReady
      else s3.emit Signal.faultCodesReadFailed
    else s2.emit Signal.faultCodesReadFailed
  | none => s.emit Signal.notConnected

/-- Body of `CUXInterface::onFaultCodesClearRequested`; `first` answers `clearFaultCodes`
and `second` answers `getFaultCodes`. -/
def onFaultCodesClearRequested (env : Answers) (s : CUXInterface) : CUXInterface :=
  match s.cux with
  | some _ =>
    let s1 := s.linkConnect env.connect
    if env.connect && env.first.ok then
      let s2 := { s1 with faultCodes := env.second.int.getD s1.faultCodes }
      if env.second.ok then s2.emit (Signal.faultCodesClearSuccess s2.faultCodes)
      else s2.emit Signal.faultCodesClearFailure
    else s1.emit Signal.faultCodesClearFailure
  | none => s.emit Signal.faultCodesClearFailure

/-- Body of `CUXInterface::onReadPROMImageRequested`; `first` answers `dumpROM`, which is
called only when `connect` returned true. A `cancelRead` of the interactive side that
arrives while the transfer runs sets `readCanceled` before the handler looks at it. -/
def onReadPROMImageRequested (env : Answers) (s : CUXInterface) : CUXInterface :=
  match s.cux with
  | some _ =>
    let s1 := if s.promImage.isNone then
        { s with promImage := some (zeroBuffer 16384) } else s
    let s2 := s1.linkConnect env.connect
    let s3 := if env.connect then
        { s2 with promImage := match env.bytes with
                               | some b => some b
                               | none => s2.promImage }
      else s2
    let s4 := if env.cancelDuring then { s3 with readCanceled := true } else s3
    let s5 :=
      if env.connect && env.first.ok then
        (if !s4.readCanceled then s4.emit Signal.promImageReady else s4)
      else
        (if !s4.readCanceled then s4.emit Signal.promImageReadFailed else s4)
    { s5 with readCanceled := false }
  | none => s.emit Signal.notConnected

/-- Body of `CUXInterface::onFuelMapRequested`; `first` answers `getFuelMap`, which writes
the adjustment factor and the buffer of the map, and `second` answers `getRPMLimit`. -/
def onFuelMapRequested (fuelMapId : Int) (env : Answers) (s : CUXInterface) : CUXInterface :=
  match s.cux with
  | some _ =>
    let s1 := s.linkConnect env.connect
    if env.connect then
      let s2 := if (s1.fuelMaps fuelMapId).isNone then
          { s1 with fuelMaps :=
              Function.update s1.fuelMaps fuelMapId (some (zeroBuffer 128)) }
        else s1
      let s3 := { s2 with
        fuelMapAdjFactor := env.first.int.getD s2.fuelMapAdjFactor
        fuelMaps := Function.update s2.fuelMaps fuelMapId
          (match env.bytes with
           | some b => some b
           | none => s2.fuelMaps fuelMapId) }
      let s4 := if env.first.ok then s3.emit (Signal.fuelMapReady fuelMapId) else s3
      let s5 := { s4 with rpmLimit := env.second.int.getD s4.rpmLimit }
      if env.second.ok then s5.emit (Signal.rpmLimitReady s5.rpmLimit) else s5
    else s1
  | none => s

/-- Body of `CUXInterface::onFuelPumpRunRequest`. -/
def onFuelPumpRunRequest (env : Answers) (s : CUXInterface) : CUXInterface :=
  match s.cux with
  | some _ => s.linkConnect env.connect
  | none => s

/-- Body of `CUXInterface::onIdleAirControlMovementRequest`. -/
def onIdleAirControlMovementRequest (_direction _steps : Int) (env : Answers)
    (s : CUXInterface) : CUXInterface :=
  match s.cux with
  | some _ =>
    let s1 := s.linkConnect env.connect
    if env.connect then s1 else s1.emit Signal.notConnected
  | none => s.emit Signal.notConnected

/-- Body of `CUXInterface::connectToECU`; `first` answers `getTuneRevision`. -/
def connectToECU (env : Answers) (s : CUXInterface) : Bool × CUXInterface :=
  match s.cux with
  | some _ =>
    let s1 := s.linkConnect env.connect
    if env.connect then
      let s2 := s1.emit Signal.connected
      let s3 := { s2 with tuneRevision := env.first.int.getD s2.tuneRevision }
      (true, if env.first.ok then s3.emit (Signal.revisionNumberReady s3.tuneRevision)
             else s3)
    else (false, s1)
  | none => (false, s)

/-- Body of `CUXInterface::disconnectFromECU`. -/
def disconnectFromECU (s : CUXInterface) : CUXInterface :=
  { s with stopPolling := true, promImage := none, fuelMaps := fun _ => none }

/-- Body of `CUXInterface::onShutdownThreadRequest`. -/
def onShutdownThreadRequest (s : CUXInterface) : CUXInterface :=
  (s.disconnectIfConnected.emit Signal.disconnected).log Event.threadQuit

/-- Body of `CUXInterface::isConnected`. -/
def isConnected (s : CUXInterface) : Bool :=
  s.linkConnected

/-- Body of `CUXInterface::setSerialDevice`. -/
def setSerialDevice (device : String) (s : CUXInterface) : CUXInterface :=
  { s with deviceName := device }

/-- Body of `CUXInterface::onParentThreadFinished`. -/
def onParentThreadFinished (s : CUXInterface) : CUXInterface :=
  { s with cux := none, timer := none }

/-- Body of `CUXInterface::onParentThreadStarted`: a new library handle is not connected, a
new timer is not running. -/
def onParentThreadStarted (s : CUXInterface) : CUXInterface :=
  let s1 := if s.cux.isNone then { s with cux := some { connected := false } } else s
  let s2 := if s1.timer.isNone then
      { s1 with timer := some { singleShot := true, active := false, interval := 0 } }
    else s1
  s2.emit Signal.interfaceReadyForPolling

/-- Body of `CUXInterface::onStartPollingRequest`. -/
def onStartPollingRequest (env : Answers) (s : CUXInterface) : Option CUXInterface :=
  let c := connectToECU env s
  if c.1 then pollEcu { c.2 with stopPolling := false, shutdownThread := false }
  else some (c.2.emit (Signal.failedToConnect c.2.deviceName))

/-- Body of `CUXInterface::cancelRead`: undefined when `cux` is null. -/
def cancelRead (s : CUXInterface) : Option CUXInterface :=
  match s.cux with
  | some _ => some { s with readCanceled := true }
  | none => none

/-- Body of `CUXInterface::getPROMImage`. -/
def getPROMImage (s : CUXInterface) : Option (List Nat) :=
  s.promImage

/-- Body of `CUXInterface::getFuelMap`: the buffer of the map if the table has the key,
null otherwise. -/
def getFuelMap (fuelMapId : Int) (s : CUXInterface) : Option (List Nat) :=
  if (s.fuelMaps fuelMapId).isSome then s.fuelMaps fuelMapId else none

/-- Body of `CUXInterface::setSpeedUnits`. -/
def setSpeedUnits (units : SpeedUnits) (s : CUXInterface) : CUXInterface :=
  { s with speedUnits := units }

/-- Body of `CUXInterface::setTemperatureUnits`. -/
def setTemperatureUnits (units : TemperatureUnits) (s : CUXInterface) : CUXInterface :=
  { s with tempUnits := units }

/-- Body of `CUXInterface::setLambdaTrimType`. -/
def setLambdaTrimType (type : Int) (s : CUXInterface) : CUXInterface :=
  { s with lambdaTrimType := type }

/-- Body of `CUXInterface::setMAFReadingType`. -/
def setMAFReadingType (type : Comm14CUXAirflowType) (s : CUXInterface) : CUXInterface :=
  { s with airflowType := type }

/-- Body of `CUXInterface::setThrottleReadingType`. -/
def setThrottleReadingType (type : Comm14CUXThrottlePosType) (s : CUXInterface) :
    CUXInterface :=
  { s with throttlePosType := type }

/-- Body of `CUXInterface::setEnabledSamples`. The argument, a `QHash<SampleType, bool>`, is
the list of its entries: `samples.keys()` lists the keys and `samples[field]` is the value
of the first entry with that key. Each key is written by itself. -/
def setEnabledSamples (samples : List (SampleType × Bool)) (s : CUXInterface) :
    CUXInterface :=
  (samples.map Prod.fst).foldl
    (fun x field =>
      { x with enabledSamples :=
          Function.update x.enabledSamples field ((samples.lookup field).getD false) })
    s

/-- Body of `CUXInterface::onSimModeWriteRequest`, which is empty. -/
def onSimModeWriteRequest (s : CUXInterface) : CUXInterface :=
  s

end CUXInterface

/-! ## Unit conversion -/

/-- Largest value of an `int`, which has 32 bits on the platforms of Qt. -/
def INT_MAX : Int := 2147483647

/-- Smallest value of an `int`. -/
def INT_MIN : Int := -2147483648

/-- Truncation of a rational toward zero. -/
def truncate (x : ℚ) : Int :=
  if 0 ≤ x then ⌊x⌋ else -⌊-x⌋

/-- The conversion `(int)x` of a `double` that holds the rational `x`: truncation toward
zero, undefined when the truncated value is not an `int`. -/
def doubleToInt (x : ℚ) : Option Int :=
  if INT_MIN ≤ truncate x ∧ truncate x ≤ INT_MAX then some (truncate x) else none

/-- Rounding of a rational to the nearest integer, a tie going to the even one. -/
def roundHalfEven (x : ℚ) : Int :=
  if x - ⌊x⌋ < 1 / 2 then ⌊x⌋
  else if 1 / 2 < x - ⌊x⌋ then ⌊x⌋ + 1
  else if ⌊x⌋ % 2 = 0 then ⌊x⌋ else ⌊x⌋ + 1

/-- The `double` nearest to a rational `x`, which is what an arithmetic operation on
doubles with exact result `x` yields, and what a decimal literal `x` denotes: with
`2 ^ e ≤ |x| < 2 ^ (e + 1)`, the multiple of `2 ^ (e - 52)` nearest to `x`, a tie going to
the one with the even multiplier (53 significant bits, round to nearest, ties to even).
The exponent is not bounded here: the values rounded in `convertSpeed` on an `int` are 0 or
lie between 1 and `2 ^ 32` in magnitude, far from the overflow and the underflow of a
`double`. -/
def toDouble (x : ℚ) : ℚ :=
  (roundHalfEven (x / 2 ^ (Int.log 2 |x| - 52)) : ℚ) * 2 ^ (Int.log 2 |x| - 52)

namespace CUXInterface

/-- Body of `CUXInterface::convertSpeed`. A `double` is the rational it holds: the
initialisation `double speed = speedMph`, the literals `1.46666667` and `1.609344` and the
product `speed *= ...` each yield the `double` nearest to the exact value (`toDouble`), and
`(int)speed` truncates that `double`. -/
def convertSpeed (s : CUXInterface) (speedMph : Int) : Option Int :=
  let speed : ℚ := toDouble speedMph
  doubleToInt
    (match s.speedUnits with
     | SpeedUnits.FPS => toDouble (speed * toDouble 1.46666667)
     | SpeedUnits.KPH => toDouble (speed * toDouble 1.609344)
     | SpeedUnits.MPH => speed)

/-- Body of `CUXInterface::convertTemperature`, doubles being taken as exact rationals and
the constant as the decimal written in the source. -/
def convertTemperature (s : CUXInterface) (tempF : Int) : Option Int :=
  let temp : ℚ := tempF
  doubleToInt
    (match s.tempUnits with
     | TemperatureUnits.Celcius => (temp - 32) * 0.5555556
     | TemperatureUnits.Fahrenheit => temp)

/-- Body of `CUXInterface::getRoadSpeed`. -/
def getRoadSpeed (s : CUXInterface) : Option Int :=
  s.convertSpeed s.roadSpeedMPH

/-- Body of `CUXInterface::getCoolantTemp`. -/
def getCoolantTemp (s : CUXInterface) : Option Int :=
  s.convertTemperature s.coolantTempF

/-- Body of `CUXInterface::getFuelTemp`. -/
def getFuelTemp (s : CUXInterface) : Option Int :=
  s.convertTemperature s.fuelTempF

end CUXInterface

/-! ## Histories of operations -/

/-- The operations on the object: its slots, setters and other public members as the
interactive side and the event loop of the worker invoke them, each with what the library
answers during it. -/
inductive Command
  | parentThreadStarted
  | parentThreadFinished
  | connect (env : Answers)
  | startPolling (env : Answers)
  | timeout
  | disconnect
  | shutdownThread
  | faultCodes (env : Answers)
  | faultCodesClear (env : Answers)
  | readPROMImage (env : Answers)
  | fuelMap (fuelMapId : Int) (env : Answers)
  | fuelPumpRun (env : Answers)
  | idleAirControl (direction steps : Int) (env : Answers)
  | cancelRead
  | setSerialDevice (device : String)
  | setSpeedUnits (units : SpeedUnits)
  | setTemperatureUnits (units : TemperatureUnits)
  | setLambdaTrimType (type : Int)
  | setMAFReadingType (type : Comm14CUXAirflowType)
  | setThrottleReadingType (type : Comm14CUXThrottlePosType)
  | setEnabledSamples (samples : List (SampleType × Bool))
  | simModeWrite

/-- One operation on the object; `none` where the operation dereferences a null pointer. -/
def step : Command → CUXInterface → Option CUXInterface
  | Command.parentThreadStarted, s => some s.onParentThreadStarted
  | Command.parentThreadFinished, s => some s.onParentThreadFinished
  | Command.connect env, s => some (s.connectToECU env).2
  | Command.startPolling env, s => s.onStartPollingRequest env
  | Command.timeout, s => s.timeout
  | Command.disconnect, s => some s.disconnectFromECU
  | Command.shutdownThread, s => some s.onShutdownThreadRequest
  | Command.faultCodes env, s => some (s.onFaultCodesRequested env)
  | Command.faultCodesClear env, s => some (s.onFaultCodesClearRequested env)
  | Command.readPROMImage env, s => some (s.onReadPROMImageRequested env)
  | Command.fuelMap fuelMapId env, s => some (s.onFuelMapRequested fuelMapId env)
  | Command.fuelPumpRun env, s => some (s.onFuelPumpRunRequest env)
  | Command.idleAirControl direction steps env, s =>
      some (s.onIdleAirControlMovementRequest direction steps env)
  | Command.cancelRead, s => s.cancelRead
  | Command.setSerialDevice device, s => some (s.setSerialDevice device)
  | Command.setSpeedUnits units, s => some (s.setSpeedUnits units)
  | Command.setTemperatureUnits units, s => some (s.setTemperatureUnits units)
  | Command.setLambdaTrimType type, s => some (s.setLambdaTrimType type)
  | Command.setMAFReadingType type, s => some (s.setMAFReadingType type)
  | Command.setThrottleReadingType type, s => some (s.setThrottleReadingType type)
  | Command.setEnabledSamples samples, s => some (s.setEnabledSamples samples)
  | Command.simModeWrite, s => some s.onSimModeWriteRequest

/-- A history of operations, oldest first. -/
def run : List Command → CUXInterface → Option CUXInterface
  | [], s => some s
  | c :: cs, s => step c s >>= run cs

/-- The members that no poll cycle writes. -/
structure Offline where
  deviceName : String
  readCanceled : Bool
  lambdaTrimType : Int
  airflowType : Comm14CUXAirflowType
  throttlePosType : Comm14CUXThrottlePosType
  promImage : Option (List Nat)
  fuelMapAdjFactor : Int
  speedUnits : SpeedUnits
  tempUnits : TemperatureUnits
  enabledSamples : SampleType → Bool
  fuelMaps : Int → Option (List Nat)
  faultCodes : Int
  tuneRevision : Int
  rpmLimit : Int

/-- Projection of the object onto the members that no poll cycle writes. -/
def CUXInterface.offline (s : CUXInterface) : Offline where
  deviceName := s.deviceName
  readCanceled := s.readCanceled
  lambdaTrimType := s.lambdaTrimType
  airflowType := s.airflowType
  throttlePosType := s.throttlePosType
  promImage := s.promImage
  fuelMapAdjFactor := s.fuelMapAdjFactor
  speedUnits := s.speedUnits
  tempUnits := s.tempUnits
  enabledSamples := s.enabledSamples
  fuelMaps := s.fuelMaps
  faultCodes := s.faultCodes
  tuneRevision := s.tuneRevision
  rpmLimit := s.rpmLimit

/-- The scheduler's members: the stop flags, the cycle counter and the tier timestamps. -/
def CUXInterface.scheduler (s : CUXInterface) : Bool × Bool × Nat × Int × Int :=
  (s.stopPolling, s.shutdownThread, s.readCount, s.lastMidFreqReadTime, s.lastLowFreqReadTime)

/-! ## Reads by sample kind and by tier -/

/-- The sample kind whose registry entry guards a point read; the MIL read has none. -/
def Point.sample : Point → Option SampleType
  | Point.MAFReading => some SampleType.MAF
  | Point.ThrottlePosition => some SampleType.Throttle
  | Point.LambdaTrimShortLeft => some SampleType.LambdaTrim
  | Point.LambdaTrimShortRight => some SampleType.LambdaTrim
  | Point.EngineRPM => some SampleType.EngineRPM
  | Point.FuelMapRowIndex => some SampleType.FuelMap
  | Point.FuelMapColumnIndex => some SampleType.FuelMap
  | Point.IdleBypassMotorPosition => some SampleType.IdleBypassPosition
  | Point.LambdaTrimLongLeft => some SampleType.LambdaTrim
  | Point.LambdaTrimLongRight => some SampleType.LambdaTrim
  | Point.MainVoltage => some SampleType.MainVoltage
  | Point.TargetIdle => some SampleType.TargetIdleRPM
  | Point.IdleMode => some SampleType.TargetIdleRPM
  | Point.FuelPumpRelayState => some SampleType.FuelPumpRelay
  | Point.GearSelection => some SampleType.GearSelection
  | Point.RoadSpeed => some SampleType.RoadSpeed
  | Point.MILOn => none
  | Point.CoolantTemp => some SampleType.EngineTemperature
  | Point.FuelTemp => some SampleType.FuelTemperature
  | Point.CurrentFuelMap => some SampleType.FuelMap

/-- The points of the reads with which a list of actions begins. -/
def leadingReads : List Event → List Point
  | Event.read p _ :: es => p :: leadingReads es
  | _ => []

/-- The points read by tier `t` in a list of actions: those of the reads that follow the
first entry into `t`, up to the next action that is not a read. -/
def tierReads (t : Tier) : List Event → List Point
  | [] => []
  | Event.tier u :: es => if u = t then leadingReads es else tierReads t es
  | _ :: es => tierReads t es

/-- A registry in which road speed and engine speed are enabled and nothing else is. -/
def onlyRoadSpeedAndRPM (s : CUXInterface) : Prop :=
  ∀ k, s.enabledSamples k = (decide (k = SampleType.RoadSpeed) || decide (k = SampleType.EngineRPM))

/-- A session with only road speed and engine speed enabled on a device that answers. -/
def roadSession : CUXInterface :=
  session steadyClock allOk [SampleType.RoadSpeed, SampleType.EngineRPM]

/-- The session `roadSession` after its first poll cycle, in which the mid tier read the
road speed and stamped 1100 ms; the second cycle will start at 1200 ms. -/
def roadSession1 : CUXInterface :=
  (CUXInterface.pollCycles 1 roadSession).getD roadSession

/-- The state left by the constructor with a device that answers, before the worker thread
has started: link and timer absent. -/
def freshObject : CUXInterface :=
  CUXInterface.init "COM1" SpeedUnits.MPH TemperatureUnits.Fahrenheit steadyClock allOk

/-- The state `freshObject` once the worker thread has started: link present, not
connected. -/
def startedObject : CUXInterface :=
  freshObject.onParentThreadStarted

/-- The state `freshObject` with kilometres per hour chosen as the speed unit. -/
def kphObject : CUXInterface :=
  freshObject.setSpeedUnits SpeedUnits.KPH

/-- The state `freshObject` with feet per second chosen as the speed unit. -/
def fpsObject : CUXInterface :=
  freshObject.setSpeedUnits SpeedUnits.FPS

/-- The state `freshObject` with degrees Celsius chosen as the temperature unit. -/
def celsiusObject : CUXInterface :=
  freshObject.setTemperatureUnits TemperatureUnits.Celcius

/-- Answers of a library on which every request succeeds and nothing is written. -/
def goodAnswers : Answers :=
  { connect := true, first := { ok := true }, second := { ok := true } }

/-- Answers of a library that connects and then fails every request. -/
def failedAnswers : Answers :=
  { connect := true, first := { ok := false }, second := { ok := false } }

/-- Answers of a library that connects and fails the transfer, the interactive side
calling `cancelRead` meanwhile. -/
def cancelledAnswers : Answers :=
  { connect := true, first := { ok := false }, second := { ok := false }, cancelDuring := true }

/-! ## Tier entries, single answers and the library version -/

/-- The entries into the tier functions among a list of actions, in order. -/
def tiersOf : List Event → List Tier
  | [] => []
  | Event.tier t :: es => t :: tiersOf es
  | _ :: es => tiersOf es

/-- The object in an environment whose library answers request number `k`, when that
request is the point read `p`, with `r`, and answers everything else as before. -/
def CUXInterface.withAnswer (k : Nat) (p : Point) (r : Reply) (s : CUXInterface) :
    CUXInterface :=
  { s with reply := fun i q => if i = k ∧ q = p then r else s.reply i q }

/-- Body of `CUXInterface::getVersion`, which is `return cux->getVersion();`: undefined when
`cux` is null. The structure `Comm14CUXVersion` belongs to the library; `version` is what
the library call answers. -/
def CUXInterface.getVersion {Version : Type} (version : Version) (s : CUXInterface) :
    Option Version :=
  match s.cux with
  | some _ => some version
  | none => none

/-- A session with only the fuel temperature enabled on a device that answers. -/
def fuelTempSession : CUXInterface :=
  session steadyClock allOk [SampleType.FuelTemperature]

/-- A session with the MIL read failing (the library still writing `true` to its output
argument) and every other read succeeding, both temperatures being enabled. -/
def milFailSession : CUXInterface :=
  session steadyClock
    (fun _ p => if p = Point.MILOn then { ok := false, flag := some true } else { ok := true })
    [SampleType.EngineTemperature, SampleType.FuelTemperature]

/-- A session with the lambda trim enabled on a device that answers; the constructor has
set `lambdaTrimType` to 1. -/
def trimSession : CUXInterface :=
  session steadyClock allOk [SampleType.LambdaTrim]

end RoverGauge

/-! ## The merge of verdicts -/

namespace RoverGauge

theorem mergeResult_NoStatement_left (v : ReadResult) :
    mergeResult ReadResult.NoStatement v = v := by
  cases v <;> rfl

theorem mergeResult_NoStatement_right (v : ReadResult) :
    mergeResult v ReadResult.NoStatement = v := by
  cases v <;> rfl

/-- C1: `NoStatement` is a two-sided identity of the merge of two verdicts: for every
verdict `v`, `mergeResult NoStatement v = v` and `mergeResult v NoStatement = v`. -/
theorem mergeResult_NoStatement_identity (v : ReadResult) :
    mergeResult ReadResult.NoStatement v = v ∧ mergeResult v ReadResult.NoStatement = v :=
  ⟨mergeResult_NoStatement_left v, mergeResult_NoStatement_right v⟩

theorem mergeStep_Success (i : MergeInput) : mergeStep ReadResult.Success i = ReadResult.Success := by
  rcases i with r | b
  · cases r <;> rfl
  · cases b <;> rfl

theorem foldl_mergeStep_Success (l : List MergeInput) :
    l.foldl mergeStep ReadResult.Success = ReadResult.Success := by
  induction l with
  | nil => rfl
  | cons i l ih => rw [List.foldl_cons, mergeStep_Success, ih]

/-- C2: a running verdict equal to `Success` stays `Success` under any run of merges, be
they merges of verdicts, of booleans, or of both in any order; so it never becomes
`Failure`. -/
theorem mergeResult_Success_absorbing (rs : List ReadResult) (bs : List Bool)
    (mixed : List MergeInput) :
    rs.foldl mergeResult ReadResult.Success = ReadResult.Success ∧
    bs.foldl mergeResultBool ReadResult.Success = ReadResult.Success ∧
    mixed.foldl mergeStep ReadResult.Success = ReadResult.Success ∧
    rs.foldl mergeResult ReadResult.Success ≠ ReadResult.Failure ∧
    bs.foldl mergeResultBool ReadResult.Success ≠ ReadResult.Failure ∧
    mixed.foldl mergeStep ReadResult.Success ≠ ReadResult.Failure := by
  have h1 : rs.foldl mergeResult ReadResult.Success = ReadResult.Success := by
    have h := foldl_mergeStep_Success (rs.map MergeInput.tier)
    rw [List.foldl_map] at h
    exact h
  have h2 : bs.foldl mergeResultBool ReadResult.Success = ReadResult.Success := by
    have h := foldl_mergeStep_Success (bs.map MergeInput.single)
    rw [List.foldl_map] at h
    exact h
  have h3 := foldl_mergeStep_Success mixed
  refine ⟨h1, h2, h3, ?_, ?_, ?_⟩
  · rw [h1]; decide
  · rw [h2]; decide
  · rw [h3]; decide

/-- C3: the merge of two verdicts is associative, commutative and idempotent, and it is
the maximum in the order `NoStatement < Failure < Success`. -/
theorem mergeResult_semilattice (a b c : ReadResult) :
    mergeResult (mergeResult a b) c = mergeResult a (mergeResult b c) ∧
    mergeResult a b = mergeResult b a ∧
    mergeResult a a = a ∧
    (mergeResult a b).rank = max a.rank b.rank ∧
    mergeResult a b = ReadResult.ofRank (max a.rank b.rank) := by
  cases a <;> cases b <;> cases c <;> decide

end RoverGauge

/-! ## One point read and runs of point reads -/

namespace RoverGauge

open CUXInterface

theorem Agree.refl (s : CUXInterface) : Agree s s := ⟨rfl, rfl, rfl, rfl⟩

theorem Agree.trans {s x y : CUXInterface} (h1 : Agree s x) (h2 : Agree x y) : Agree s y :=
  ⟨h2.1.trans h1.1, h2.2.1.trans h1.2.1, h2.2.2.1.trans h1.2.2.1, h2.2.2.2.trans h1.2.2.2⟩

theorem Agree.cux {s x : CUXInterface} (h : Agree s x) : x.cux = s.cux :=
  congrArg Static.cux h.1

theorem Agree.enabledSamples {s x : CUXInterface} (h : Agree s x) :
    x.enabledSamples = s.enabledSamples :=
  congrArg Static.enabledSamples h.1

theorem Agree.lambdaTrimType {s x : CUXInterface} (h : Agree s x) :
    x.lambdaTrimType = s.lambdaTrimType :=
  congrArg Static.lambdaTrimType h.1

theorem Agree.readCount {s x : CUXInterface} (h : Agree s x) : x.readCount = s.readCount :=
  congrArg Static.readCount h.1

theorem Agree.reply {s x : CUXInterface} (h : Agree s x) : x.reply = s.reply :=
  congrArg Static.reply h.1

theorem Agree.clock {s x : CUXInterface} (h : Agree s x) : x.clock = s.clock :=
  congrArg Static.clock h.1

theorem agree_log (s : CUXInterface) (e : Event) : Agree s (s.log e) := ⟨rfl, rfl, rfl, rfl⟩

theorem agree_store (p : Point) (r : Reply) (s : CUXInterface) : Agree s (store p r s) := by
  cases p <;> exact ⟨rfl, rfl, rfl, rfl⟩

theorem store_trace (p : Point) (r : Reply) (s : CUXInterface) :
    (store p r s).trace = s.trace := by
  cases p <;> rfl

theorem store_linkCalls (p : Point) (r : Reply) (s : CUXInterface) :
    (store p r s).linkCalls = s.linkCalls := by
  cases p <;> rfl

theorem agree_afterRead (p : Point) (s : CUXInterface) : Agree s (afterRead p s) :=
  Agree.trans ⟨rfl, rfl, rfl, rfl⟩ (agree_store p _ _)

theorem afterRead_trace (p : Point) (s : CUXInterface) :
    (afterRead p s).trace = s.trace ++ [Event.read p (s.reply s.linkCalls p).ok] := by
  unfold afterRead; rw [store_trace]

theorem afterRead_linkCalls (p : Point) (s : CUXInterface) :
    (afterRead p s).linkCalls = s.linkCalls + 1 := by
  unfold afterRead; rw [store_linkCalls]

theorem pointRead_some (p : Point) (s : CUXInterface) (h : s.cux.isSome = true) :
    pointRead p s = some ((s.reply s.linkCalls p).ok, afterRead p s) := by
  unfold pointRead
  cases hc : s.cux with
  | none => rw [hc] at h; cases h
  | some link => rfl

theorem mergeRead_some (p : Point) (r : ReadResult) (s : CUXInterface)
    (h : s.cux.isSome = true) :
    mergeRead p (r, s) =
      some (mergeResultBool r (s.reply s.linkCalls p).ok, afterRead p s) := by
  unfold mergeRead
  rw [pointRead_some p s h]
  rfl

theorem runReads_append (l m : List Point) (a : ReadResult × CUXInterface) :
    runReads (l ++ m) a = runReads l a >>= runReads m := by
  induction l generalizing a with
  | nil => rfl
  | cons p ps ih =>
    show (mergeRead p a >>= runReads (ps ++ m)) = (mergeRead p a >>= runReads ps) >>= runReads m
    cases mergeRead p a with
    | none => rfl
    | some b => exact ih b

/-- A run of merged point reads on a present link: it returns, the verdict is the fold of
the answers, the record grows by exactly these reads, and nothing else that the scheduler
looks at changes. -/
theorem runReads_spec (l : List Point) :
    ∀ (r : ReadResult) (s : CUXInterface), s.cux.isSome = true →
      ∃ s1, runReads l (r, s) =
          some ((answers s.reply s.linkCalls l).foldl mergeResultBool r, s1) ∧
        Agree s s1 ∧
        s1.trace = s.trace ++ readEvents s.reply s.linkCalls l ∧
        s1.linkCalls = s.linkCalls + l.length := by
  induction l with
  | nil =>
    intro r s _
    exact ⟨s, rfl, Agree.refl s, by simp [readEvents], by simp⟩
  | cons p ps ih =>
    intro r s h
    have hag := agree_afterRead p s
    have h1 : (afterRead p s).cux.isSome = true := by rw [hag.cux]; exact h
    obtain ⟨s1, e1, a1, t1, c1⟩ := ih (mergeResultBool r (s.reply s.linkCalls p).ok) (afterRead p s) h1
    refine ⟨s1, ?_, Agree.trans hag a1, ?_, ?_⟩
    · show (mergeRead p (r, s) >>= runReads ps) = _
      rw [mergeRead_some p r s h]
      show runReads ps _ = _
      rw [e1, hag.reply, afterRead_linkCalls]
      rfl
    · rw [t1, afterRead_trace, hag.reply, afterRead_linkCalls]
      simp [readEvents]
    · rw [c1, afterRead_linkCalls]
      simp only [List.length_cons]
      omega

end RoverGauge

/-! ## The three tiers as runs of point reads -/

namespace RoverGauge

open CUXInterface

theorem mergeRead_eq_runReads (p : Point) : mergeRead p = runReads [p] := by
  funext a
  show mergeRead p a = (mergeRead p a >>= runReads [])
  cases mergeRead p a <;> rfl

theorem mergeRead_pair_eq_runReads (p q : Point) :
    (fun a => mergeRead p a >>= mergeRead q) = runReads [p, q] := by
  funext a
  show (mergeRead p a >>= mergeRead q) = (mergeRead p a >>= runReads [q])
  rw [mergeRead_eq_runReads q]

theorem mergeRead_eq_some {p : Point} {a b : ReadResult × CUXInterface}
    (h : mergeRead p a = some b) :
    a.2.cux.isSome = true ∧ b.2 = afterRead p a.2 := by
  unfold mergeRead pointRead at h
  cases hc : a.2.cux with
  | none => rw [hc] at h; cases h
  | some link =>
    rw [hc] at h
    cases h
    exact ⟨rfl, rfl⟩

theorem runReads_agree {l : List Point} :
    ∀ {a b : ReadResult × CUXInterface}, runReads l a = some b → Agree a.2 b.2 := by
  induction l with
  | nil =>
    intro a b h
    cases h
    exact Agree.refl _
  | cons p ps ih =>
    intro a b h
    change (mergeRead p a >>= runReads ps) = some b at h
    cases hm : mergeRead p a with
    | none => rw [hm] at h; cases h
    | some c =>
      rw [hm] at h
      have h1 : Agree a.2 c.2 := by
        rw [(mergeRead_eq_some hm).2]
        exact agree_afterRead p a.2
      exact Agree.trans h1 (ih h)

/-- On an absent link a run of reads has a defined result only when it is empty. -/
theorem runReads_absent {l : List Point} {a b : ReadResult × CUXInterface}
    (hc : a.2.cux = none) (h : runReads l a = some b) : l = [] ∧ b = a := by
  cases l with
  | nil => cases h; exact ⟨rfl, rfl⟩
  | cons p ps =>
    change (mergeRead p a >>= runReads ps) = some b at h
    cases hm : mergeRead p a with
    | none => rw [hm] at h; cases h
    | some c =>
      have := (mergeRead_eq_some hm).1
      rw [hc] at this
      cases this

/-- A guarded run of reads appended to a run of reads is a run of reads. -/
theorem bind_onlyIf_runReads (s : CUXInterface) (l ps : List Point)
    (a : ReadResult × CUXInterface) (c : CUXInterface → Bool)
    (hc : ∀ x, Agree s x → c x = c s) (ha : Agree s a.2) :
    (runReads l a >>= onlyIf c (runReads ps)) = runReads (l ++ if c s then ps else []) a := by
  rw [runReads_append]
  cases h : runReads l a with
  | none => rfl
  | some b =>
    have hb : Agree s b.2 := Agree.trans ha (runReads_agree h)
    show onlyIf c (runReads ps) b = runReads (if c s then ps else []) b
    unfold onlyIf
    rw [hc b.2 hb]
    cases c s <;> rfl

/-- The two-armed guarded read of the low tier appended to a run of reads. -/
theorem bind_ifElse_runReads (s : CUXInterface) (l ps qs : List Point)
    (a : ReadResult × CUXInterface) (c d : CUXInterface → Bool)
    (hc : ∀ x, Agree s x → c x = c s) (hd : ∀ x, Agree s x → d x = d s)
    (ha : Agree s a.2) :
    (runReads l a >>= ifElse c (runReads ps) (onlyIf d (runReads qs))) =
      runReads (l ++ if c s then ps else if d s then qs else []) a := by
  rw [runReads_append]
  cases h : runReads l a with
  | none => rfl
  | some b =>
    have hb : Agree s b.2 := Agree.trans ha (runReads_agree h)
    show ifElse c (runReads ps) (onlyIf d (runReads qs)) b =
      runReads (if c s then ps else if d s then qs else []) b
    unfold ifElse onlyIf
    rw [hc b.2 hb, hd b.2 hb]
    cases c s <;> cases d s <;> rfl

theorem readHighFreqData_eq (s : CUXInterface) :
    readHighFreqData s =
      runReads (highPlan s) (ReadResult.NoStatement, s.log (Event.tier Tier.high)) := by
  unfold readHighFreqData highPlan
  rw [show (some (ReadResult.NoStatement, s.log (Event.tier Tier.high)) :
        Option (ReadResult × CUXInterface)) =
      runReads [] (ReadResult.NoStatement, s.log (Event.tier Tier.high)) from rfl]
  simp only [mergeRead_pair_eq_runReads]
  simp only [mergeRead_eq_runReads]
  rw [bind_onlyIf_runReads s, bind_onlyIf_runReads s, bind_onlyIf_runReads s,
    bind_onlyIf_runReads s, bind_onlyIf_runReads s, bind_onlyIf_runReads s]
  · simp only [List.nil_append]
  all_goals first
    | exact agree_log s _
    | (intro x hx; simp only [hx.enabledSamples, hx.lambdaTrimType, hx.readCount])

end RoverGauge

namespace RoverGauge

open CUXInterface

theorem readMidFreqData_eq (s : CUXInterface) :
    readMidFreqData s =
      (runReads (midPlan s) (ReadResult.NoStatement, s.log (Event.tier Tier.mid))).map
        stampMid := by
  unfold readMidFreqData midPlan
  rw [show (some (ReadResult.NoStatement, s.log (Event.tier Tier.mid)) :
        Option (ReadResult × CUXInterface)) =
      runReads [] (ReadResult.NoStatement, s.log (Event.tier Tier.mid)) from rfl]
  simp only [mergeRead_pair_eq_runReads]
  simp only [mergeRead_eq_runReads]
  rw [bind_onlyIf_runReads s, bind_onlyIf_runReads s, bind_onlyIf_runReads s,
    bind_onlyIf_runReads s, bind_onlyIf_runReads s, bind_onlyIf_runReads s]
  · simp only [List.nil_append]
  all_goals first
    | exact agree_log s _
    | (intro x hx; simp only [hx.enabledSamples, hx.lambdaTrimType, hx.readCount])

theorem agree_afterMIL (s : CUXInterface) : Agree s s.afterMIL := by
  have h := Agree.trans (agree_log s (Event.tier Tier.low))
    (agree_afterRead Point.MILOn (s.log (Event.tier Tier.low)))
  unfold afterMIL
  cases (s.reply s.linkCalls Point.MILOn).ok
  · exact ⟨h.1, h.2.1, h.2.2.1, h.2.2.2⟩
  · exact h

theorem afterMIL_trace (s : CUXInterface) :
    s.afterMIL.trace = s.trace ++
      [Event.tier Tier.low, Event.read Point.MILOn (s.reply s.linkCalls Point.MILOn).ok] := by
  have h := afterRead_trace Point.MILOn (s.log (Event.tier Tier.low))
  have e : s.afterMIL.trace = (afterRead Point.MILOn (s.log (Event.tier Tier.low))).trace := by
    unfold afterMIL
    cases (s.reply s.linkCalls Point.MILOn).ok <;> rfl
  rw [e, h]
  simp [log]

theorem afterMIL_linkCalls (s : CUXInterface) : s.afterMIL.linkCalls = s.linkCalls + 1 := by
  have h := afterRead_linkCalls Point.MILOn (s.log (Event.tier Tier.low))
  have e : s.afterMIL.linkCalls =
      (afterRead Point.MILOn (s.log (Event.tier Tier.low))).linkCalls := by
    unfold afterMIL
    cases (s.reply s.linkCalls Point.MILOn).ok <;> rfl
  rw [e, h]
  rfl

theorem readMIL_some (r : ReadResult) (s : CUXInterface) (h : s.cux.isSome = true) :
    readMIL (r, s.log (Event.tier Tier.low)) = some (r, s.afterMIL) := by
  unfold readMIL
  rw [pointRead_some Point.MILOn (s.log (Event.tier Tier.low)) h]
  unfold afterMIL
  show some (r, _) = some (r, _)
  cases hok : (s.reply s.linkCalls Point.MILOn).ok
  · have : ((s.log (Event.tier Tier.low)).reply (s.log (Event.tier Tier.low)).linkCalls
        Point.MILOn).ok = false := hok
    simp [this]
  · have : ((s.log (Event.tier Tier.low)).reply (s.log (Event.tier Tier.low)).linkCalls
        Point.MILOn).ok = true := hok
    simp [this]

theorem readLowFreqData_eq (s : CUXInterface) (h : s.cux.isSome = true) :
    readLowFreqData s =
      (runReads (lowPlan s) (ReadResult.NoStatement, s.afterMIL)).map stampLow := by
  unfold readLowFreqData lowPlan
  rw [show ((some (ReadResult.NoStatement, s.log (Event.tier Tier.low)) :
        Option (ReadResult × CUXInterface)) >>= readMIL) =
      runReads [] (ReadResult.NoStatement, s.afterMIL) from readMIL_some _ s h]
  simp only [mergeRead_eq_runReads]
  rw [bind_ifElse_runReads s, bind_onlyIf_runReads s]
  · simp only [List.nil_append]
  all_goals first
    | exact agree_afterMIL s
    | (intro x hx; simp only [hx.enabledSamples, hx.lambdaTrimType, hx.readCount])

end RoverGauge

/-! ## Verdicts of runs of outcomes -/

namespace RoverGauge

open CUXInterface

theorem foldl_mergeResultBool (l : List Bool) :
    ∀ r : ReadResult, l.foldl mergeResultBool r = mergeResult r (verdict l) := by
  induction l with
  | nil => intro r; cases r <;> rfl
  | cons b l ih =>
    intro r
    have e : verdict (b :: l) =
        mergeResult (mergeResultBool ReadResult.NoStatement b) (verdict l) := by
      unfold verdict
      rw [List.foldl_cons, ih]
      rfl
    rw [List.foldl_cons, ih, e]
    cases r <;> cases b <;> cases verdict l <;> rfl

theorem verdict_nil : verdict [] = ReadResult.NoStatement := rfl

theorem verdict_cons (b : Bool) (l : List Bool) :
    verdict (b :: l) = mergeResult (mergeResultBool ReadResult.NoStatement b) (verdict l) := by
  unfold verdict
  rw [List.foldl_cons, foldl_mergeResultBool]
  rfl

theorem verdict_append (l m : List Bool) :
    verdict (l ++ m) = mergeResult (verdict l) (verdict m) := by
  unfold verdict
  rw [List.foldl_append, foldl_mergeResultBool]
  rfl

theorem verdict_eq_Success_iff (l : List Bool) :
    verdict l = ReadResult.Success ↔ true ∈ l := by
  induction l with
  | nil => simp [verdict_nil]
  | cons b l ih =>
    rw [verdict_cons]
    cases b
    · have : mergeResult (mergeResultBool ReadResult.NoStatement false) (verdict l) =
          ReadResult.Success ↔ verdict l = ReadResult.Success := by
        cases verdict l <;> decide
      rw [this, ih]; simp
    · have : mergeResult (mergeResultBool ReadResult.NoStatement true) (verdict l) =
          ReadResult.Success := by
        cases verdict l <;> rfl
      simp [this]

theorem verdict_eq_NoStatement_iff (l : List Bool) :
    verdict l = ReadResult.NoStatement ↔ l = [] := by
  cases l with
  | nil => simp [verdict_nil]
  | cons b l =>
    rw [verdict_cons]
    have : mergeResult (mergeResultBool ReadResult.NoStatement b) (verdict l) ≠
        ReadResult.NoStatement := by
      cases b <;> cases verdict l <;> decide
    simp [this]

theorem verdict_eq_Failure_iff (l : List Bool) :
    verdict l = ReadResult.Failure ↔ l ≠ [] ∧ ∀ b ∈ l, b = false := by
  constructor
  · intro h
    refine ⟨?_, ?_⟩
    · intro hl
      rw [(verdict_eq_NoStatement_iff l).mpr hl] at h
      cases h
    · intro b hb
      cases b
      · rfl
      · rw [(verdict_eq_Success_iff l).mpr hb] at h
        cases h
  · rintro ⟨hne, hall⟩
    cases hv : verdict l with
    | NoStatement => exact absurd ((verdict_eq_NoStatement_iff l).mp hv) hne
    | Success => exact absurd (hall true ((verdict_eq_Success_iff l).mp hv)) (by decide)
    | Failure => rfl

/-! ## The record of a run of reads -/

theorem readsOf_append (l m : List Event) : readsOf (l ++ m) = readsOf l ++ readsOf m := by
  induction l with
  | nil => rfl
  | cons e l ih => cases e <;> simp [readsOf, ih]

theorem mem_readsOf (es : List Event) (p : Point) (ok : Bool) :
    Event.read p ok ∈ es ↔ (p, ok) ∈ readsOf es := by
  induction es with
  | nil => simp [readsOf]
  | cons e es ih =>
    cases e <;> simp [readsOf, ih]

theorem signalsOf_append (l m : List Event) :
    signalsOf (l ++ m) = signalsOf l ++ signalsOf m := by
  induction l with
  | nil => rfl
  | cons e l ih => cases e <;> simp [signalsOf, ih]

theorem mergedOutcomes_append (l m : List Event) :
    mergedOutcomes (l ++ m) = mergedOutcomes l ++ mergedOutcomes m := by
  unfold mergedOutcomes
  rw [readsOf_append, List.filter_append, List.map_append]

theorem mergedOutcomes_tier (t : Tier) (l : List Event) :
    mergedOutcomes (Event.tier t :: l) = mergedOutcomes l := rfl

theorem mergedOutcomes_MIL (ok : Bool) (l : List Event) :
    mergedOutcomes (Event.read Point.MILOn ok :: l) = mergedOutcomes l := by
  simp [mergedOutcomes, readsOf]

theorem mergedOutcomes_read (p : Point) (ok : Bool) (l : List Event) (hp : p ≠ Point.MILOn) :
    mergedOutcomes (Event.read p ok :: l) = ok :: mergedOutcomes l := by
  simp [mergedOutcomes, readsOf, hp]

theorem mergedOutcomes_readEvents (reply : Nat → Point → Reply) (l : List Point) :
    ∀ k, Point.MILOn ∉ l → mergedOutcomes (readEvents reply k l) = answers reply k l := by
  induction l with
  | nil => intro k _; rfl
  | cons p ps ih =>
    intro k h
    have hp : p ≠ Point.MILOn := fun e => h (by simp [e])
    have hps : Point.MILOn ∉ ps := fun e => h (by simp [e])
    show mergedOutcomes (Event.read p (reply k p).ok :: readEvents reply (k + 1) ps) =
      (reply k p).ok :: answers reply (k + 1) ps
    rw [mergedOutcomes_read p _ _ hp, ih (k + 1) hps]

theorem signalsOf_readEvents (reply : Nat → Point → Reply) (l : List Point) :
    ∀ k, signalsOf (readEvents reply k l) = [] := by
  induction l with
  | nil => intro k; rfl
  | cons p ps ih => intro k; simp [readEvents, signalsOf, ih]

theorem mem_readEvents (reply : Nat → Point → Reply) (l : List Point) (p : Point) :
    ∀ k, (∃ ok, Event.read p ok ∈ readEvents reply k l) ↔ p ∈ l := by
  induction l with
  | nil => intro k; simp [readEvents]
  | cons q qs ih =>
    intro k
    constructor
    · rintro ⟨ok, h⟩
      simp only [readEvents, List.mem_cons] at h
      rcases h with h | h
      · cases h; simp
      · exact List.mem_cons_of_mem _ ((ih (k + 1)).mp ⟨ok, h⟩)
    · intro h
      rcases List.mem_cons.mp h with h | h
      · exact ⟨(reply k q).ok, by simp [readEvents, h]⟩
      · obtain ⟨ok, hok⟩ := (ih (k + 1)).mpr h
        exact ⟨ok, by simp [readEvents, hok]⟩

theorem tier_not_mem_readEvents (reply : Nat → Point → Reply) (l : List Point) (t : Tier) :
    ∀ k, Event.tier t ∉ readEvents reply k l := by
  induction l with
  | nil => intro k; simp [readEvents]
  | cons q qs ih => intro k; simp [readEvents, ih]

theorem MILOn_not_mem_highPlan (s : CUXInterface) : Point.MILOn ∉ highPlan s := by
  unfold highPlan
  simp only [List.mem_append, not_or]
  refine ⟨⟨⟨⟨⟨?_, ?_⟩, ?_⟩, ?_⟩, ?_⟩, ?_⟩ <;> split <;> simp

theorem MILOn_not_mem_midPlan (s : CUXInterface) : Point.MILOn ∉ midPlan s := by
  unfold midPlan
  simp only [List.mem_append, not_or]
  refine ⟨⟨⟨⟨⟨?_, ?_⟩, ?_⟩, ?_⟩, ?_⟩, ?_⟩ <;> split <;> simp

theorem MILOn_not_mem_lowPlan (s : CUXInterface) : Point.MILOn ∉ lowPlan s := by
  unfold lowPlan
  simp only [List.mem_append, not_or]
  refine ⟨?_, ?_⟩
  · split
    · simp
    · split <;> simp
  · split <;> simp

theorem highPlan_congr {s x : CUXInterface} (h : x.static = s.static) :
    highPlan x = highPlan s := by
  have h1 : x.enabledSamples = s.enabledSamples := congrArg Static.enabledSamples h
  have h2 : x.lambdaTrimType = s.lambdaTrimType := congrArg Static.lambdaTrimType h
  unfold highPlan
  rw [h1, h2]

theorem midPlan_congr {s x : CUXInterface} (h : x.static = s.static) :
    midPlan x = midPlan s := by
  have h1 : x.enabledSamples = s.enabledSamples := congrArg Static.enabledSamples h
  have h2 : x.lambdaTrimType = s.lambdaTrimType := congrArg Static.lambdaTrimType h
  unfold midPlan
  rw [h1, h2]

theorem lowPlan_congr {s x : CUXInterface} (h : x.static = s.static) :
    lowPlan x = lowPlan s := by
  have h1 : x.enabledSamples = s.enabledSamples := congrArg Static.enabledSamples h
  have h2 : x.readCount = s.readCount := congrArg Static.readCount h
  unfold lowPlan
  rw [h1, h2]

end RoverGauge

/-! ## What each tier does on a present link -/

namespace RoverGauge

open CUXInterface

theorem readHighFreqData_spec (x : CUXInterface) (h : x.cux.isSome = true) :
    ∃ x1, readHighFreqData x =
        some (verdict (answers x.reply x.linkCalls (highPlan x)), x1) ∧
      Agree x x1 ∧
      x1.trace = x.trace ++ Event.tier Tier.high :: readEvents x.reply x.linkCalls (highPlan x) ∧
      x1.linkCalls = x.linkCalls + (highPlan x).length := by
  obtain ⟨x1, e1, a1, t1, c1⟩ :=
    runReads_spec (highPlan x) ReadResult.NoStatement (x.log (Event.tier Tier.high)) h
  refine ⟨x1, ?_, Agree.trans (agree_log x _) a1, ?_, c1⟩
  · rw [readHighFreqData_eq x, e1]; rfl
  · rw [t1]; simp [log]

theorem readMidFreqData_spec (x : CUXInterface) (h : x.cux.isSome = true) :
    ∃ x1, readMidFreqData x =
        some (verdict (answers x.reply x.linkCalls (midPlan x)), x1) ∧
      x1.static = x.static ∧
      x1.lastLowFreqReadTime = x.lastLowFreqReadTime ∧
      x1.trace = x.trace ++ Event.tier Tier.mid :: readEvents x.reply x.linkCalls (midPlan x) ∧
      x1.linkCalls = x.linkCalls + (midPlan x).length ∧
      x1.lastMidFreqReadTime =
        (if verdict (answers x.reply x.linkCalls (midPlan x)) = ReadResult.Success then
          x.clock x.clockReads else x.lastMidFreqReadTime) ∧
      x1.clockReads =
        (if verdict (answers x.reply x.linkCalls (midPlan x)) = ReadResult.Success then
          x.clockReads + 1 else x.clockReads) := by
  obtain ⟨y, e1, a1, t1, c1⟩ :=
    runReads_spec (midPlan x) ReadResult.NoStatement (x.log (Event.tier Tier.mid)) h
  have a2 : Agree x y := Agree.trans (agree_log x _) a1
  have t2 : y.trace = x.trace ++ Event.tier Tier.mid :: readEvents x.reply x.linkCalls (midPlan x) := by
    rw [t1]; simp [log]
  have e2 : readMidFreqData x =
      some (stampMid (verdict (answers x.reply x.linkCalls (midPlan x)), y)) := by
    rw [readMidFreqData_eq x, e1]; rfl
  by_cases hv : verdict (answers x.reply x.linkCalls (midPlan x)) = ReadResult.Success
  · refine ⟨{ y with clockReads := y.clockReads + 1,
                     lastMidFreqReadTime := y.clock y.clockReads }, ?_, a2.1, a2.2.2.1, t2, c1,
      ?_, ?_⟩
    · rw [e2]; unfold stampMid; rw [if_pos hv]; rfl
    · rw [if_pos hv]
      show y.clock y.clockReads = _
      rw [a2.clock, a2.2.2.2]
    · rw [if_pos hv]
      show y.clockReads + 1 = _
      rw [a2.2.2.2]
  · refine ⟨y, ?_, a2.1, a2.2.2.1, t2, c1, ?_, ?_⟩
    · rw [e2]; unfold stampMid; rw [if_neg hv]
    · rw [if_neg hv]; exact a2.2.1
    · rw [if_neg hv]; exact a2.2.2.2

theorem readLowFreqData_spec (x : CUXInterface) (h : x.cux.isSome = true) :
    ∃ x1, readLowFreqData x =
        some (verdict (answers x.reply (x.linkCalls + 1) (lowPlan x)), x1) ∧
      x1.static = x.static ∧
      x1.lastMidFreqReadTime = x.lastMidFreqReadTime ∧
      x1.trace = x.trace ++ Event.tier Tier.low ::
        Event.read Point.MILOn (x.reply x.linkCalls Point.MILOn).ok ::
        readEvents x.reply (x.linkCalls + 1) (lowPlan x) ∧
      x1.linkCalls = x.linkCalls + 1 + (lowPlan x).length ∧
      x1.lastLowFreqReadTime =
        (if verdict (answers x.reply (x.linkCalls + 1) (lowPlan x)) = ReadResult.Success then
          x.clock x.clockReads else x.lastLowFreqReadTime) ∧
      x1.clockReads =
        (if verdict (answers x.reply (x.linkCalls + 1) (lowPlan x)) = ReadResult.Success then
          x.clockReads + 1 else x.clockReads) := by
  have am := agree_afterMIL x
  have hm : x.afterMIL.cux.isSome = true := by rw [am.cux]; exact h
  obtain ⟨y, e1, a1, t1, c1⟩ := runReads_spec (lowPlan x) ReadResult.NoStatement x.afterMIL hm
  rw [am.reply, afterMIL_linkCalls] at e1 t1
  rw [afterMIL_linkCalls] at c1
  have a2 : Agree x y := Agree.trans am a1
  have t2 : y.trace = x.trace ++ Event.tier Tier.low ::
      Event.read Point.MILOn (x.reply x.linkCalls Point.MILOn).ok ::
      readEvents x.reply (x.linkCalls + 1) (lowPlan x) := by
    rw [t1, afterMIL_trace]; simp
  have e2 : readLowFreqData x =
      some (stampLow (verdict (answers x.reply (x.linkCalls + 1) (lowPlan x)), y)) := by
    rw [readLowFreqData_eq x h, e1]; rfl
  by_cases hv : verdict (answers x.reply (x.linkCalls + 1) (lowPlan x)) = ReadResult.Success
  · refine ⟨{ y with clockReads := y.clockReads + 1,
                     lastLowFreqReadTime := y.clock y.clockReads }, ?_, a2.1, a2.2.1, t2, c1,
      ?_, ?_⟩
    · rw [e2]; unfold stampLow; rw [if_pos hv]; rfl
    · rw [if_pos hv]
      show y.clock y.clockReads = _
      rw [a2.clock, a2.2.2.2]
    · rw [if_pos hv]
      show y.clockReads + 1 = _
      rw [a2.2.2.2]
  · refine ⟨y, ?_, a2.1, a2.2.1, t2, c1, ?_, ?_⟩
    · rw [e2]; unfold stampLow; rw [if_neg hv]
    · rw [if_neg hv]; exact a2.2.2.1
    · rw [if_neg hv]; exact a2.2.2.2

end RoverGauge

/-! ## What `readData` does on a present link -/

namespace RoverGauge

open CUXInterface

theorem answers_append (reply : Nat → Point → Reply) (l m : List Point) :
    ∀ k, answers reply k (l ++ m) = answers reply k l ++ answers reply (k + l.length) m := by
  induction l with
  | nil => intro k; simp [answers]
  | cons p ps ih =>
    intro k
    show (reply k p).ok :: answers reply (k + 1) (ps ++ m) =
      (reply k p).ok :: (answers reply (k + 1) ps ++ answers reply (k + (ps.length + 1)) m)
    rw [ih (k + 1), show k + 1 + ps.length = k + (ps.length + 1) by omega]

theorem some_bind_eq {α β : Type} (a : α) (f : α → Option β) : (some a >>= f) = f a := rfl

theorem onlyIf_true {c : CUXInterface → Bool}
    {f : ReadResult × CUXInterface → Option (ReadResult × CUXInterface)}
    {a : ReadResult × CUXInterface} (h : c a.2 = true) : onlyIf c f a = f a := by
  unfold onlyIf; rw [if_pos h]

theorem onlyIf_false {c : CUXInterface → Bool}
    {f : ReadResult × CUXInterface → Option (ReadResult × CUXInterface)}
    {a : ReadResult × CUXInterface} (h : c a.2 = false) : onlyIf c f a = some a := by
  unfold onlyIf; rw [h]; rfl

/-- The high tier and the gated mid tier of `readData`, from the state in which the
start time has been taken. -/
theorem readData_head (s : CUXInterface) (h : s.cux.isSome = true) :
    ∃ x2, (mergeTier readHighFreqData
              (ReadResult.NoStatement, { s with clockReads := s.clockReads + 1 }) >>=
            onlyIf (fun x => decide (s.clock s.clockReads > x.lastMidFreqReadTime + 200))
              (mergeTier readMidFreqData)) =
        some (verdict (answers s.reply s.linkCalls (headPlan s)), x2) ∧
      x2.static = s.static ∧
      x2.lastLowFreqReadTime = s.lastLowFreqReadTime ∧
      x2.trace = s.trace ++ highEvents s ++ midEvents s ∧
      x2.linkCalls = s.linkCalls + (headPlan s).length ∧
      s.clockReads < x2.clockReads ∧
      (midGate s = false → x2.lastMidFreqReadTime = s.lastMidFreqReadTime) := by
  obtain ⟨x1, e1, a1, t1, c1⟩ :=
    readHighFreqData_spec { s with clockReads := s.clockReads + 1 } h
  replace e1 : readHighFreqData { s with clockReads := s.clockReads + 1 } =
      some (verdict (answers s.reply s.linkCalls (highPlan s)), x1) := e1
  replace t1 : x1.trace =
      s.trace ++ Event.tier Tier.high :: readEvents s.reply s.linkCalls (highPlan s) := t1
  replace c1 : x1.linkCalls = s.linkCalls + (highPlan s).length := c1
  have hst : x1.static = s.static := a1.1
  have hm1 : x1.lastMidFreqReadTime = s.lastMidFreqReadTime := a1.2.1
  have hl1 : x1.lastLowFreqReadTime = s.lastLowFreqReadTime := a1.2.2.1
  have hk1 : x1.clockReads = s.clockReads + 1 := a1.2.2.2
  have hr1 : x1.reply = s.reply := congrArg Static.reply hst
  have e1' : mergeTier readHighFreqData
      (ReadResult.NoStatement, { s with clockReads := s.clockReads + 1 }) =
      some (verdict (answers s.reply s.linkCalls (highPlan s)), x1) := by
    unfold mergeTier
    rw [e1]
    show some (mergeResult ReadResult.NoStatement _, x1) = _
    rw [mergeResult_NoStatement_left]
  have hx1 : x1.cux.isSome = true := by rw [a1.cux]; exact h
  rw [e1', some_bind_eq]
  cases hg : midGate s
  · refine ⟨x1, ?_, hst, hl1, ?_, ?_, ?_, fun _ => hm1⟩
    · rw [onlyIf_false]
      · simp [headPlan, hg]
      · show decide (s.clock s.clockReads > x1.lastMidFreqReadTime + 200) = false
        rw [hm1]; exact hg
    · rw [t1]; simp [highEvents, midEvents, hg]
    · rw [c1]; simp [headPlan, hg]
    · rw [hk1]; exact Nat.lt_succ_self _
  · obtain ⟨x2, e2, s2, l2, t2, c2, -, k2⟩ := readMidFreqData_spec x1 hx1
    simp only [midPlan_congr hst, hr1, c1] at e2 t2 c2 k2
    refine ⟨x2, ?_, s2.trans hst, l2.trans hl1, ?_, ?_, ?_, fun hf => by cases hf⟩
    · rw [onlyIf_true]
      · unfold mergeTier
        rw [e2]
        show some (mergeResult _ _, x2) = _
        rw [← verdict_append, ← answers_append]
        simp [headPlan, hg]
      · show decide (s.clock s.clockReads > x1.lastMidFreqReadTime + 200) = true
        rw [hm1]; exact hg
    · rw [t2, t1]; simp [highEvents, midEvents, hg]
    · rw [c2]; simp [headPlan, hg]; omega
    · rw [k2, hk1]
      split <;> omega

theorem mergedOutcomes_highEvents (s : CUXInterface) :
    mergedOutcomes (highEvents s) = answers s.reply s.linkCalls (highPlan s) := by
  unfold highEvents
  rw [mergedOutcomes_tier, mergedOutcomes_readEvents _ _ _ (MILOn_not_mem_highPlan s)]

theorem mergedOutcomes_head (s : CUXInterface) :
    mergedOutcomes (highEvents s ++ midEvents s) = answers s.reply s.linkCalls (headPlan s) := by
  rw [mergedOutcomes_append, mergedOutcomes_highEvents]
  unfold midEvents headPlan
  cases midGate s
  · simp [mergedOutcomes, readsOf, answers]
  · simp only [if_true]
    rw [mergedOutcomes_tier, mergedOutcomes_readEvents _ _ _ (MILOn_not_mem_midPlan s),
      answers_append]

theorem mergedOutcomes_lowEvents (s : CUXInterface) :
    mergedOutcomes (lowEvents s) =
      if lowGate s then answers s.reply (s.linkCalls + (headPlan s).length + 1) (lowPlan s)
      else [] := by
  unfold lowEvents
  cases lowGate s
  · rfl
  · simp only [if_true]
    rw [mergedOutcomes_tier, mergedOutcomes_MIL,
      mergedOutcomes_readEvents _ _ _ (MILOn_not_mem_lowPlan s)]

/-- On a present link `readData` returns; its verdict is that of the merged outcomes of
the cycle, its record is the closed form `cycleEvents`, it takes at least one clock
reading, a tier whose gate is closed leaves its timestamp alone, and the rest of what
the scheduler looks at is unchanged. -/
theorem readData_spec (s : CUXInterface) (h : s.cux.isSome = true) :
    ∃ s1, readData s = some (verdict (mergedOutcomes (cycleEvents s)), s1) ∧
      s1.static = s.static ∧
      s1.trace = s.trace ++ cycleEvents s ∧
      s.clockReads < s1.clockReads ∧
      (midGate s = false → s1.lastMidFreqReadTime = s.lastMidFreqReadTime) ∧
      (lowGate s = false → s1.lastLowFreqReadTime = s.lastLowFreqReadTime) := by
  obtain ⟨x2, e2, st2, l2, t2, c2, k2, m2⟩ := readData_head s h
  have hx2 : x2.cux.isSome = true := by
    rw [show x2.cux = s.cux from congrArg Static.cux st2]; exact h
  have hv : mergedOutcomes (cycleEvents s) =
      answers s.reply s.linkCalls (headPlan s) ++
        (if lowGate s then answers s.reply (s.linkCalls + (headPlan s).length + 1) (lowPlan s)
         else []) := by
    unfold cycleEvents
    rw [mergedOutcomes_append, mergedOutcomes_head, mergedOutcomes_lowEvents]
  have e : readData s =
      (some (verdict (answers s.reply s.linkCalls (headPlan s)), x2) >>=
        onlyIf (fun x => decide (s.clock s.clockReads > x.lastLowFreqReadTime + 800))
          (mergeTier readLowFreqData)) := by
    rw [← e2]; rfl
  rw [e, hv, some_bind_eq]
  cases hg : lowGate s
  · refine ⟨x2, ?_, st2, ?_, k2, m2, fun _ => l2⟩
    · rw [onlyIf_false]
      · simp
      · show decide (s.clock s.clockReads > x2.lastLowFreqReadTime + 800) = false
        rw [l2]; exact hg
    · rw [t2]; simp [cycleEvents, lowEvents, hg]
  · obtain ⟨x3, e3, st3, m3, t3, -, -, k3⟩ := readLowFreqData_spec x2 hx2
    simp only [lowPlan_congr st2, show x2.reply = s.reply from congrArg Static.reply st2, c2]
      at e3 t3 k3
    refine ⟨x3, ?_, st3.trans st2, ?_, ?_, fun hm => m3.trans (m2 hm), fun hf => by cases hf⟩
    · rw [onlyIf_true]
      · unfold mergeTier
        rw [e3]
        show some (mergeResult _ _, x3) = _
        rw [← verdict_append]
        simp
      · show decide (s.clock s.clockReads > x2.lastLowFreqReadTime + 800) = true
        rw [l2]; exact hg
    · rw [t3, t2]; simp [cycleEvents, lowEvents, hg]
    · rw [k3]
      split <;> omega

end RoverGauge

/-! ## The verdict of a cycle -/

namespace RoverGauge

open CUXInterface

theorem newEvents_of_trace {s s1 : CUXInterface} {es : List Event}
    (h : s1.trace = s.trace ++ es) : newEvents s s1 = es := by
  unfold newEvents
  rw [h]
  exact List.drop_left _ _

theorem mem_mergedOutcomes (es : List Event) (b : Bool) :
    b ∈ mergedOutcomes es ↔ ∃ p, p ≠ Point.MILOn ∧ Event.read p b ∈ es := by
  induction es with
  | nil => simp [mergedOutcomes, readsOf]
  | cons e es ih =>
    cases e with
    | read q ok =>
      by_cases hq : q = Point.MILOn
      · subst hq
        rw [mergedOutcomes_MIL, ih]
        constructor
        · rintro ⟨p, hp, hm⟩
          exact ⟨p, hp, List.mem_cons_of_mem _ hm⟩
        · rintro ⟨p, hp, hm⟩
          rcases List.mem_cons.mp hm with hm | hm
          · cases hm; exact absurd rfl hp
          · exact ⟨p, hp, hm⟩
      · rw [mergedOutcomes_read q ok es hq, List.mem_cons, ih]
        constructor
        · rintro (hb | ⟨p, hp, hm⟩)
          · exact ⟨q, hq, by rw [hb]; exact List.mem_cons_self _ _⟩
          · exact ⟨p, hp, List.mem_cons_of_mem _ hm⟩
        · rintro ⟨p, hp, hm⟩
          rcases List.mem_cons.mp hm with hm | hm
          · cases hm; exact Or.inl rfl
          · exact Or.inr ⟨p, hp, hm⟩
    | tier t =>
      rw [mergedOutcomes_tier, ih]
      simp
    | emit sig =>
      have e1 : mergedOutcomes (Event.emit sig :: es) = mergedOutcomes es := rfl
      rw [e1, ih]; simp
    | linkDisconnect =>
      have e1 : mergedOutcomes (Event.linkDisconnect :: es) = mergedOutcomes es := rfl
      rw [e1, ih]; simp
    | timerStart m =>
      have e1 : mergedOutcomes (Event.timerStart m :: es) = mergedOutcomes es := rfl
      rw [e1, ih]; simp
    | threadQuit =>
      have e1 : mergedOutcomes (Event.threadQuit :: es) = mergedOutcomes es := rfl
      rw [e1, ih]; simp

/-- The verdict of the merged outcomes of a record, read off the record. -/
theorem verdict_mergedOutcomes (es : List Event) :
    (verdict (mergedOutcomes es) = ReadResult.Success ↔
      ∃ p, p ≠ Point.MILOn ∧ Event.read p true ∈ es) ∧
    (verdict (mergedOutcomes es) = ReadResult.Failure ↔
      (∃ p ok, p ≠ Point.MILOn ∧ Event.read p ok ∈ es) ∧
      ∀ p ok, p ≠ Point.MILOn → Event.read p ok ∈ es → ok = false) ∧
    (verdict (mergedOutcomes es) = ReadResult.NoStatement ↔
      ¬ ∃ p ok, p ≠ Point.MILOn ∧ Event.read p ok ∈ es) := by
  refine ⟨?_, ?_, ?_⟩
  · rw [verdict_eq_Success_iff, mem_mergedOutcomes]
  · rw [verdict_eq_Failure_iff]
    constructor
    · rintro ⟨hne, hall⟩
      refine ⟨?_, ?_⟩
      · obtain ⟨b, hb⟩ := List.exists_mem_of_ne_nil _ hne
        obtain ⟨p, hp, hm⟩ := (mem_mergedOutcomes _ b).mp hb
        exact ⟨p, b, hp, hm⟩
      · intro p ok hp hm
        exact hall ok ((mem_mergedOutcomes _ ok).mpr ⟨p, hp, hm⟩)
    · rintro ⟨⟨p, ok, hp, hm⟩, hall⟩
      refine ⟨?_, ?_⟩
      · exact List.ne_nil_of_mem ((mem_mergedOutcomes _ ok).mpr ⟨p, hp, hm⟩)
      · intro b hb
        obtain ⟨q, hq, hm2⟩ := (mem_mergedOutcomes _ b).mp hb
        exact hall q b hq hm2
  · rw [verdict_eq_NoStatement_iff]
    constructor
    · rintro hnil ⟨p, ok, hp, hm⟩
      have := (mem_mergedOutcomes _ ok).mpr ⟨p, hp, hm⟩
      rw [hnil] at this
      cases this
    · intro hno
      apply List.eq_nil_iff_forall_not_mem.mpr
      intro b hb
      obtain ⟨p, hp, hm⟩ := (mem_mergedOutcomes _ b).mp hb
      exact hno ⟨p, b, hp, hm⟩

theorem pointRead_absent (p : Point) (s : CUXInterface) (h : s.cux = none) :
    pointRead p s = none := by
  unfold pointRead
  rw [h]

theorem readLowFreqData_absent (s : CUXInterface) (h : s.cux = none) :
    readLowFreqData s = none := by
  unfold readLowFreqData
  rw [some_bind_eq]
  have h1 : readMIL (ReadResult.NoStatement, s.log (Event.tier Tier.low)) = none := by
    unfold readMIL
    rw [pointRead_absent Point.MILOn _ (show (s.log (Event.tier Tier.low)).cux = none from h)]
    rfl
  rw [h1]
  rfl

theorem readHighFreqData_absent (s : CUXInterface) (h : s.cux = none)
    (b : ReadResult × CUXInterface) (hb : readHighFreqData s = some b) :
    b = (ReadResult.NoStatement, s.log (Event.tier Tier.high)) := by
  rw [readHighFreqData_eq] at hb
  exact (runReads_absent (show (s.log (Event.tier Tier.high)).cux = none from h) hb).2

theorem readMidFreqData_absent (s : CUXInterface) (h : s.cux = none)
    (b : ReadResult × CUXInterface) (hb : readMidFreqData s = some b) :
    b = (ReadResult.NoStatement, s.log (Event.tier Tier.mid)) := by
  rw [readMidFreqData_eq] at hb
  cases hr : runReads (midPlan s) (ReadResult.NoStatement, s.log (Event.tier Tier.mid)) with
  | none => rw [hr] at hb; cases hb
  | some c =>
    rw [hr] at hb
    have hc := (runReads_absent (show (s.log (Event.tier Tier.mid)).cux = none from h) hr).2
    subst hc
    cases hb
    rfl

/-- On an absent link `readData` has a defined result only when it issues no read at all;
the result is then `NoStatement`. -/
theorem readData_absent (s : CUXInterface) (h : s.cux = none) (r : ReadResult)
    (s1 : CUXInterface) (hr : readData s = some (r, s1)) :
    r = ReadResult.NoStatement ∧ ∃ es, s1.trace = s.trace ++ es ∧ mergedOutcomes es = [] ∧
      ∀ p ok, Event.read p ok ∉ es := by
  have e : readData s =
      (mergeTier readHighFreqData
          (ReadResult.NoStatement, { s with clockReads := s.clockReads + 1 }) >>=
        onlyIf (fun x => decide (s.clock s.clockReads > x.lastMidFreqReadTime + 200))
          (mergeTier readMidFreqData) >>=
        onlyIf (fun x => decide (s.clock s.clockReads > x.lastLowFreqReadTime + 800))
          (mergeTier readLowFreqData)) := rfl
  rw [e] at hr
  clear e
  have h0 : ({ s with clockReads := s.clockReads + 1 } : CUXInterface).cux = none := h
  generalize hs0 : ({ s with clockReads := s.clockReads + 1 } : CUXInterface) = s0 at hr h0
  have ht0 : s0.trace = s.trace := by rw [← hs0]
  -- the high tier
  unfold mergeTier at hr
  cases hH : readHighFreqData s0 with
  | none => rw [hH] at hr; cases hr
  | some b =>
    have hb := readHighFreqData_absent s0 h0 b hH
    subst hb
    rw [hH] at hr
    simp only [Option.map_some', some_bind_eq] at hr
    have hx1 : (s0.log (Event.tier Tier.high)).cux = none := h0
    generalize hx1d : s0.log (Event.tier Tier.high) = x1 at hr hx1
    have ht1 : x1.trace = s.trace ++ [Event.tier Tier.high] := by
      rw [← hx1d, ← ht0]; rfl
    -- the mid tier
    have hmid : ∃ x2, onlyIf (fun x => decide (s.clock s.clockReads > x.lastMidFreqReadTime + 200))
          (fun a => Option.map (fun b => (mergeResult a.1 b.1, b.2)) (readMidFreqData a.2))
          (mergeResult ReadResult.NoStatement ReadResult.NoStatement, x1) =
          some (ReadResult.NoStatement, x2) ∧ x2.cux = none ∧
        ∃ es, x2.trace = s.trace ++ es ∧ mergedOutcomes es = [] ∧
          ∀ p ok, Event.read p ok ∉ es := by
      cases hg : decide (s.clock s.clockReads > x1.lastMidFreqReadTime + 200)
      · refine ⟨x1, ?_, hx1, [Event.tier Tier.high], ht1, rfl, by simp⟩
        rw [onlyIf_false hg]
        rfl
      · rw [onlyIf_true hg] at hr ⊢
        cases hM : readMidFreqData x1 with
        | none =>
          simp only [hM, Option.map_none'] at hr
          cases hr
        | some c =>
          have hc := readMidFreqData_absent x1 hx1 c hM
          subst hc
          refine ⟨x1.log (Event.tier Tier.mid), rfl, hx1,
            [Event.tier Tier.high, Event.tier Tier.mid], ?_, rfl, by simp⟩
          show x1.trace ++ [Event.tier Tier.mid] = _
          rw [ht1]; simp
    obtain ⟨x2, e2, hx2, es, ht2, hm2, hn2⟩ := hmid
    rw [e2, some_bind_eq] at hr
    -- the low tier
    cases hg : decide (s.clock s.clockReads > x2.lastLowFreqReadTime + 800)
    · rw [onlyIf_false hg] at hr
      cases hr
      exact ⟨rfl, es, ht2, hm2, hn2⟩
    · rw [onlyIf_true hg] at hr
      simp only [readLowFreqData_absent x2 hx2, Option.map_none'] at hr
      cases hr

/-- C4: on a present link `readData` returns; and whenever it returns, its verdict is
`Success` exactly when some merged point read of the cycle (any read but the MIL read)
succeeded, `Failure` exactly when at least one merged read was issued and all of them
failed, and `NoStatement` exactly when no merged read was issued. -/
theorem readData_verdict (s : CUXInterface) :
    (s.cux.isSome = true → ∃ r s1, readData s = some (r, s1)) ∧
    ∀ r s1, readData s = some (r, s1) →
      (r = ReadResult.Success ↔
        ∃ p, p ≠ Point.MILOn ∧ Event.read p true ∈ newEvents s s1) ∧
      (r = ReadResult.Failure ↔
        (∃ p ok, p ≠ Point.MILOn ∧ Event.read p ok ∈ newEvents s s1) ∧
        ∀ p ok, p ≠ Point.MILOn → Event.read p ok ∈ newEvents s s1 → ok = false) ∧
      (r = ReadResult.NoStatement ↔
        ¬ ∃ p ok, p ≠ Point.MILOn ∧ Event.read p ok ∈ newEvents s s1) := by
  constructor
  · intro h
    obtain ⟨s1, e, -⟩ := readData_spec s h
    exact ⟨_, s1, e⟩
  · intro r s1 hr
    cases hc : s.cux with
    | none =>
      obtain ⟨rfl, es, t, hm, -⟩ := readData_absent s hc r s1 hr
      rw [newEvents_of_trace t]
      have hv : verdict (mergedOutcomes es) = ReadResult.NoStatement := by rw [hm]; rfl
      have := verdict_mergedOutcomes es
      rw [hv] at this
      exact this
    | some link =>
      have h : s.cux.isSome = true := by rw [hc]; rfl
      obtain ⟨s2, e, -, t, -, -, -⟩ := readData_spec s h
      rw [e] at hr
      cases hr
      rw [newEvents_of_trace t]
      exact verdict_mergedOutcomes (cycleEvents s)

end RoverGauge

/-! ## One call of `pollEcu` -/

namespace RoverGauge

open CUXInterface

theorem emitVerdict_eq (r : ReadResult) (s : CUXInterface) :
    emitVerdict r s = { s with trace := s.trace ++ verdictEvents r } := by
  cases r
  · show s = { s with trace := s.trace ++ [] }
    rw [List.append_nil]
  · show _ = { s with trace := s.trace ++ [Event.emit Signal.readSuccess, Event.emit Signal.dataReady] }
    simp [emitVerdict, emit, log]
  · show _ = { s with trace := s.trace ++ [Event.emit Signal.readError] }
    simp [emitVerdict, emit, log]

theorem signalsOf_verdictEvents (r : ReadResult) :
    signalsOf (verdictEvents r) = verdictSignals r := by
  cases r <;> rfl

theorem signalsOf_cycleEvents (s : CUXInterface) : signalsOf (cycleEvents s) = [] := by
  unfold cycleEvents highEvents midEvents lowEvents
  rw [signalsOf_append, signalsOf_append]
  have h1 : ∀ k l, signalsOf (Event.tier Tier.high :: readEvents s.reply k l) = [] :=
    fun k l => signalsOf_readEvents s.reply l k
  have h2 : ∀ k l, signalsOf (Event.tier Tier.mid :: readEvents s.reply k l) = [] :=
    fun k l => signalsOf_readEvents s.reply l k
  have h3 : ∀ ok k l, signalsOf (Event.tier Tier.low :: Event.read Point.MILOn ok ::
      readEvents s.reply k l) = [] :=
    fun _ k l => signalsOf_readEvents s.reply l k
  rw [h1]
  cases midGate s <;> cases lowGate s <;> simp [signalsOf, signalsOf_readEvents]

theorem stopCondition_false {s : CUXInterface} (h : s.stopCondition = false) :
    s.stopPolling = false ∧ s.shutdownThread = false ∧ s.cux.isSome = true ∧
      s.linkConnected = true := by
  unfold stopCondition at h
  simp only [Bool.or_eq_false_iff, Bool.not_eq_false'] at h
  obtain ⟨⟨⟨h1, h2⟩, h3⟩, h4⟩ := h
  refine ⟨h1, h2, ?_, h4⟩
  cases hc : s.cux with
  | none => rw [hc] at h3; cases h3
  | some l => rfl

theorem pollEcu_of_running (s : CUXInterface) (h : s.stopCondition = false) :
    pollEcu s = (readData s >>= fun a =>
      timerStart 0 { emitVerdict a.1 a.2 with
        readCount := incrementCount (emitVerdict a.1 a.2).readCount }) := by
  unfold pollEcu
  rw [if_neg (by rw [h]; decide)]

theorem timerStart_some (m : Int) (x : CUXInterface) (t : QTimer) (hx : x.timer = some t) :
    timerStart m x = some { x with timer := some { t with active := true, interval := m },
                                   trace := x.trace ++ [Event.timerStart m] } := by
  unfold timerStart
  rw [hx]

/-- A poll cycle without stop condition and with the timer present: `readData` returns a
verdict, and `pollEcu` reports it, counts the cycle and starts the timer with delay 0. -/
theorem pollEcu_running (s : CUXInterface) (t : QTimer) (h : s.stopCondition = false)
    (ht : s.timer = some t) :
    ∃ s1, readData s = some (verdict (mergedOutcomes (cycleEvents s)), s1) ∧
      s1.static = s.static ∧
      s1.trace = s.trace ++ cycleEvents s ∧
      s.clockReads < s1.clockReads ∧
      (midGate s = false → s1.lastMidFreqReadTime = s.lastMidFreqReadTime) ∧
      (lowGate s = false → s1.lastLowFreqReadTime = s.lastLowFreqReadTime) ∧
      pollEcu s = some { s1 with
        trace := s1.trace ++ verdictEvents (verdict (mergedOutcomes (cycleEvents s))) ++
          [Event.timerStart 0],
        readCount := s1.readCount + 1,
        timer := some { t with active := true, interval := 0 } } := by
  obtain ⟨s1, e, st, tr, k, m, l⟩ := readData_spec s (stopCondition_false h).2.2.1
  refine ⟨s1, e, st, tr, k, m, l, ?_⟩
  have ht1 : s1.timer = some t := by
    rw [show s1.timer = s.timer from congrArg Static.timer st]; exact ht
  rw [pollEcu_of_running s h, e, some_bind_eq]
  generalize verdict (mergedOutcomes (cycleEvents s)) = r
  rw [emitVerdict_eq]
  exact timerStart_some 0 _ t ht1

/-- C5: in a poll cycle without stop condition (the timer being present), `pollEcu` emits
exactly `readSuccess` then `dataReady` when `readData` returns `Success`, exactly
`readError` when it returns `Failure`, and no signal at all when it returns
`NoStatement`. -/
theorem pollEcu_signals (s : CUXInterface) (h : s.stopCondition = false)
    (ht : s.timer.isSome = true) :
    ∃ r s1 s2, readData s = some (r, s1) ∧ pollEcu s = some s2 ∧
      (r = ReadResult.Success →
        signalsOf (newEvents s s2) = [Signal.readSuccess, Signal.dataReady]) ∧
      (r = ReadResult.Failure → signalsOf (newEvents s s2) = [Signal.readError]) ∧
      (r = ReadResult.NoStatement → signalsOf (newEvents s s2) = []) := by
  obtain ⟨t, ht⟩ := Option.isSome_iff_exists.mp ht
  obtain ⟨s1, e, -, tr, -, -, -, p⟩ := pollEcu_running s t h ht
  have hs : ∀ r, verdict (mergedOutcomes (cycleEvents s)) = r →
      signalsOf (newEvents s { s1 with
        trace := s1.trace ++ verdictEvents (verdict (mergedOutcomes (cycleEvents s))) ++
          [Event.timerStart 0],
        readCount := s1.readCount + 1,
        timer := some { t with active := true, interval := 0 } }) = verdictSignals r := by
    intro r hr
    have htr : ({ s1 with
        trace := s1.trace ++ verdictEvents (verdict (mergedOutcomes (cycleEvents s))) ++
          [Event.timerStart 0],
        readCount := s1.readCount + 1,
        timer := some { t with active := true, interval := 0 } } : CUXInterface).trace =
        s.trace ++ (cycleEvents s ++ verdictEvents r ++ [Event.timerStart 0]) := by
      show s1.trace ++ _ ++ _ = _
      rw [tr, hr]
      simp
    rw [newEvents_of_trace htr, signalsOf_append, signalsOf_append, signalsOf_cycleEvents,
      signalsOf_verdictEvents]
    simp [signalsOf]
  exact ⟨_, s1, _, e, p, fun hr => hs _ hr, fun hr => hs _ hr, fun hr => hs _ hr⟩

end RoverGauge

/-! ## A poll cycle under a stop condition -/

namespace RoverGauge

open CUXInterface

theorem pollEcu_of_stop (s : CUXInterface) (h : s.stopCondition = true) :
    pollEcu s = some s.stopped := by
  unfold pollEcu
  rw [if_pos h]
  clear h
  cases s with
  | mk deviceName cux timer stopPolling shutdownThread =>
    cases cux with
    | none =>
      cases shutdownThread <;>
        simp [stopped, stopEvents, disconnectIfConnected, CUXInterface.emit, log, linkConnected]
    | some link =>
      cases link with
      | mk connected =>
        cases connected <;> cases shutdownThread <;>
          simp [stopped, stopEvents, disconnectIfConnected, CUXInterface.emit, log,
            linkConnected]

end RoverGauge

namespace RoverGauge

open CUXInterface

theorem readsOf_stopEvents (s : CUXInterface) : readsOf (stopEvents s) = [] := by
  unfold stopEvents
  cases s.linkConnected <;> cases s.shutdownThread <;> rfl

theorem signalsOf_stopEvents (s : CUXInterface) :
    signalsOf (stopEvents s) = [Signal.disconnected] := by
  unfold stopEvents
  cases s.linkConnected <;> cases s.shutdownThread <;> rfl

theorem stopped_linkConnected (s : CUXInterface) : s.stopped.linkConnected = false := by
  unfold stopped linkConnected
  cases s.cux <;> rfl

theorem stopped_stopCondition (s : CUXInterface) : s.stopped.stopCondition = true := by
  have h := stopped_linkConnected s
  unfold stopCondition
  rw [h]
  simp

/-- Poll cycles that start under a stop condition issue no point read, however many. -/
theorem pollCycles_of_stop (n : Nat) :
    ∀ s : CUXInterface, s.stopCondition = true →
      ∃ sn es, pollCycles n s = some sn ∧ sn.trace = s.trace ++ es ∧ readsOf es = [] := by
  induction n with
  | zero => intro s _; exact ⟨s, [], rfl, by simp, rfl⟩
  | succ n ih =>
    intro s h
    obtain ⟨sn, es, e, t, r⟩ := ih s.stopped (stopped_stopCondition s)
    refine ⟨sn, stopEvents s ++ es, ?_, ?_, ?_⟩
    · show (pollEcu s >>= pollCycles n) = _
      rw [pollEcu_of_stop s h, some_bind_eq, e]
    · rw [t]
      show (s.trace ++ stopEvents s) ++ es = _
      rw [List.append_assoc]
    · rw [readsOf_append, readsOf_stopEvents, r]
      rfl

theorem timeouts_of_idle (n : Nat) (s : CUXInterface)
    (h : ∀ t, s.timer = some t → t.active = false) : timeouts n s = some s := by
  have h1 : timeout s = some s := by
    unfold timeout
    cases ht : s.timer with
    | none => rfl
    | some t => simp [h t ht]
  induction n with
  | zero => rfl
  | succ n ih =>
    show (timeout s >>= timeouts n) = _
    rw [h1, some_bind_eq, ih]

/-- C6: under a stop condition (`stopPolling` or `shutdownThread` set, or the link absent or
reporting not connected) `pollEcu` returns and changes nothing but the link's connection
and the record: it issues no point read, calls `disconnect` exactly when the link is
present and still connected, emits exactly one signal, `disconnected`, leaves `readCount`,
both tier timestamps and every cached value as they were, and does not start the timer.
The stop condition still holds afterwards, so further poll cycles issue no read either,
and with the timer not pending (as it is when the cycle ran from the timer's slot) no
timer expiry runs a cycle at all. -/
theorem pollEcu_stop (s : CUXInterface) (h : s.stopCondition = true) :
    ∃ s1, pollEcu s = some s1 ∧
      s1 = { s with cux := s.cux.map (fun link => { link with connected := false }),
                    trace := s.trace ++ stopEvents s } ∧
      (∀ p ok, Event.read p ok ∉ newEvents s s1) ∧
      (Event.linkDisconnect ∈ newEvents s s1 ↔
        (s.cux.isSome = true ∧ s.linkConnected = true)) ∧
      (newEvents s s1).count Event.linkDisconnect ≤ 1 ∧
      signalsOf (newEvents s s1) = [Signal.disconnected] ∧
      s1.readCount = s.readCount ∧
      s1.lastMidFreqReadTime = s.lastMidFreqReadTime ∧
      s1.lastLowFreqReadTime = s.lastLowFreqReadTime ∧
      s1.cache = s.cache ∧
      s1.timer = s.timer ∧
      (∀ m, Event.timerStart m ∉ newEvents s s1) ∧
      s1.stopCondition = true ∧
      (∀ n, ∃ sn, pollCycles n s1 = some sn ∧ ∀ p ok, Event.read p ok ∉ newEvents s1 sn) ∧
      ((∀ t, s.timer = some t → t.active = false) → ∀ n, timeouts n s1 = some s1) := by
  have hn : newEvents s s.stopped = stopEvents s := newEvents_of_trace rfl
  have hmem : ∀ es : List Event, readsOf es = [] → ∀ p ok, Event.read p ok ∉ es := by
    intro es
    induction es with
    | nil => intro _ p ok hm; cases hm
    | cons e es ih =>
      intro hr p ok hm
      cases e with
      | read q b => simp [readsOf] at hr
      | tier t =>
        rcases List.mem_cons.mp hm with hm | hm
        · cases hm
        · exact ih hr p ok hm
      | emit sig =>
        rcases List.mem_cons.mp hm with hm | hm
        · cases hm
        · exact ih hr p ok hm
      | linkDisconnect =>
        rcases List.mem_cons.mp hm with hm | hm
        · cases hm
        · exact ih hr p ok hm
      | timerStart m =>
        rcases List.mem_cons.mp hm with hm | hm
        · cases hm
        · exact ih hr p ok hm
      | threadQuit =>
        rcases List.mem_cons.mp hm with hm | hm
        · cases hm
        · exact ih hr p ok hm
  refine ⟨s.stopped, pollEcu_of_stop s h, rfl, ?_, ?_, ?_, ?_, rfl, rfl, rfl, rfl, rfl, ?_,
    stopped_stopCondition s, ?_, ?_⟩
  · rw [hn]; exact hmem _ (readsOf_stopEvents s)
  · rw [hn]
    unfold stopEvents linkConnected
    cases s.cux with
    | none => cases s.shutdownThread <;> simp
    | some link => cases link.connected <;> cases s.shutdownThread <;> simp
  · rw [hn]
    unfold stopEvents
    cases s.linkConnected <;> cases s.shutdownThread <;> decide
  · rw [hn]; exact signalsOf_stopEvents s
  · rw [hn]
    intro m
    unfold stopEvents
    cases s.linkConnected <;> cases s.shutdownThread <;> simp
  · intro n
    obtain ⟨sn, es, e, t, r⟩ := pollCycles_of_stop n s.stopped (stopped_stopCondition s)
    refine ⟨sn, e, ?_⟩
    rw [newEvents_of_trace t]
    exact hmem es r
  · intro hi n
    exact timeouts_of_idle n s.stopped hi

theorem stopCondition_congr {s x : CUXInterface} (h : x.static = s.static) :
    x.stopCondition = s.stopCondition := by
  have h1 : x.stopPolling = s.stopPolling := congrArg Static.stopPolling h
  have h2 : x.shutdownThread = s.shutdownThread := congrArg Static.shutdownThread h
  have h3 : x.cux = s.cux := congrArg Static.cux h
  unfold stopCondition linkConnected
  rw [h1, h2, h3]

/-- Timer expiries keep a running poll loop running: each one runs a cycle that counts
and starts the timer again. -/
theorem timeouts_running (n : Nat) :
    ∀ (s : CUXInterface) (t : QTimer), s.stopCondition = false → s.timer = some t →
      t.active = true →
      ∃ sn tn, timeouts n s = some sn ∧ sn.readCount = s.readCount + n ∧
        sn.stopCondition = false ∧ sn.timer = some tn ∧ tn.active = true ∧
        (n ≠ 0 → tn.interval = 0) := by
  induction n with
  | zero =>
    intro s t h ht ha
    exact ⟨s, t, rfl, rfl, h, ht, ha, fun hn => absurd rfl hn⟩
  | succ n ih =>
    intro s t h ht ha
    have hs1 : ({ s with timer := some { t with active := if t.singleShot then false else true } } :
        CUXInterface).stopCondition = false := h
    obtain ⟨s1, -, st, -, -, -, -, p⟩ := pollEcu_running _ _ hs1 rfl
    have e1 : timeout s = some { s1 with
        trace := s1.trace ++ verdictEvents (verdict (mergedOutcomes (cycleEvents
          { s with timer := some { t with active := if t.singleShot then false else true } }))) ++
          [Event.timerStart 0],
        readCount := s1.readCount + 1,
        timer := some { singleShot := t.singleShot, active := true, interval := 0 } } := by
      unfold timeout
      rw [ht]
      simp only [ha, if_true]
      exact p
    have hrc : s1.readCount = s.readCount := congrArg Static.readCount st
    have hsc : s1.stopCondition = false := by
      rw [stopCondition_congr st]; exact hs1
    obtain ⟨sn, tn, e, rc, sc, tm, ac, iv⟩ := ih _
      { singleShot := t.singleShot, active := true, interval := 0 }
      (show ({ s1 with
        trace := s1.trace ++ verdictEvents (verdict (mergedOutcomes (cycleEvents
          { s with timer := some { t with active := if t.singleShot then false else true } }))) ++
          [Event.timerStart 0],
        readCount := s1.readCount + 1,
        timer := some { singleShot := t.singleShot, active := true, interval := 0 } } :
        CUXInterface).stopCondition = false from hsc) rfl rfl
    refine ⟨sn, tn, ?_, ?_, sc, tm, ac, ?_⟩
    · show (timeout s >>= timeouts n) = _
      rw [e1, some_bind_eq, e]
    · rw [rc]
      show s1.readCount + 1 + n = _
      rw [hrc]; omega
    · intro _
      by_cases hn : n = 0
      · subst hn
        have := e
        simp only [timeouts] at this
        cases this
        have := tm
        cases this
        rfl
      · exact iv hn

/-- C7: in a poll cycle without stop condition (the timer being present) `pollEcu` adds
exactly 1 to `readCount` and starts the timer with delay 0, whatever `readData`
returned; no stop condition holds afterwards, so every later timer expiry runs one more
cycle that counts and re-arms in the same way, for any number of expiries and whatever
the reads return. -/
theorem pollEcu_counts_and_rearms (s : CUXInterface) (h : s.stopCondition = false)
    (ht : s.timer.isSome = true) :
    ∃ s2, pollEcu s = some s2 ∧
      s2.readCount = s.readCount + 1 ∧
      (∃ t, s.timer = some t ∧ s2.timer = some { t with active := true, interval := 0 }) ∧
      (newEvents s s2).getLast? = some (Event.timerStart 0) ∧
      s2.stopCondition = false ∧
      ∀ n, ∃ sn tn, timeouts n s2 = some sn ∧ sn.readCount = s.readCount + 1 + n ∧
        sn.stopCondition = false ∧ sn.timer = some tn ∧ tn.active = true ∧
        tn.interval = 0 := by
  obtain ⟨t, ht⟩ := Option.isSome_iff_exists.mp ht
  obtain ⟨s1, -, st, tr, -, -, -, p⟩ := pollEcu_running s t h ht
  have hrc : s1.readCount = s.readCount := congrArg Static.readCount st
  have hsc : s1.stopCondition = false := by rw [stopCondition_congr st]; exact h
  refine ⟨_, p, ?_, ⟨t, ht, rfl⟩, ?_, hsc, ?_⟩
  · show s1.readCount + 1 = _
    rw [hrc]
  · have htr : ({ s1 with
        trace := s1.trace ++ verdictEvents (verdict (mergedOutcomes (cycleEvents s))) ++
          [Event.timerStart 0],
        readCount := s1.readCount + 1,
        timer := some { t with active := true, interval := 0 } } : CUXInterface).trace =
        s.trace ++ ((cycleEvents s ++ verdictEvents (verdict (mergedOutcomes (cycleEvents s)))) ++
          [Event.timerStart 0]) := by
      show s1.trace ++ _ ++ _ = _
      rw [tr]; simp
    rw [newEvents_of_trace htr, List.getLast?_append]
    rfl
  · intro n
    obtain ⟨sn, tn, e, rc, sc, tm, ac, iv⟩ := timeouts_running n _
      { t with active := true, interval := 0 }
      (show ({ s1 with
        trace := s1.trace ++ verdictEvents (verdict (mergedOutcomes (cycleEvents s))) ++
          [Event.timerStart 0],
        readCount := s1.readCount + 1,
        timer := some { t with active := true, interval := 0 } } :
        CUXInterface).stopCondition = false from hsc) rfl rfl
    refine ⟨sn, tn, e, ?_, sc, tm, ac, ?_⟩
    · rw [rc]
      show s1.readCount + 1 + n = _
      rw [hrc]
    · by_cases hn : n = 0
      · subst hn
        have := e
        simp only [timeouts] at this
        cases this
        have := tm
        cases this
        rfl
      · exact iv hn

end RoverGauge

/-! ## Which tiers and which reads a cycle contains -/

namespace RoverGauge

open CUXInterface

theorem tier_mem_cycleEvents (s : CUXInterface) (t : Tier) :
    Event.tier t ∈ cycleEvents s ↔
      t = Tier.high ∨ (t = Tier.mid ∧ midGate s = true) ∨ (t = Tier.low ∧ lowGate s = true) := by
  unfold cycleEvents highEvents midEvents lowEvents
  have hr := tier_not_mem_readEvents s.reply
  cases midGate s <;> cases lowGate s <;> cases t <;> simp [hr]

theorem read_mem_cycleEvents (s : CUXInterface) (p : Point) :
    (∃ ok, Event.read p ok ∈ cycleEvents s) ↔
      p ∈ highPlan s ∨ (midGate s = true ∧ p ∈ midPlan s) ∨
      (lowGate s = true ∧ (p = Point.MILOn ∨ p ∈ lowPlan s)) := by
  have hH := mem_readEvents s.reply (highPlan s) p s.linkCalls
  have hM := mem_readEvents s.reply (midPlan s) p (s.linkCalls + (highPlan s).length)
  have hL := mem_readEvents s.reply (lowPlan s) p (s.linkCalls + (headPlan s).length + 1)
  generalize (p ∈ highPlan s) = A at hH ⊢
  generalize (p ∈ midPlan s) = B at hM ⊢
  generalize (p ∈ lowPlan s) = C at hL ⊢
  unfold cycleEvents highEvents midEvents lowEvents
  simp only [List.mem_append, List.mem_cons, exists_or, reduceCtorEq, false_or]
  rw [hH]
  have hex : (∃ ok, p = Point.MILOn ∧
      ok = (s.reply (s.linkCalls + (headPlan s).length) Point.MILOn).ok) ↔ p = Point.MILOn :=
    ⟨fun ⟨_, h, _⟩ => h, fun h => ⟨_, h, rfl⟩⟩
  cases midGate s <;> cases lowGate s <;>
    simp only [if_true, if_false, Bool.false_eq_true, List.mem_cons, List.not_mem_nil,
      exists_or, exists_false, reduceCtorEq, false_or, or_false, false_and, true_and,
      Event.read.injEq, hM, hL, hex]
  all_goals tauto

end RoverGauge

/-! ## Spacing of the gated tiers over a run of cycles -/

namespace RoverGauge

open CUXInterface

theorem pollEcu_running_none (s : CUXInterface) (h : s.stopCondition = false)
    (ht : s.timer = none) : pollEcu s = none := by
  obtain ⟨s1, e, st, -⟩ := readData_spec s (stopCondition_false h).2.2.1
  have ht1 : s1.timer = none := by
    rw [show s1.timer = s.timer from congrArg Static.timer st]; exact ht
  rw [pollEcu_of_running s h, e, some_bind_eq]
  generalize verdict (mergedOutcomes (cycleEvents s)) = r
  rw [emitVerdict_eq]
  unfold timerStart
  simp only [ht1]

/-- What one call of `pollEcu` that returns does to the clock and to the gated tiers: the
clock is the same function and no reading is given back; a gated tier is entered exactly
when no stop condition holds and its gate is open; and a tier that is not entered leaves
its timestamp alone. -/
theorem pollEcu_cycle (s s2 : CUXInterface) (hp : pollEcu s = some s2) :
    s2.clock = s.clock ∧ s.clockReads ≤ s2.clockReads ∧
    (Event.tier Tier.mid ∈ newEvents s s2 ↔ (s.stopCondition = false ∧ midGate s = true)) ∧
    (Event.tier Tier.low ∈ newEvents s s2 ↔ (s.stopCondition = false ∧ lowGate s = true)) ∧
    (Event.tier Tier.mid ∉ newEvents s s2 → s2.lastMidFreqReadTime = s.lastMidFreqReadTime) ∧
    (Event.tier Tier.low ∉ newEvents s s2 → s2.lastLowFreqReadTime = s.lastLowFreqReadTime) := by
  cases h : s.stopCondition
  · cases ht : s.timer with
    | none => rw [pollEcu_running_none s h ht] at hp; cases hp
    | some t =>
      obtain ⟨s1, -, st, tr, k, m, l, p⟩ := pollEcu_running s t h ht
      rw [p] at hp
      cases hp
      have htr : ({ s1 with
          trace := s1.trace ++ verdictEvents (verdict (mergedOutcomes (cycleEvents s))) ++
            [Event.timerStart 0],
          readCount := s1.readCount + 1,
          timer := some { t with active := true, interval := 0 } } : CUXInterface).trace =
          s.trace ++ (cycleEvents s ++ verdictEvents (verdict (mergedOutcomes (cycleEvents s))) ++
            [Event.timerStart 0]) := by
        show s1.trace ++ _ ++ _ = _
        rw [tr]; simp
      have hmem : ∀ t : Tier, Event.tier t ∈ cycleEvents s ++
          verdictEvents (verdict (mergedOutcomes (cycleEvents s))) ++ [Event.timerStart 0] ↔
          Event.tier t ∈ cycleEvents s := by
        intro t
        generalize verdict (mergedOutcomes (cycleEvents s)) = r
        cases r <;> simp [verdictEvents]
      rw [newEvents_of_trace htr, hmem, hmem, tier_mem_cycleEvents, tier_mem_cycleEvents]
      refine ⟨congrArg Static.clock st, Nat.le_of_lt k, by simp, by simp, ?_, ?_⟩
      · intro hn
        apply m
        cases hg : midGate s
        · rfl
        · exact absurd (Or.inr (Or.inl ⟨rfl, hg⟩)) hn
      · intro hn
        apply l
        cases hg : lowGate s
        · rfl
        · exact absurd (Or.inr (Or.inr ⟨rfl, hg⟩)) hn
  · rw [pollEcu_of_stop s h] at hp
    cases hp
    have hn : newEvents s s.stopped = stopEvents s := newEvents_of_trace rfl
    rw [hn]
    have h1 : ∀ t : Tier, Event.tier t ∉ stopEvents s := by
      intro t
      unfold stopEvents
      cases s.linkConnected <;> cases s.shutdownThread <;> simp
    refine ⟨rfl, Nat.le_refl _, ?_, ?_, fun _ => rfl, fun _ => rfl⟩
    · simp [h1]
    · simp [h1]

theorem pollCycles_clock (n : Nat) :
    ∀ s sn : CUXInterface, pollCycles n s = some sn →
      sn.clock = s.clock ∧ s.clockReads ≤ sn.clockReads := by
  induction n with
  | zero =>
    intro s sn h
    cases h
    exact ⟨rfl, Nat.le_refl _⟩
  | succ n ih =>
    intro s sn h
    change (pollEcu s >>= pollCycles n) = some sn at h
    cases hp : pollEcu s with
    | none => rw [hp] at h; cases h
    | some s1 =>
      rw [hp, some_bind_eq] at h
      obtain ⟨c1, k1, -⟩ := pollEcu_cycle s s1 hp
      obtain ⟨c2, k2⟩ := ih s1 sn h
      exact ⟨c2.trans c1, Nat.le_trans k1 k2⟩

/-- Over a run of cycles under a non-decreasing clock, a tier's timestamp stays what it was
for as long as the cycles start no later than the timestamp plus the tier's period. -/
theorem pollCycles_keeps (n : Nat) :
    ∀ s sn : CUXInterface, Monotone s.clock → pollCycles n s = some sn →
      (sn.startTime ≤ s.lastMidFreqReadTime + 200 →
        sn.lastMidFreqReadTime = s.lastMidFreqReadTime) ∧
      (sn.startTime ≤ s.lastLowFreqReadTime + 800 →
        sn.lastLowFreqReadTime = s.lastLowFreqReadTime) := by
  induction n with
  | zero =>
    intro s sn _ h
    cases h
    exact ⟨fun _ => rfl, fun _ => rfl⟩
  | succ n ih =>
    intro s sn hmono h
    change (pollEcu s >>= pollCycles n) = some sn at h
    cases hp : pollEcu s with
    | none => rw [hp] at h; cases h
    | some s1 =>
      rw [hp, some_bind_eq] at h
      obtain ⟨c1, k1, gm, gl, fm, fl⟩ := pollEcu_cycle s s1 hp
      obtain ⟨c2, k2⟩ := pollCycles_clock n s1 sn h
      have hmono1 : Monotone s1.clock := by rw [c1]; exact hmono
      obtain ⟨im, il⟩ := ih s1 sn hmono1 h
      have hstart : s.startTime ≤ sn.startTime := by
        unfold startTime
        rw [c2, c1]
        exact hmono (Nat.le_trans k1 k2)
      constructor
      · intro hle
        have hclosed : Event.tier Tier.mid ∉ newEvents s s1 := by
          rw [gm]
          rintro ⟨-, hg⟩
          unfold midGate at hg
          have := of_decide_eq_true hg
          omega
        have e1 := fm hclosed
        rw [← e1] at hle ⊢
        exact im hle
      · intro hle
        have hclosed : Event.tier Tier.low ∉ newEvents s s1 := by
          rw [gl]
          rintro ⟨-, hg⟩
          unfold lowGate at hg
          have := of_decide_eq_true hg
          omega
        have e1 := fl hclosed
        rw [← e1] at hle ⊢
        exact il hle

/-- C8: under a non-decreasing clock, let `s1` be any state in which the mid tier's
timestamp is `t`, as it is once a mid-tier execution has returned `Success` and stamped
`t`; then after any number of further poll cycles, a cycle whose start time is at most
`t + 200` does not enter the mid tier. Likewise for the low tier with its timestamp and
`800`. A tier that returns `Success` does stamp its timestamp with the clock reading it
takes, and stamps nothing otherwise. -/
theorem tier_spacing (s1 s s2 : CUXInterface) (n : Nat) (t : Int)
    (hmono : Monotone s1.clock) (hrun : pollCycles n s1 = some s)
    (hlast : pollEcu s = some s2) :
    (s1.lastMidFreqReadTime = t → s.startTime ≤ t + 200 →
      Event.tier Tier.mid ∉ newEvents s s2) ∧
    (s1.lastLowFreqReadTime = t → s.startTime ≤ t + 800 →
      Event.tier Tier.low ∉ newEvents s s2) ∧
    (∀ x r x1, x.cux.isSome = true → readMidFreqData x = some (r, x1) →
      x1.lastMidFreqReadTime =
        if r = ReadResult.Success then x.clock x.clockReads else x.lastMidFreqReadTime) ∧
    (∀ x r x1, x.cux.isSome = true → readLowFreqData x = some (r, x1) →
      x1.lastLowFreqReadTime =
        if r = ReadResult.Success then x.clock x.clockReads else x.lastLowFreqReadTime) := by
  obtain ⟨km, kl⟩ := pollCycles_keeps n s1 s hmono hrun
  obtain ⟨-, -, gm, gl, -, -⟩ := pollEcu_cycle s s2 hlast
  refine ⟨?_, ?_, ?_, ?_⟩
  · intro ht hle
    subst ht
    rw [gm]
    rintro ⟨-, hg⟩
    have e := km hle
    unfold midGate at hg
    have := of_decide_eq_true hg
    omega
  · intro ht hle
    subst ht
    rw [gl]
    rintro ⟨-, hg⟩
    have e := kl hle
    unfold lowGate at hg
    have := of_decide_eq_true hg
    omega
  · intro x r x1 hx hr
    obtain ⟨y, e, -, -, -, -, m, -⟩ := readMidFreqData_spec x hx
    rw [e] at hr
    cases hr
    exact m
  · intro x r x1 hx hr
    obtain ⟨y, e, -, -, -, -, m, -⟩ := readLowFreqData_spec x hx
    rw [e] at hr
    cases hr
    exact m

end RoverGauge

/-! ## The properties on concrete sessions -/

namespace RoverGauge

open CUXInterface

theorem readData_verdict_witness :
    driveSession.cux.isSome = true ∧
    (readData driveSession).map Prod.fst = some ReadResult.Success ∧
    ∃ r s1, readData driveSession = some (r, s1) ∧
      (r = ReadResult.Success ↔
        ∃ p, p ≠ Point.MILOn ∧ Event.read p true ∈ newEvents driveSession s1) := by
  refine ⟨by decide, by decide, ?_⟩
  obtain ⟨r, s1, h⟩ := (readData_verdict driveSession).1 (by decide)
  exact ⟨r, s1, h, ((readData_verdict driveSession).2 r s1 h).1⟩

theorem pollEcu_signals_witness :
    driveSession.stopCondition = false ∧ driveSession.timer.isSome = true ∧
    ∃ r s1 s2, readData driveSession = some (r, s1) ∧ pollEcu driveSession = some s2 ∧
      (r = ReadResult.Success →
        signalsOf (newEvents driveSession s2) = [Signal.readSuccess, Signal.dataReady]) ∧
      (r = ReadResult.Failure → signalsOf (newEvents driveSession s2) = [Signal.readError]) ∧
      (r = ReadResult.NoStatement → signalsOf (newEvents driveSession s2) = []) :=
  ⟨by decide, by decide, pollEcu_signals driveSession (by decide) (by decide)⟩

theorem pollEcu_stop_witness :
    haltedSession.stopCondition = true ∧
    ∃ s1, pollEcu haltedSession = some s1 ∧
      signalsOf (newEvents haltedSession s1) = [Signal.disconnected] ∧
      s1.readCount = haltedSession.readCount ∧
      s1.cache = haltedSession.cache ∧
      s1.timer = haltedSession.timer ∧
      ∀ n, timeouts n s1 = some s1 := by
  refine ⟨by decide, ?_⟩
  obtain ⟨s1, h1, -, -, -, -, h2, h3, -, -, h4, h5, -, -, -, h6⟩ :=
    pollEcu_stop haltedSession (by decide)
  refine ⟨s1, h1, h2, h3, h4, h5, h6 ?_⟩
  intro t ht
  cases ht
  rfl

theorem pollEcu_counts_and_rearms_witness :
    failingSession.stopCondition = false ∧ failingSession.timer.isSome = true ∧
    (readData failingSession).map Prod.fst = some ReadResult.Failure ∧
    ∃ s2, pollEcu failingSession = some s2 ∧ s2.readCount = 1 ∧
      ∀ n, ∃ sn tn, timeouts n s2 = some sn ∧ sn.readCount = 1 + n ∧
        sn.stopCondition = false ∧ sn.timer = some tn ∧ tn.active = true ∧
        tn.interval = 0 := by
  refine ⟨by decide, by decide, by decide, ?_⟩
  obtain ⟨s2, h1, h2, -, -, -, h3⟩ :=
    pollEcu_counts_and_rearms failingSession (by decide) (by decide)
  refine ⟨s2, h1, h2, ?_⟩
  intro n
  obtain ⟨sn, tn, e, rc, r⟩ := h3 n
  exact ⟨sn, tn, e, by rw [rc]; rfl, r⟩

theorem slowClock_monotone : Monotone slowClock := by
  intro a b h
  unfold slowClock
  split_ifs <;> omega

theorem tier_spacing_witness :
    Monotone slowSession1.clock ∧
    pollCycles 1 slowSession1 = some slowSession2 ∧
    pollEcu slowSession2 = some slowSession3 ∧
    slowSession1.lastLowFreqReadTime = 1000 ∧
    slowSession2.startTime ≤ 1000 + 800 ∧
    Event.tier Tier.low ∉ newEvents slowSession2 slowSession3 :=
  have hmono : Monotone slowSession1.clock := slowClock_monotone
  have hrun : pollCycles 1 slowSession1 = some slowSession2 := rfl
  have hlast : pollEcu slowSession2 = some slowSession3 := rfl
  have ht : slowSession1.lastLowFreqReadTime = 1000 := by decide
  have hle : slowSession2.startTime ≤ 1000 + 800 := by decide
  ⟨hmono, hrun, hlast, ht, hle,
    (tier_spacing slowSession1 slowSession2 slowSession3 1 1000 hmono hrun hlast).2.1 ht hle⟩

end RoverGauge

/-! ## The low tier's temperature and fuel-map reads -/

namespace RoverGauge

open CUXInterface

/-- The point reads of a poll cycle without stop condition are those of `readData`. -/
theorem pollEcu_reads (s : CUXInterface) (h : s.stopCondition = false)
    (ht : s.timer.isSome = true) :
    ∃ s2, pollEcu s = some s2 ∧
      ∀ p ok, Event.read p ok ∈ newEvents s s2 ↔ Event.read p ok ∈ cycleEvents s := by
  obtain ⟨t, ht⟩ := Option.isSome_iff_exists.mp ht
  obtain ⟨s1, -, -, tr, -, -, -, p⟩ := pollEcu_running s t h ht
  refine ⟨_, p, ?_⟩
  have htr : ({ s1 with
      trace := s1.trace ++ verdictEvents (verdict (mergedOutcomes (cycleEvents s))) ++
        [Event.timerStart 0],
      readCount := s1.readCount + 1,
      timer := some { t with active := true, interval := 0 } } : CUXInterface).trace =
      s.trace ++ (cycleEvents s ++ verdictEvents (verdict (mergedOutcomes (cycleEvents s))) ++
        [Event.timerStart 0]) := by
    show s1.trace ++ _ ++ _ = _
    rw [tr]; simp
  intro q ok
  rw [newEvents_of_trace htr]
  generalize verdict (mergedOutcomes (cycleEvents s)) = r
  cases r <;> simp [verdictEvents]

theorem CurrentFuelMap_mem_lowPlan (s : CUXInterface) :
    Point.CurrentFuelMap ∈ lowPlan s ↔
      (s.enabledSamples SampleType.FuelMap = true ∧ s.readCount % 7 = 0) := by
  unfold lowPlan
  cases s.enabledSamples SampleType.FuelMap <;>
    cases s.enabledSamples SampleType.EngineTemperature <;>
    cases s.enabledSamples SampleType.FuelTemperature <;>
    by_cases h7 : s.readCount % 7 = 0 <;>
    by_cases h2 : s.readCount % 2 = 0 <;>
    simp [h7, h2]

theorem CurrentFuelMap_not_mem_highPlan (s : CUXInterface) :
    Point.CurrentFuelMap ∉ highPlan s := by
  unfold highPlan
  simp only [List.mem_append, not_or]
  refine ⟨⟨⟨⟨⟨?_, ?_⟩, ?_⟩, ?_⟩, ?_⟩, ?_⟩ <;> split <;> simp

theorem CurrentFuelMap_not_mem_midPlan (s : CUXInterface) :
    Point.CurrentFuelMap ∉ midPlan s := by
  unfold midPlan
  simp only [List.mem_append, not_or]
  refine ⟨⟨⟨⟨⟨?_, ?_⟩, ?_⟩, ?_⟩, ?_⟩, ?_⟩ <;> split <;> simp

/-- C9 (the code at a failing input): both temperatures are enabled and the device
answers every read; over the first three poll cycles the low tier is entered twice, in the
cycles with counts 0 and 2 (the cycle with count 1 starts within 800 ms of the first
stamp), and both of these consecutive low-tier executions read the coolant temperature;
the fuel temperature is read in neither. -/
theorem temperature_alternation_fails :
    tempSession.enabledSamples SampleType.EngineTemperature = true ∧
    tempSession.enabledSamples SampleType.FuelTemperature = true ∧
    (pollCycles 3 tempSession).map (fun s3 => temperatureSteps (newEvents tempSession s3)) =
      some [Event.tier Tier.low, Event.read Point.CoolantTemp true,
            Event.tier Tier.low, Event.read Point.CoolantTemp true] ∧
    (pollCycles 3 tempSession).map (fun s3 => s3.readCount) = some 3 := by
  decide

/-- C10 as stated fails: after seven poll cycles of a session with the fuel map enabled
the cycle count is 7 and so divisible by 7, no stop condition holds, and yet the eighth
cycle, which starts 700 ms after the low tier's last success, reads the fuel-map row and
column and not the active fuel-map index. -/
theorem fuelMap_index_read_counterexample :
    pollCycles 7 fuelSession = some fuelSession7 ∧
    fuelSession7.enabledSamples SampleType.FuelMap = true ∧
    fuelSession7.readCount = 7 ∧
    fuelSession7.readCount % 7 = 0 ∧
    fuelSession7.stopCondition = false ∧
    fuelSession7.lastLowFreqReadTime = 1100 ∧
    fuelSession7.startTime = 1800 ∧
    (pollEcu fuelSession7).map (fun s8 => readsOf (newEvents fuelSession7 s8)) =
      some [(Point.FuelMapRowIndex, true), (Point.FuelMapColumnIndex, true)] ∧
    ¬ ((∃ s8 ok, pollEcu fuelSession7 = some s8 ∧
          Event.read Point.CurrentFuelMap ok ∈ newEvents fuelSession7 s8) ↔
        fuelSession7.readCount % 7 = 0) := by
  have hreads : (pollEcu fuelSession7).map (fun s8 => readsOf (newEvents fuelSession7 s8)) =
      some [(Point.FuelMapRowIndex, true), (Point.FuelMapColumnIndex, true)] := by decide
  refine ⟨rfl, by decide, by decide, by decide, by decide, by decide, by decide, hreads, ?_⟩
  intro h
  obtain ⟨s8, ok, hp, hm⟩ := h.mpr (by decide)
  rw [hp] at hreads
  have hin : (Point.CurrentFuelMap, ok) ∈ readsOf (newEvents fuelSession7 s8) :=
    (mem_readsOf _ _ _).mp hm
  have hl : readsOf (newEvents fuelSession7 s8) =
      [(Point.FuelMapRowIndex, true), (Point.FuelMapColumnIndex, true)] := by
    simpa using hreads
  rw [hl] at hin
  simp at hin

/-- C10 (amended): with the fuel map enabled, a poll cycle without stop condition (the
timer being present) reads the active fuel-map index exactly when the low tier's timing
gate is open in that cycle (the start time exceeds the low tier's timestamp by more than
800 ms) and the cycle count is divisible by 7. -/
theorem fuelMap_index_read (s : CUXInterface) (h : s.stopCondition = false)
    (ht : s.timer.isSome = true) (hf : s.enabledSamples SampleType.FuelMap = true) :
    ∃ s2, pollEcu s = some s2 ∧
      ((∃ ok, Event.read Point.CurrentFuelMap ok ∈ newEvents s s2) ↔
        (s.startTime > s.lastLowFreqReadTime + 800 ∧ s.readCount % 7 = 0)) := by
  obtain ⟨s2, p, hr⟩ := pollEcu_reads s h ht
  refine ⟨s2, p, ?_⟩
  have e : (∃ ok, Event.read Point.CurrentFuelMap ok ∈ newEvents s s2) ↔
      ∃ ok, Event.read Point.CurrentFuelMap ok ∈ cycleEvents s :=
    exists_congr fun ok => hr _ ok
  rw [e, read_mem_cycleEvents, CurrentFuelMap_mem_lowPlan]
  have h1 := CurrentFuelMap_not_mem_highPlan s
  have h2 := CurrentFuelMap_not_mem_midPlan s
  have hg : lowGate s = true ↔ s.startTime > s.lastLowFreqReadTime + 800 := by
    unfold lowGate
    exact decide_eq_true_iff
  rw [hg]
  simp [h1, h2, hf]

theorem fuelMap_index_read_witness :
    driveSession.stopCondition = false ∧ driveSession.timer.isSome = true ∧
    driveSession.enabledSamples SampleType.FuelMap = true ∧
    ∃ s2, pollEcu driveSession = some s2 ∧
      ((∃ ok, Event.read Point.CurrentFuelMap ok ∈ newEvents driveSession s2) ↔
        (driveSession.startTime > driveSession.lastLowFreqReadTime + 800 ∧
          driveSession.readCount % 7 = 0)) :=
  ⟨by decide, by decide, by decide,
    fuelMap_index_read driveSession (by decide) (by decide) (by decide)⟩

end RoverGauge

/-! ## Reads and the sample registry -/

namespace RoverGauge

open CUXInterface

/-- Every point read recorded during a call of `pollEcu` that returns is one of the reads
of `readData` in that cycle. -/
theorem pollEcu_read_mem (s s2 : CUXInterface) (hp : pollEcu s = some s2) (p : Point)
    (ok : Bool) (hm : Event.read p ok ∈ newEvents s s2) : Event.read p ok ∈ cycleEvents s := by
  cases h : s.stopCondition
  · cases ht : s.timer with
    | none => rw [pollEcu_running_none s h ht] at hp; cases hp
    | some t =>
      obtain ⟨s3, e3, hr⟩ := pollEcu_reads s h (by rw [ht]; rfl)
      rw [hp] at e3
      cases e3
      exact (hr p ok).mp hm
  · rw [pollEcu_of_stop s h] at hp
    cases hp
    have hn : newEvents s s.stopped = stopEvents s := newEvents_of_trace rfl
    rw [hn, mem_readsOf, readsOf_stopEvents] at hm
    cases hm

theorem mem_guarded {p : Point} {c : Bool} {l : List Point}
    (h : p ∈ (if c = true then l else [])) : c = true ∧ p ∈ l := by
  cases c
  · simp at h
  · exact ⟨rfl, by simpa using h⟩

theorem highPlan_enabled (s : CUXInterface) (p : Point) (h : p ∈ highPlan s) :
    ∃ k, p.sample = some k ∧ s.enabledSamples k = true := by
  unfold highPlan at h
  simp only [List.mem_append] at h
  rcases h with ((((h | h) | h) | h) | h) | h
  all_goals
    obtain ⟨hc, hl⟩ := mem_guarded h
    simp only [List.mem_cons, List.mem_singleton, List.not_mem_nil, or_false,
      Bool.and_eq_true] at hl hc
  · subst hl; exact ⟨_, rfl, hc⟩
  · subst hl; exact ⟨_, rfl, hc⟩
  · rcases hl with hl | hl <;> subst hl <;> exact ⟨_, rfl, hc.1⟩
  · subst hl; exact ⟨_, rfl, hc⟩
  · rcases hl with hl | hl <;> subst hl <;> exact ⟨_, rfl, hc⟩
  · subst hl; exact ⟨_, rfl, hc⟩

theorem midPlan_enabled (s : CUXInterface) (p : Point) (h : p ∈ midPlan s) :
    ∃ k, p.sample = some k ∧ s.enabledSamples k = true := by
  unfold midPlan at h
  simp only [List.mem_append] at h
  rcases h with ((((h | h) | h) | h) | h) | h
  all_goals
    obtain ⟨hc, hl⟩ := mem_guarded h
    simp only [List.mem_cons, List.mem_singleton, List.not_mem_nil, or_false,
      Bool.and_eq_true] at hl hc
  · rcases hl with hl | hl <;> subst hl <;> exact ⟨_, rfl, hc.1⟩
  · subst hl; exact ⟨_, rfl, hc⟩
  · rcases hl with hl | hl <;> subst hl <;> exact ⟨_, rfl, hc⟩
  · subst hl; exact ⟨_, rfl, hc⟩
  · subst hl; exact ⟨_, rfl, hc⟩
  · subst hl; exact ⟨_, rfl, hc⟩

theorem lowPlan_enabled (s : CUXInterface) (p : Point) (h : p ∈ lowPlan s) :
    ∃ k, p.sample = some k ∧ s.enabledSamples k = true := by
  unfold lowPlan at h
  simp only [List.mem_append] at h
  rcases h with h | h
  · by_cases hc : (s.enabledSamples SampleType.EngineTemperature &&
        decide (s.readCount % 2 = 0)) = true
    · rw [if_pos hc] at h
      simp only [List.mem_singleton, Bool.and_eq_true] at h hc
      subst h
      exact ⟨_, rfl, hc.1⟩
    · rw [if_neg hc] at h
      obtain ⟨hd, hl⟩ := mem_guarded h
      simp only [List.mem_singleton] at hl
      subst hl
      exact ⟨_, rfl, hd⟩
  · obtain ⟨hc, hl⟩ := mem_guarded h
    simp only [List.mem_singleton, Bool.and_eq_true] at hl hc
    subst hl
    exact ⟨_, rfl, hc.1⟩

/-- C11: a poll cycle issues no point read that belongs to a sample kind disabled in the
registry: if `pollEcu` starts in a state whose registry has `k` disabled and returns, then
no read of a point guarded by `k` (in whichever tier the read lives) is recorded during the
call. -/
theorem disabled_sample_not_read (s s2 : CUXInterface) (p : Point) (k : SampleType)
    (ok : Bool) (hp : pollEcu s = some s2) (hk : p.sample = some k)
    (hd : s.enabledSamples k = false) : Event.read p ok ∉ newEvents s s2 := by
  intro hm
  have hc := (read_mem_cycleEvents s p).mp ⟨ok, pollEcu_read_mem s s2 hp p ok hm⟩
  have key : ∀ j, p.sample = some j → s.enabledSamples j = true → False := by
    intro j hj he
    rw [hk] at hj
    cases hj
    rw [hd] at he
    cases he
  rcases hc with h | ⟨-, h⟩ | ⟨-, h | h⟩
  · obtain ⟨j, hj, he⟩ := highPlan_enabled s p h
    exact key j hj he
  · obtain ⟨j, hj, he⟩ := midPlan_enabled s p h
    exact key j hj he
  · subst h
    cases hk
  · obtain ⟨j, hj, he⟩ := lowPlan_enabled s p h
    exact key j hj he

theorem disabled_sample_not_read_witness :
    pollEcu roadSession = some roadSession1 ∧
    Point.MAFReading.sample = some SampleType.MAF ∧
    roadSession.enabledSamples SampleType.MAF = false ∧
    Event.read Point.MAFReading true ∉ newEvents roadSession roadSession1 :=
  have hp : pollEcu roadSession = some roadSession1 := rfl
  ⟨hp, rfl, by decide,
    disabled_sample_not_read roadSession roadSession1 Point.MAFReading SampleType.MAF true hp
      rfl (by decide)⟩

end RoverGauge

/-! ## The scenario with road speed and engine speed only -/

namespace RoverGauge

open CUXInterface

theorem onlyRoadSpeedAndRPM_plans (s : CUXInterface) (hr : onlyRoadSpeedAndRPM s) :
    highPlan s = [Point.EngineRPM] ∧ midPlan s = [Point.RoadSpeed] ∧ lowPlan s = [] := by
  unfold onlyRoadSpeedAndRPM at hr
  refine ⟨?_, ?_, ?_⟩
  · simp [highPlan, hr]
  · simp [midPlan, hr]
  · simp [lowPlan, hr]

/-- The state in which a poll cycle without stop condition ends, up to the members that
the cycle may have changed: registry, stop flags, link and clock are those of the start. -/
theorem pollEcu_keeps_polling (s : CUXInterface) (h : s.stopCondition = false)
    (ht : s.timer.isSome = true) :
    ∃ s2, pollEcu s = some s2 ∧ s2.stopCondition = false ∧ s2.timer.isSome = true ∧
      s2.enabledSamples = s.enabledSamples ∧ s2.lambdaTrimType = s.lambdaTrimType ∧
      s2.readCount = s.readCount + 1 ∧
      newEvents s s2 = cycleEvents s ++
        verdictEvents (verdict (mergedOutcomes (cycleEvents s))) ++ [Event.timerStart 0] := by
  obtain ⟨t, ht⟩ := Option.isSome_iff_exists.mp ht
  obtain ⟨s1, -, st, tr, -, -, -, p⟩ := pollEcu_running s t h ht
  refine ⟨_, p, ?_, rfl, congrArg Static.enabledSamples st,
    congrArg Static.lambdaTrimType st, ?_, ?_⟩
  · have hsc : s1.stopCondition = false := by rw [stopCondition_congr st]; exact h
    exact hsc
  · show s1.readCount + 1 = _
    rw [show s1.readCount = s.readCount from congrArg Static.readCount st]
  · apply newEvents_of_trace
    show s1.trace ++ _ ++ _ = _
    rw [tr]
    simp

theorem pollCycles_keeps_polling (i : Nat) :
    ∀ s : CUXInterface, s.stopCondition = false → s.timer.isSome = true →
      ∃ si, pollCycles i s = some si ∧ si.stopCondition = false ∧ si.timer.isSome = true ∧
        si.enabledSamples = s.enabledSamples ∧ si.lambdaTrimType = s.lambdaTrimType ∧
        si.readCount = s.readCount + i := by
  induction i with
  | zero => intro s h ht; exact ⟨s, rfl, h, ht, rfl, rfl, rfl⟩
  | succ i ih =>
    intro s h ht
    obtain ⟨s2, p, h2, t2, e2, l2, c2, -⟩ := pollEcu_keeps_polling s h ht
    obtain ⟨si, pi, hi, ti, ei, li, ci⟩ := ih s2 h2 t2
    refine ⟨si, ?_, hi, ti, ei.trans e2, li.trans l2, ?_⟩
    · show (pollEcu s >>= pollCycles i) = _
      rw [p, some_bind_eq, pi]
    · rw [ci, c2]; omega

/-- A poll cycle without stop condition whose registry enables road speed and engine speed
only: the high tier reads the engine speed and nothing else, the mid tier, when its gate
is open, reads the road speed and nothing else, and the low tier reads the MIL only. -/
theorem road_and_rpm_cycle (s : CUXInterface) (h : s.stopCondition = false)
    (ht : s.timer.isSome = true) (hr : onlyRoadSpeedAndRPM s) :
    ∃ s2, pollEcu s = some s2 ∧
      tierReads Tier.high (newEvents s s2) = [Point.EngineRPM] ∧
      tierReads Tier.mid (newEvents s s2) =
        (if s.startTime > s.lastMidFreqReadTime + 200 then [Point.RoadSpeed] else []) ∧
      (∃ ok, Event.read Point.EngineRPM ok ∈ newEvents s s2) ∧
      ((∃ ok, Event.read Point.RoadSpeed ok ∈ newEvents s s2) ↔
        s.startTime > s.lastMidFreqReadTime + 200) := by
  obtain ⟨s2, p, -, -, -, -, -, ev⟩ := pollEcu_keeps_polling s h ht
  obtain ⟨pH, pM, pL⟩ := onlyRoadSpeedAndRPM_plans s hr
  refine ⟨s2, p, ?_⟩
  have hg : (s.startTime > s.lastMidFreqReadTime + 200) ↔ midGate s = true := by
    unfold midGate
    exact decide_eq_true_iff.symm
  rw [ev]
  generalize verdict (mergedOutcomes (cycleEvents s)) = r
  unfold cycleEvents highEvents midEvents lowEvents headPlan
  rw [pH, pM, pL]
  by_cases hm : s.startTime > s.lastMidFreqReadTime + 200
  · have hm' := hg.mp hm
    rw [if_pos hm, hm']
    cases lowGate s <;> cases r <;>
      simp [tierReads, leadingReads, readEvents, verdictEvents, hm]
  · have hm' : midGate s = false := by
      cases hx : midGate s
      · rfl
      · exact absurd (hg.mpr hx) hm
    rw [if_neg hm, hm']
    cases lowGate s <;> cases r <;>
      simp [tierReads, leadingReads, readEvents, verdictEvents, hm]

/-- C12 as stated fails: with road speed and engine speed only enabled on a connected link
that answers every read, the high tier of the first cycle reads the engine speed and not
the road speed, which the mid tier reads; and the second cycle, which starts 100 ms after
the mid tier's stamp, reads no road speed at all. -/
theorem road_and_rpm_counterexample :
    roadSession.stopCondition = false ∧
    (∀ k, roadSession.enabledSamples k =
      (decide (k = SampleType.RoadSpeed) || decide (k = SampleType.EngineRPM))) ∧
    pollEcu roadSession = some roadSession1 ∧
    tierReads Tier.high (newEvents roadSession roadSession1) = [Point.EngineRPM] ∧
    tierReads Tier.mid (newEvents roadSession roadSession1) = [Point.RoadSpeed] ∧
    roadSession1.stopCondition = false ∧
    roadSession1.lastMidFreqReadTime = 1100 ∧
    roadSession1.startTime = 1200 ∧
    (pollEcu roadSession1).map (fun s2 => readsOf (newEvents roadSession1 s2)) =
      some [(Point.EngineRPM, true), (Point.MILOn, true)] := by
  refine ⟨by decide, ?_, rfl, by decide, by decide, by decide, by decide, by decide,
    by decide⟩
  intro k
  cases k <;> rfl

/-- C12 (amended): with road speed and engine speed only enabled, the link connected and
no stop requested (the timer being present), every one of any number of consecutive poll
cycles, so each of the first 10, returns; its high tier issues the engine-speed read and
no other read; its mid tier issues the road-speed read, and that only in the cycles whose
start time exceeds the mid tier's timestamp by more than 200 ms. So the engine speed is
read in every cycle and the road speed in exactly the cycles whose mid-tier gate is
open. -/
theorem road_and_rpm_cycles (s : CUXInterface) (h : s.stopCondition = false)
    (ht : s.timer.isSome = true) (hr : onlyRoadSpeedAndRPM s) (i : Nat) :
    ∃ si s2, pollCycles i s = some si ∧ pollEcu si = some s2 ∧
      tierReads Tier.high (newEvents si s2) = [Point.EngineRPM] ∧
      tierReads Tier.mid (newEvents si s2) =
        (if si.startTime > si.lastMidFreqReadTime + 200 then [Point.RoadSpeed] else []) ∧
      (∃ ok, Event.read Point.EngineRPM ok ∈ newEvents si s2) ∧
      ((∃ ok, Event.read Point.RoadSpeed ok ∈ newEvents si s2) ↔
        si.startTime > si.lastMidFreqReadTime + 200) := by
  obtain ⟨si, pi, hi, ti, ei, -, -⟩ := pollCycles_keeps_polling i s h ht
  have hri : onlyRoadSpeedAndRPM si := by
    intro k
    rw [ei]
    exact hr k
  obtain ⟨s2, p, r⟩ := road_and_rpm_cycle si hi ti hri
  exact ⟨si, s2, pi, p, r⟩

theorem road_and_rpm_cycles_witness :
    roadSession.stopCondition = false ∧ roadSession.timer.isSome = true ∧
    onlyRoadSpeedAndRPM roadSession ∧
    ∃ si s2, pollCycles 9 roadSession = some si ∧ pollEcu si = some s2 ∧
      tierReads Tier.high (newEvents si s2) = [Point.EngineRPM] ∧
      ((∃ ok, Event.read Point.RoadSpeed ok ∈ newEvents si s2) ↔
        si.startTime > si.lastMidFreqReadTime + 200) := by
  have hr : onlyRoadSpeedAndRPM roadSession := by
    intro k
    cases k <;> rfl
  refine ⟨by decide, by decide, hr, ?_⟩
  obtain ⟨si, s2, h1, h2, h3, -, -, h4⟩ :=
    road_and_rpm_cycles roadSession (by decide) (by decide) hr 9
  exact ⟨si, s2, h1, h2, h3, h4⟩

end RoverGauge

/-! ## The PROM dump and its cancellation -/

namespace RoverGauge

open CUXInterface

/-- What a PROM dump request does on a present link: it emits nothing when a cancellation
was requested before or during the transfer, and otherwise `promImageReady` or
`promImageReadFailed` by the outcome; it clears `readCanceled`, leaves the buffer
allocated, and touches neither the scheduler's members nor the fuel-map table. -/
theorem onReadPROMImageRequested_present (env : Answers) (s : CUXInterface)
    (hc : s.cux.isSome = true) :
    (s.onReadPROMImageRequested env).trace = s.trace ++
      (if s.readCanceled || env.cancelDuring then []
       else if env.connect && env.first.ok then [Event.emit Signal.promImageReady]
       else [Event.emit Signal.promImageReadFailed]) ∧
    (s.onReadPROMImageRequested env).readCanceled = false ∧
    (s.onReadPROMImageRequested env).promImage.isSome = true ∧
    (s.onReadPROMImageRequested env).cux.isSome = true ∧
    (s.onReadPROMImageRequested env).scheduler = s.scheduler ∧
    (s.onReadPROMImageRequested env).fuelMaps = s.fuelMaps := by
  unfold onReadPROMImageRequested
  cases hcx : s.cux with
  | none => rw [hcx] at hc; cases hc
  | some link =>
    cases hp : s.promImage <;> cases hr : s.readCanceled <;> cases env.connect <;>
      cases env.cancelDuring <;> cases env.first.ok <;> cases env.bytes <;>
      simp [CUXInterface.emit, log, linkConnect, scheduler, hp, hr, hcx]

/-- C13: of two successive PROM dump requests on a present link, the first, with
`readCanceled` set before the transfer or a `cancelRead` arriving during it, emits no
`promImageReady` (it emits no signal at all) and leaves `readCanceled` false; the second,
with no cancellation and with `connect` and `dumpROM` succeeding, emits `promImageReady`
and nothing else. -/
theorem prom_cancel_then_retry (s : CUXInterface) (env1 env2 : Answers)
    (hc : s.cux.isSome = true)
    (hcancel : s.readCanceled = true ∨ env1.cancelDuring = true)
    (hconnect : env2.connect = true) (hdump : env2.first.ok = true)
    (hquiet : env2.cancelDuring = false) :
    Signal.promImageReady ∉ signalsOf (newEvents s (s.onReadPROMImageRequested env1)) ∧
    signalsOf (newEvents s (s.onReadPROMImageRequested env1)) = [] ∧
    (s.onReadPROMImageRequested env1).readCanceled = false ∧
    signalsOf (newEvents (s.onReadPROMImageRequested env1)
      ((s.onReadPROMImageRequested env1).onReadPROMImageRequested env2)) =
        [Signal.promImageReady] := by
  obtain ⟨t1, r1, -, c1, -, -⟩ := onReadPROMImageRequested_present env1 s hc
  obtain ⟨t2, -, -, -, -, -⟩ :=
    onReadPROMImageRequested_present env2 (s.onReadPROMImageRequested env1) c1
  have hcan : (s.readCanceled || env1.cancelDuring) = true := by
    rcases hcancel with h | h <;> simp [h]
  rw [hcan] at t1
  rw [r1, hconnect, hdump, hquiet] at t2
  rw [newEvents_of_trace t1, newEvents_of_trace t2]
  exact ⟨by simp [signalsOf], rfl, r1, rfl⟩

theorem prom_cancel_then_retry_witness :
    startedObject.cux.isSome = true ∧
    signalsOf (newEvents startedObject
      (startedObject.onReadPROMImageRequested cancelledAnswers)) = [] ∧
    (startedObject.onReadPROMImageRequested cancelledAnswers).readCanceled = false ∧
    signalsOf (newEvents (startedObject.onReadPROMImageRequested cancelledAnswers)
      ((startedObject.onReadPROMImageRequested cancelledAnswers).onReadPROMImageRequested
        goodAnswers)) = [Signal.promImageReady] :=
  have h := prom_cancel_then_retry startedObject cancelledAnswers goodAnswers (by decide)
    (Or.inr rfl) rfl rfl rfl
  ⟨by decide, h.2.1, h.2.2.1, h.2.2.2⟩

/-! ## Disconnecting -/

/-- C16: after `disconnectFromECU`, whatever the state before, `stopPolling` is true,
`getPROMImage` returns null and `getFuelMap` returns null for every map number. -/
theorem disconnectFromECU_resets (s : CUXInterface) :
    s.disconnectFromECU.stopPolling = true ∧
    s.disconnectFromECU.getPROMImage = none ∧
    ∀ fuelMapId, s.disconnectFromECU.getFuelMap fuelMapId = none :=
  ⟨rfl, rfl, fun _ => rfl⟩

/-! ## Commands on an absent link -/

theorem newEvents_emit (s : CUXInterface) (sig : Signal) :
    newEvents s (s.emit sig) = [Event.emit sig] :=
  newEvents_of_trace rfl

theorem newEvents_self (s : CUXInterface) : newEvents s s = [] :=
  newEvents_of_trace (List.append_nil _).symm

/-- C17 as stated fails: on an absent link the fuel-pump and the fuel-map handlers emit no
signal, and the handler that clears the fault codes emits `faultCodesClearFailure`. -/
theorem absent_link_counterexample :
    freshObject.cux = none ∧
    signalsOf (newEvents freshObject (freshObject.onFuelPumpRunRequest goodAnswers)) = [] ∧
    signalsOf (newEvents freshObject (freshObject.onFuelMapRequested 1 goodAnswers)) = [] ∧
    signalsOf (newEvents freshObject (freshObject.onFaultCodesClearRequested goodAnswers)) =
      [Signal.faultCodesClearFailure] := by
  decide

/-- C17 (amended): when the link is absent, the handlers of the fault-code request, of the
PROM dump request and of the idle-air-control move each emit exactly one signal,
`notConnected`; the handler that clears the fault codes emits exactly one signal,
`faultCodesClearFailure`; and each of the six handlers, those of the fuel-map request and
of the fuel-pump run included, leaves `stopPolling`, `shutdownThread`, `readCount` and both
tier timestamps as they were. -/
theorem absent_link_commands (s : CUXInterface) (env : Answers) (fuelMapId direction
    steps : Int) (hc : s.cux = none) :
    signalsOf (newEvents s (s.onFaultCodesRequested env)) = [Signal.notConnected] ∧
    signalsOf (newEvents s (s.onReadPROMImageRequested env)) = [Signal.notConnected] ∧
    signalsOf (newEvents s (s.onIdleAirControlMovementRequest direction steps env)) =
      [Signal.notConnected] ∧
    signalsOf (newEvents s (s.onFaultCodesClearRequested env)) =
      [Signal.faultCodesClearFailure] ∧
    (s.onFaultCodesRequested env).scheduler = s.scheduler ∧
    (s.onFaultCodesClearRequested env).scheduler = s.scheduler ∧
    (s.onReadPROMImageRequested env).scheduler = s.scheduler ∧
    (s.onFuelMapRequested fuelMapId env).scheduler = s.scheduler ∧
    (s.onFuelPumpRunRequest env).scheduler = s.scheduler ∧
    (s.onIdleAirControlMovementRequest direction steps env).scheduler = s.scheduler := by
  have e1 : s.onFaultCodesRequested env = s.emit Signal.notConnected := by
    unfold onFaultCodesRequested; rw [hc]
  have e2 : s.onReadPROMImageRequested env = s.emit Signal.notConnected := by
    unfold onReadPROMImageRequested; rw [hc]
  have e3 : s.onIdleAirControlMovementRequest direction steps env =
      s.emit Signal.notConnected := by
    unfold onIdleAirControlMovementRequest; rw [hc]
  have e4 : s.onFaultCodesClearRequested env = s.emit Signal.faultCodesClearFailure := by
    unfold onFaultCodesClearRequested; rw [hc]
  have e5 : s.onFuelMapRequested fuelMapId env = s := by
    unfold onFuelMapRequested; rw [hc]
  have e6 : s.onFuelPumpRunRequest env = s := by
    unfold onFuelPumpRunRequest; rw [hc]
  rw [e1, e2, e3, e4, e5, e6, newEvents_emit, newEvents_emit]
  exact ⟨rfl, rfl, rfl, rfl, rfl, rfl, rfl, rfl, rfl, rfl⟩

theorem absent_link_commands_witness :
    freshObject.cux = none ∧
    signalsOf (newEvents freshObject (freshObject.onFaultCodesRequested goodAnswers)) =
      [Signal.notConnected] ∧
    (freshObject.onFuelPumpRunRequest goodAnswers).scheduler = freshObject.scheduler :=
  have h := absent_link_commands freshObject goodAnswers 1 0 1 rfl
  ⟨rfl, h.1, h.2.2.2.2.2.2.2.2.1⟩

end RoverGauge

/-! ## Unit conversion -/

namespace RoverGauge

open CUXInterface

/-- Truncation toward zero of a quotient of integers is the truncating division. -/
theorem truncate_div (a : Int) (b : Nat) (hb : 0 < b) :
    truncate ((a : ℚ) / (b : ℚ)) = Int.tdiv a b := by
  have hbq : (0 : ℚ) < (b : ℚ) := by exact_mod_cast hb
  have hbz : (0 : Int) ≤ (b : Int) := Int.ofNat_nonneg b
  unfold truncate
  by_cases ha : 0 ≤ a
  · have hq : (0 : ℚ) ≤ (a : ℚ) / (b : ℚ) := div_nonneg (by exact_mod_cast ha) hbq.le
    rw [if_pos hq, Rat.floor_intCast_div_natCast, Int.tdiv_eq_ediv ha hbz]
  · have ha' : a < 0 := not_le.mp ha
    have hq : ¬ (0 : ℚ) ≤ (a : ℚ) / (b : ℚ) := by
      rw [not_le]
      exact div_neg_of_neg_of_pos (by exact_mod_cast ha') hbq
    have hneg : -((a : ℚ) / (b : ℚ)) = ((-a : Int) : ℚ) / (b : ℚ) := by
      push_cast
      ring
    rw [if_neg hq, hneg, Rat.floor_intCast_div_natCast,
      ← Int.tdiv_eq_ediv (by omega : (0 : Int) ≤ -a) hbz, Int.neg_tdiv, neg_neg]

theorem truncate_intCast (a : Int) : truncate (a : ℚ) = a := by
  have h := truncate_div a 1 Nat.one_pos
  simpa using h

theorem doubleToInt_of_range {x : ℚ} {t : Int} (ht : truncate x = t) (h1 : INT_MIN ≤ t)
    (h2 : t ≤ INT_MAX) : doubleToInt x = some t := by
  unfold doubleToInt
  rw [ht, if_pos ⟨h1, h2⟩]

theorem doubleToInt_of_large {x : ℚ} {t : Int} (ht : truncate x = t)
    (h : t < INT_MIN ∨ INT_MAX < t) : doubleToInt x = none := by
  unfold doubleToInt
  rw [ht, if_neg]
  rintro ⟨h1, h2⟩
  rcases h with h | h <;> omega

theorem convertTemperature_Celcius (s : CUXInterface) (f : Int)
    (hu : s.tempUnits = TemperatureUnits.Celcius) :
    s.convertTemperature f =
      doubleToInt ((((f - 32) * 5555556 : Int) : ℚ) / ((10000000 : Nat) : ℚ)) := by
  have e : ((f : ℚ) - 32) * 0.5555556 =
      (((f - 32) * 5555556 : Int) : ℚ) / ((10000000 : Nat) : ℚ) := by
    push_cast
    rw [mul_div_assoc]
    norm_num
  unfold convertTemperature
  rw [hu]
  exact congrArg doubleToInt e

theorem tdiv_scaled_five_ninths (x : Int) (h1 : -2500000 < x) (h2 : x < 2500000) :
    Int.tdiv (x * 5555556) 10000000 = Int.tdiv (x * 5) 9 := by
  by_cases hx : 0 ≤ x
  · rw [Int.tdiv_eq_ediv (by omega) (by omega), Int.tdiv_eq_ediv (by omega) (by omega)]
    omega
  · have e1 : Int.tdiv (x * 5555556) 10000000 = -(Int.tdiv (-(x * 5555556)) 10000000) := by
      rw [Int.neg_tdiv, neg_neg]
    have e2 : Int.tdiv (x * 5) 9 = -(Int.tdiv (-(x * 5)) 9) := by
      rw [Int.neg_tdiv, neg_neg]
    rw [e1, e2, Int.tdiv_eq_ediv (by omega) (by omega), Int.tdiv_eq_ediv (by omega) (by omega)]
    omega

theorem tdiv_five_ninths_bound (x : Int) (h1 : -2500000 < x) (h2 : x < 2500000) :
    -1388889 ≤ Int.tdiv (x * 5) 9 ∧ Int.tdiv (x * 5) 9 ≤ 1388889 := by
  by_cases hx : 0 ≤ x
  · rw [Int.tdiv_eq_ediv (by omega) (by omega)]
    omega
  · have e2 : Int.tdiv (x * 5) 9 = -(Int.tdiv (-(x * 5)) 9) := by
      rw [Int.neg_tdiv, neg_neg]
    rw [e2, Int.tdiv_eq_ediv (by omega) (by omega)]
    omega

/-- C18: for every `int` value `f` in degrees Fahrenheit, `convertTemperature(f)` is `f`
when the unit is Fahrenheit; when the unit is Celsius and `|f - 32| < 2500000` it is
`(f - 32) * 5 / 9` truncated toward zero, so 32 maps to 0. Doubles are exact rationals and
the constant is the decimal 0.5555556. -/
theorem convertTemperature_value (s : CUXInterface) (f : Int) :
    (s.tempUnits = TemperatureUnits.Fahrenheit → INT_MIN ≤ f → f ≤ INT_MAX →
      s.convertTemperature f = some f) ∧
    (s.tempUnits = TemperatureUnits.Celcius → |f - 32| < 2500000 →
      s.convertTemperature f = some (Int.tdiv ((f - 32) * 5) 9)) ∧
    (s.tempUnits = TemperatureUnits.Celcius → s.convertTemperature 32 = some 0) := by
  have hC : ∀ g : Int, s.tempUnits = TemperatureUnits.Celcius → |g - 32| < 2500000 →
      s.convertTemperature g = some (Int.tdiv ((g - 32) * 5) 9) := by
    intro g hu hb
    obtain ⟨h1, h2⟩ := abs_lt.mp hb
    obtain ⟨b1, b2⟩ := tdiv_five_ninths_bound (g - 32) h1 h2
    rw [convertTemperature_Celcius s g hu]
    apply doubleToInt_of_range
    · rw [truncate_div _ _ (by decide), ← tdiv_scaled_five_ninths (g - 32) h1 h2]
      rfl
    · unfold INT_MIN; omega
    · unfold INT_MAX; omega
  refine ⟨?_, hC f, ?_⟩
  · intro hu h1 h2
    unfold convertTemperature
    rw [hu]
    exact doubleToInt_of_range (truncate_intCast f) h1 h2
  · intro hu
    have := hC 32 hu (by decide)
    simpa using this

theorem convertTemperature_value_witness :
    celsiusObject.tempUnits = TemperatureUnits.Celcius ∧ |(212 : Int) - 32| < 2500000 ∧
    celsiusObject.convertTemperature 212 = some 100 ∧
    freshObject.convertTemperature 212 = some 212 :=
  ⟨rfl, by decide,
    (convertTemperature_value celsiusObject 212).2.1 rfl (by decide),
    (convertTemperature_value freshObject 212).1 rfl (by decide) (by decide)⟩

/-! ### Rounding to a double -/

theorem roundHalfEven_abs_sub (x : ℚ) : |(roundHalfEven x : ℚ) - x| ≤ 1 / 2 := by
  have h0 := Int.floor_le x
  have h1 := Int.lt_floor_add_one x
  unfold roundHalfEven
  rw [abs_le]
  split_ifs <;> push_cast <;> constructor <;> linarith

theorem roundHalfEven_intCast (k : Int) : roundHalfEven (k : ℚ) = k := by
  unfold roundHalfEven
  simp

theorem roundHalfEven_ge (n : Int) (x : ℚ) (h : (n : ℚ) ≤ x) : n ≤ roundHalfEven x := by
  have hf : n ≤ ⌊x⌋ := Int.le_floor.mpr h
  unfold roundHalfEven
  split_ifs <;> omega

theorem roundHalfEven_eq (x : ℚ) (m : Int) (h : |x - m| < 1 / 2) : roundHalfEven x = m := by
  obtain ⟨h1, h2⟩ := abs_lt.mp h
  by_cases hx : (m : ℚ) ≤ x
  · have hf : ⌊x⌋ = m := Int.floor_eq_iff.mpr ⟨hx, by linarith⟩
    unfold roundHalfEven
    rw [hf, if_pos (by linarith)]
  · have hf : ⌊x⌋ = m - 1 := Int.floor_eq_iff.mpr ⟨by push_cast; linarith, by push_cast; linarith⟩
    unfold roundHalfEven
    rw [hf, if_neg (by push_cast; linarith), if_pos (by push_cast; linarith)]
    omega

theorem roundHalfEven_neg (x : ℚ) : roundHalfEven (-x) = -roundHalfEven x := by
  have h0 := Int.floor_le x
  have h1 := Int.lt_floor_add_one x
  by_cases hx : x = (⌊x⌋ : ℚ)
  · rw [hx, ← Int.cast_neg, roundHalfEven_intCast, roundHalfEven_intCast]
  · have hlt : (⌊x⌋ : ℚ) < x := lt_of_le_of_ne h0 (Ne.symm hx)
    have hf : ⌊-x⌋ = -⌊x⌋ - 1 :=
      Int.floor_eq_iff.mpr ⟨by push_cast; linarith, by push_cast; linarith⟩
    unfold roundHalfEven
    rw [hf]
    push_cast
    split_ifs <;> first | omega | (exfalso; linarith)

theorem two_zpow_pos (z : Int) : (0 : ℚ) < 2 ^ z := zpow_pos (by norm_num) z

theorem log_abs_lt (x : ℚ) (E : Int) (hE : 0 < E) (hx : |x| < 2 ^ E) : Int.log 2 |x| < E := by
  by_cases h0 : x = 0
  · rw [h0, abs_zero, Int.log_zero_right]
    exact hE
  · have hp : 0 < |x| := abs_pos.mpr h0
    apply (Int.lt_zpow_iff_log_lt (by norm_num) hp).mp
    exact_mod_cast hx

theorem log_abs_eq (x : ℚ) (e : Int) (h1 : 2 ^ e ≤ |x|) (h2 : |x| < 2 ^ (e + 1)) :
    Int.log 2 |x| = e := by
  have hp : 0 < |x| := lt_of_lt_of_le (two_zpow_pos e) h1
  have a : e ≤ Int.log 2 |x| :=
    (Int.zpow_le_iff_le_log (by norm_num) hp).mp (by exact_mod_cast h1)
  have b : Int.log 2 |x| < e + 1 :=
    (Int.lt_zpow_iff_log_lt (by norm_num) hp).mp (by exact_mod_cast h2)
  omega

theorem toDouble_neg (x : ℚ) : toDouble (-x) = -toDouble x := by
  unfold toDouble
  rw [abs_neg, neg_div, roundHalfEven_neg, Int.cast_neg, neg_mul]

/-- The rounding error of a double is at most half a unit in its last place. -/
theorem toDouble_abs_sub_le (x : ℚ) (E : Int) (hE : 0 < E) (hx : |x| < 2 ^ E) :
    |toDouble x - x| ≤ 2 ^ (E - 54) := by
  have hl := log_abs_lt x E hE hx
  have hu := two_zpow_pos (Int.log 2 |x| - 52)
  have hr := roundHalfEven_abs_sub (x / 2 ^ (Int.log 2 |x| - 52))
  have e1 : toDouble x - x =
      ((roundHalfEven (x / 2 ^ (Int.log 2 |x| - 52)) : ℚ) - x / 2 ^ (Int.log 2 |x| - 52)) *
        2 ^ (Int.log 2 |x| - 52) := by
    unfold toDouble
    field_simp
  have e2 : (2 : ℚ) ^ (Int.log 2 |x| - 52) = 2 ^ (Int.log 2 |x| - 53) * 2 := by
    rw [← zpow_add_one₀ (by norm_num : (2 : ℚ) ≠ 0)]
    congr 1
    ring
  have e3 : (2 : ℚ) ^ (Int.log 2 |x| - 53) ≤ 2 ^ (E - 54) :=
    zpow_le_zpow_right₀ (by norm_num) (by omega)
  rw [e1, abs_mul, abs_of_pos hu]
  calc |(roundHalfEven (x / 2 ^ (Int.log 2 |x| - 52)) : ℚ) - x / 2 ^ (Int.log 2 |x| - 52)| *
        2 ^ (Int.log 2 |x| - 52)
      ≤ 1 / 2 * 2 ^ (Int.log 2 |x| - 52) := mul_le_mul_of_nonneg_right hr hu.le
    _ = 2 ^ (Int.log 2 |x| - 53) := by rw [e2]; ring
    _ ≤ 2 ^ (E - 54) := e3

/-- Rounding to a double does not step below an integer that the value has reached. -/
theorem toDouble_ge_int (n : Int) (x : ℚ) (hn : (n : ℚ) ≤ x) (hx : |x| < 2 ^ (53 : Int)) :
    (n : ℚ) ≤ toDouble x := by
  have hl := log_abs_lt x 53 (by norm_num) hx
  obtain ⟨k, hk⟩ := Int.eq_ofNat_of_zero_le (by omega : 0 ≤ 52 - Int.log 2 |x|)
  have he : Int.log 2 |x| - 52 = -(k : Int) := by omega
  have hu : (2 : ℚ) ^ (Int.log 2 |x| - 52) = ((2 : ℚ) ^ k)⁻¹ := by
    rw [he, zpow_neg, zpow_natCast]
  have hp : (0 : ℚ) < 2 ^ k := pow_pos (by norm_num) k
  unfold toDouble
  rw [hu]
  have hge : n * 2 ^ k ≤ roundHalfEven (x / ((2 : ℚ) ^ k)⁻¹) := by
    apply roundHalfEven_ge
    push_cast
    rw [div_inv_eq_mul]
    exact mul_le_mul_of_nonneg_right hn hp.le
  have hq : ((n * 2 ^ k : Int) : ℚ) ≤ (roundHalfEven (x / ((2 : ℚ) ^ k)⁻¹) : ℚ) := by
    exact_mod_cast hge
  calc (n : ℚ) = ((n * 2 ^ k : Int) : ℚ) * ((2 : ℚ) ^ k)⁻¹ := by
        push_cast
        field_simp
    _ ≤ (roundHalfEven (x / ((2 : ℚ) ^ k)⁻¹) : ℚ) * ((2 : ℚ) ^ k)⁻¹ :=
        mul_le_mul_of_nonneg_right hq (inv_pos.mpr hp).le

theorem toDouble_intCast (v : Int) (h : |(v : ℚ)| < 2 ^ (53 : Int)) : toDouble v = v := by
  apply le_antisymm
  · have h2 : ((-v : Int) : ℚ) ≤ toDouble ((-v : Int) : ℚ) :=
      toDouble_ge_int (-v) _ le_rfl (by rw [Int.cast_neg, abs_neg]; exact h)
    rw [Int.cast_neg, toDouble_neg] at h2
    linarith
  · exact toDouble_ge_int v _ le_rfl h

/-- The double nearest to `x`, given its binade and the integer nearest to its scaled
value. -/
theorem toDouble_eq (x : ℚ) (e m : Int) (h1 : 2 ^ e ≤ |x|) (h2 : |x| < 2 ^ (e + 1))
    (hm : |x / 2 ^ (e - 52) - m| < 1 / 2) : toDouble x = m * 2 ^ (e - 52) := by
  unfold toDouble
  rw [log_abs_eq x e h1 h2, roundHalfEven_eq _ m hm]

theorem truncate_eq_of_bounds (x : ℚ) (n : Int) (h0 : 0 ≤ n) (h1 : (n : ℚ) ≤ x)
    (h2 : x < n + 1) : truncate x = n := by
  have hx : (0 : ℚ) ≤ x := le_trans (by exact_mod_cast h0) h1
  unfold truncate
  rw [if_pos hx]
  exact Int.floor_eq_iff.mpr ⟨h1, h2⟩

theorem truncate_neg (x : ℚ) : truncate (-x) = -truncate x := by
  unfold truncate
  rcases lt_trichotomy x 0 with h | h | h
  · rw [if_pos (by linarith), if_neg (by linarith)]
    simp
  · subst h
    simp
  · rw [if_neg (by linarith), if_pos (by linarith)]
    simp

/-- The double that the literal `1.46666667` denotes. -/
theorem toDouble_fps :
    toDouble 1.46666667 = 6605279468488726 / 4503599627370496 := by
  rw [toDouble_eq 1.46666667 0 6605279468488726 (by norm_num [abs_of_pos])
    (by norm_num [abs_of_pos]) (by rw [abs_lt]; norm_num)]
  norm_num

/-- The double that the literal `1.609344` denotes. -/
theorem toDouble_kph :
    toDouble 1.609344 = 7247841038710944 / 4503599627370496 := by
  rw [toDouble_eq 1.609344 0 7247841038710944 (by norm_num [abs_of_pos])
    (by norm_num [abs_of_pos]) (by rw [abs_lt]; norm_num)]
  norm_num

theorem fps_remainder (v : Int) (h0 : 0 ≤ v) (hB : v ≤ 90000000)
    (h : v * 146666667 % 100000000 = 0) : v = 0 := by
  have hd : (100000000 : Int) ∣ v * 146666667 := Int.dvd_of_emod_eq_zero h
  have hg : Int.gcd 100000000 146666667 = 1 := by norm_num
  obtain ⟨t, ht⟩ := Int.dvd_of_dvd_mul_left_of_gcd_one hd hg
  clear hd hg h
  omega

theorem fps_product (v : Int) (h0 : 0 ≤ v) (hB : v ≤ 90000000) :
    truncate (toDouble ((v : ℚ) * (6605279468488726 / 4503599627370496))) =
      v * 146666667 / 100000000 := by
  have hj0 : 0 ≤ v * 146666667 % 100000000 := Int.emod_nonneg _ (by norm_num)
  have hj1 : v * 146666667 % 100000000 < 100000000 := Int.emod_lt_of_pos _ (by norm_num)
  have hz : v * 146666667 % 100000000 = 0 → v = 0 := fps_remainder v h0 hB
  have hn : 0 ≤ v * 146666667 / 100000000 :=
    Int.ediv_nonneg (mul_nonneg h0 (by norm_num)) (by norm_num)
  have hd : v * 146666667 =
      100000000 * (v * 146666667 / 100000000) + v * 146666667 % 100000000 :=
    (Int.ediv_add_emod _ _).symm
  generalize v * 146666667 / 100000000 = n at hn hd ⊢
  generalize v * 146666667 % 100000000 = j at hj0 hj1 hz hd
  have hj : v = 0 ∨ 1 ≤ j := by
    by_cases hjz : j = 0
    · exact Or.inl (hz hjz)
    · right
      clear hd hz hB
      omega
  have hdq : (v : ℚ) * 146666667 = 100000000 * (n : ℚ) + (j : ℚ) := by exact_mod_cast hd
  have hv0 : (0 : ℚ) ≤ v := by exact_mod_cast h0
  have hvB : (v : ℚ) ≤ 90000000 := by exact_mod_cast hB
  have hjq : (j : ℚ) ≤ 99999999 := by
    have : j ≤ 99999999 := by omega
    exact_mod_cast this
  have hlow : (n : ℚ) ≤ (v : ℚ) * (6605279468488726 / 4503599627370496) := by
    rcases hj with hz | hz
    · subst hz
      have hn0 : n = 0 := by
        clear hz
        omega
      subst hn0
      norm_num
    · have hz' : (1 : ℚ) ≤ j := by exact_mod_cast hz
      linarith
  have hup : (v : ℚ) * (6605279468488726 / 4503599627370496) ≤ n + 1 - 1 / 100000000 := by
    linarith
  have hx0 : (0 : ℚ) ≤ (v : ℚ) * (6605279468488726 / 4503599627370496) := by positivity
  have habs : |(v : ℚ) * (6605279468488726 / 4503599627370496)| < 2 ^ (27 : Int) := by
    rw [abs_of_nonneg hx0]
    norm_num
    linarith
  have herr := toDouble_abs_sub_le _ 27 (by norm_num) habs
  have hge := toDouble_ge_int n _ hlow
    (lt_of_lt_of_le habs (zpow_le_zpow_right₀ (by norm_num) (by norm_num)))
  apply truncate_eq_of_bounds _ n hn hge
  have h27 : (2 : ℚ) ^ ((27 : Int) - 54) = 1 / 134217728 := by norm_num
  rw [h27] at herr
  have := (abs_le.mp herr).2
  linarith

theorem roundHalfEven_between (y : ℚ) (a b : Int) (h1 : (a : ℚ) - 1 / 2 < y)
    (h2 : y < (b : ℚ) - 1 / 2) : a ≤ roundHalfEven y ∧ roundHalfEven y < b := by
  obtain ⟨l, u⟩ := abs_le.mp (roundHalfEven_abs_sub y)
  constructor
  · have h : ((a - 1 : Int) : ℚ) < (roundHalfEven y : ℚ) := by
      push_cast
      linarith
    have := Int.cast_lt.mp h
    omega
  · have h : (roundHalfEven y : ℚ) < (b : ℚ) := by linarith
    exact Int.cast_lt.mp h

/-- Where a double lands between two consecutive integers, given its binade: the value
`x` rounds into `[n, n + 1)` when it lies within half a unit in the last place above
`n - ulp / 2` and below `n + 1 - ulp / 2`. -/
theorem toDouble_between (x : ℚ) (n e : Int) (he : e ≤ 52) (h1 : 2 ^ e ≤ |x|)
    (h2 : |x| < 2 ^ (e + 1)) (hl : (n : ℚ) - 2 ^ (e - 53) < x)
    (hu : x < n + 1 - 2 ^ (e - 53)) : (n : ℚ) ≤ toDouble x ∧ toDouble x < n + 1 := by
  obtain ⟨k, hk⟩ := Int.eq_ofNat_of_zero_le (by omega : 0 ≤ 52 - e)
  have e52 : e - 52 = -(k : Int) := by omega
  have e53 : e - 53 = -(k : Int) - 1 := by omega
  have hp : (0 : ℚ) < 2 ^ k := pow_pos (by norm_num) k
  have u52 : (2 : ℚ) ^ (e - 52) = ((2 : ℚ) ^ k)⁻¹ := by
    rw [e52, zpow_neg, zpow_natCast]
  have u53 : (2 : ℚ) ^ (e - 53) = ((2 : ℚ) ^ k)⁻¹ / 2 := by
    rw [e53, zpow_sub_one₀ (by norm_num : (2 : ℚ) ≠ 0), zpow_neg, zpow_natCast]
    ring
  rw [u53] at hl hu
  unfold toDouble
  rw [log_abs_eq x e h1 h2, u52, div_inv_eq_mul]
  have hi : ((2 : ℚ) ^ k)⁻¹ * 2 ^ k = 1 := inv_mul_cancel₀ hp.ne'
  obtain ⟨a, b⟩ := roundHalfEven_between (x * 2 ^ k) (n * 2 ^ k) ((n + 1) * 2 ^ k)
    (by
      push_cast
      have := mul_lt_mul_of_pos_right hl hp
      nlinarith [this, hi])
    (by
      push_cast
      have := mul_lt_mul_of_pos_right hu hp
      nlinarith [this, hi])
  have aq : ((n * 2 ^ k : Int) : ℚ) ≤ (roundHalfEven (x * 2 ^ k) : ℚ) := by exact_mod_cast a
  have bq : (roundHalfEven (x * 2 ^ k) : ℚ) < (((n + 1) * 2 ^ k : Int) : ℚ) := by
    exact_mod_cast b
  push_cast at aq bq
  have hinv : (0 : ℚ) < ((2 : ℚ) ^ k)⁻¹ := inv_pos.mpr hp
  constructor
  · have := mul_le_mul_of_nonneg_right aq hinv.le
    have e1 : (n : ℚ) * 2 ^ k * ((2 : ℚ) ^ k)⁻¹ = n := by field_simp
    linarith
  · have := mul_lt_mul_of_pos_right bq hinv
    have e1 : ((n : ℚ) + 1) * 2 ^ k * ((2 : ℚ) ^ k)⁻¹ = n + 1 := by field_simp
    linarith


/-- The residue of `v` modulo 100000000 is decided by that of `v * 146666667`, the
multiplier being invertible modulo 100000000 with inverse 80000003. -/
theorem fps_residue (v n j : Int) (hd : v * 146666667 = 100000000 * n + j) :
    ∃ w : Int, v = 100000000 * w + 80000003 * j :=
  ⟨80000003 * n - 117333338 * v, by linear_combination (80000003 : Int) * hd⟩

theorem fps_residues (v n j : Int) (hd : v * 146666667 = 100000000 * n + j)
    (h1 : 90000000 < v) (h2 : v ≤ 219999996) :
    (j = 99999999 → v = 119999997) ∧ (j = 99999998 → v = 139999994) := by
  obtain ⟨w, hw⟩ := fps_residue v n j hd
  clear hd
  constructor
  · intro hj
    subst hj
    omega
  · intro hj
    subst hj
    omega

theorem fps_binade26 (v n j : Int) (hd : v * 146666667 = 100000000 * n + j)
    (hj0 : 0 ≤ j) (hj1 : j < 100000000) (h1 : 90000000 < v)
    (c1 : (v : ℚ) * (6605279468488726 / 4503599627370496) < 134217728) :
    (n : ℚ) ≤ toDouble ((v : ℚ) * (6605279468488726 / 4503599627370496)) ∧
      toDouble ((v : ℚ) * (6605279468488726 / 4503599627370496)) < n + 1 := by
  have hdq : (v : ℚ) * 146666667 = 100000000 * (n : ℚ) + (j : ℚ) := by exact_mod_cast hd
  have hvl : (90000000 : ℚ) < v := by exact_mod_cast h1
  have hjq0 : (0 : ℚ) ≤ j := by exact_mod_cast hj0
  have hjq : (j : ℚ) ≤ 99999999 := by
    have : j ≤ 99999999 := by
      clear hd hdq
      omega
    exact_mod_cast this
  have hx0 : (0 : ℚ) ≤ (v : ℚ) * (6605279468488726 / 4503599627370496) := by positivity
  apply toDouble_between _ n 26 (by norm_num)
  · rw [abs_of_nonneg hx0]
    norm_num
    linarith
  · rw [abs_of_nonneg hx0]
    norm_num
    linarith
  · norm_num
    linarith
  · norm_num
    linarith

theorem fps_binade27 (v n j : Int) (hd : v * 146666667 = 100000000 * n + j)
    (hj0 : 0 ≤ j) (hj1 : j < 100000000) (hr : j = 99999999 → v = 119999997)
    (c1 : ¬ (v : ℚ) * (6605279468488726 / 4503599627370496) < 134217728)
    (c2 : (v : ℚ) * (6605279468488726 / 4503599627370496) < 268435456) :
    (n : ℚ) ≤ toDouble ((v : ℚ) * (6605279468488726 / 4503599627370496)) ∧
      toDouble ((v : ℚ) * (6605279468488726 / 4503599627370496)) < n + 1 := by
  have hdq : (v : ℚ) * 146666667 = 100000000 * (n : ℚ) + (j : ℚ) := by exact_mod_cast hd
  have hjq0 : (0 : ℚ) ≤ j := by exact_mod_cast hj0
  have c1' := not_lt.mp c1
  have hx0 : (0 : ℚ) ≤ (v : ℚ) * (6605279468488726 / 4503599627370496) := by linarith
  apply toDouble_between _ n 27 (by norm_num)
  · rw [abs_of_nonneg hx0]
    norm_num
    linarith
  · rw [abs_of_nonneg hx0]
    norm_num
    linarith
  · norm_num
    linarith
  · by_cases hj : j = 99999999
    · have hv := hr hj
      subst hv
      subst hj
      norm_num at hdq ⊢
      linarith
    · have hjq : (j : ℚ) ≤ 99999998 := by
        have : j ≤ 99999998 := by
          clear hd hr hdq
          omega
        exact_mod_cast this
      norm_num
      linarith

theorem fps_binade28 (v n j : Int) (hd : v * 146666667 = 100000000 * n + j)
    (hj0 : 0 ≤ j) (hj1 : j < 100000000) (h2 : v ≤ 219999996)
    (hr : (j = 99999999 → v = 119999997) ∧ (j = 99999998 → v = 139999994))
    (c2 : ¬ (v : ℚ) * (6605279468488726 / 4503599627370496) < 268435456) :
    (n : ℚ) ≤ toDouble ((v : ℚ) * (6605279468488726 / 4503599627370496)) ∧
      toDouble ((v : ℚ) * (6605279468488726 / 4503599627370496)) < n + 1 := by
  have hdq : (v : ℚ) * 146666667 = 100000000 * (n : ℚ) + (j : ℚ) := by exact_mod_cast hd
  have hvu : (v : ℚ) ≤ 219999996 := by exact_mod_cast h2
  have hjq0 : (0 : ℚ) ≤ j := by exact_mod_cast hj0
  have c2' := not_lt.mp c2
  have hx0 : (0 : ℚ) ≤ (v : ℚ) * (6605279468488726 / 4503599627370496) := by linarith
  have hj : j ≤ 99999997 := by
    by_contra hc
    have hcases : j = 99999998 ∨ j = 99999999 := by
      clear hd hr
      omega
    rcases hcases with hj | hj
    · have hv := hr.2 hj
      subst hv
      norm_num at c2
    · have hv := hr.1 hj
      subst hv
      norm_num at c2
  have hjq : (j : ℚ) ≤ 99999997 := by exact_mod_cast hj
  apply toDouble_between _ n 28 (by norm_num)
  · rw [abs_of_nonneg hx0]
    norm_num
    linarith
  · rw [abs_of_nonneg hx0]
    norm_num
    linarith
  · norm_num
    linarith
  · norm_num
    linarith

theorem fps_product_large (v : Int) (h1 : 90000000 < v) (h2 : v ≤ 219999996) :
    truncate (toDouble ((v : ℚ) * (6605279468488726 / 4503599627370496))) =
      v * 146666667 / 100000000 := by
  have h0 : 0 ≤ v := by omega
  have hj0 : 0 ≤ v * 146666667 % 100000000 := Int.emod_nonneg _ (by norm_num)
  have hj1 : v * 146666667 % 100000000 < 100000000 := Int.emod_lt_of_pos _ (by norm_num)
  have hn : 0 ≤ v * 146666667 / 100000000 :=
    Int.ediv_nonneg (mul_nonneg h0 (by norm_num)) (by norm_num)
  have hd : v * 146666667 =
      100000000 * (v * 146666667 / 100000000) + v * 146666667 % 100000000 :=
    (Int.ediv_add_emod _ _).symm
  generalize v * 146666667 / 100000000 = n at hn hd ⊢
  generalize v * 146666667 % 100000000 = j at hj0 hj1 hd
  have hr := fps_residues v n j hd h1 h2
  have key : (n : ℚ) ≤ toDouble ((v : ℚ) * (6605279468488726 / 4503599627370496)) ∧
      toDouble ((v : ℚ) * (6605279468488726 / 4503599627370496)) < n + 1 := by
    by_cases c1 : (v : ℚ) * (6605279468488726 / 4503599627370496) < 134217728
    · exact fps_binade26 v n j hd hj0 hj1 h1 c1
    · by_cases c2 : (v : ℚ) * (6605279468488726 / 4503599627370496) < 268435456
      · exact fps_binade27 v n j hd hj0 hj1 hr.1 c1 c2
      · exact fps_binade28 v n j hd hj0 hj1 h2 hr c2
  exact truncate_eq_of_bounds _ n hn key.1 key.2

theorem kph_product (v : Int) (h0 : 0 ≤ v) (hB : v ≤ 2147483648) :
    truncate (toDouble ((v : ℚ) * (7247841038710944 / 4503599627370496))) =
      v * 1609344 / 1000000 := by
  have hj0 : 0 ≤ v * 1609344 % 1000000 := Int.emod_nonneg _ (by norm_num)
  have hj1 : v * 1609344 % 1000000 < 1000000 := Int.emod_lt_of_pos _ (by norm_num)
  have hn : 0 ≤ v * 1609344 / 1000000 :=
    Int.ediv_nonneg (mul_nonneg h0 (by norm_num)) (by norm_num)
  have hd : v * 1609344 = 1000000 * (v * 1609344 / 1000000) + v * 1609344 % 1000000 :=
    (Int.ediv_add_emod _ _).symm
  generalize v * 1609344 / 1000000 = n at hn hd ⊢
  generalize v * 1609344 % 1000000 = j at hj0 hj1 hd
  have hj : j ≤ 999936 := by omega
  have hdq : (v : ℚ) * 1609344 = 1000000 * (n : ℚ) + (j : ℚ) := by exact_mod_cast hd
  have hv0 : (0 : ℚ) ≤ v := by exact_mod_cast h0
  have hvB : (v : ℚ) ≤ 2147483648 := by exact_mod_cast hB
  have hjq0 : (0 : ℚ) ≤ j := by exact_mod_cast hj0
  have hjq : (j : ℚ) ≤ 999936 := by exact_mod_cast hj
  have hlow : (n : ℚ) ≤ (v : ℚ) * (7247841038710944 / 4503599627370496) := by linarith
  have hup : (v : ℚ) * (7247841038710944 / 4503599627370496) ≤
      n + 999936 / 1000000 + 1 / 4000000 := by
    linarith
  have hx0 : (0 : ℚ) ≤ (v : ℚ) * (7247841038710944 / 4503599627370496) := by positivity
  have habs : |(v : ℚ) * (7247841038710944 / 4503599627370496)| < 2 ^ (32 : Int) := by
    rw [abs_of_nonneg hx0]
    norm_num
    linarith
  have herr := toDouble_abs_sub_le _ 32 (by norm_num) habs
  have hge := toDouble_ge_int n _ hlow
    (lt_of_lt_of_le habs (zpow_le_zpow_right₀ (by norm_num) (by norm_num)))
  apply truncate_eq_of_bounds _ n hn hge
  have h32 : (2 : ℚ) ^ ((32 : Int) - 54) = 1 / 4194304 := by norm_num
  rw [h32] at herr
  have := (abs_le.mp herr).2
  linarith

theorem tdiv_neg_of_nonpos (a : Int) (b : Int) (ha : a ≤ 0) (hb : 0 ≤ b) :
    Int.tdiv a b = -((-a) / b) := by
  rw [← Int.tdiv_eq_ediv (by omega) hb, Int.neg_tdiv, neg_neg]

/-- The double product of an `int` with the factor for feet per second, truncated toward
zero, is the exact product truncated toward zero for every `|v| ≤ 219999996`. -/
theorem fps_truncate (v : Int) (hv : |v| ≤ 219999996) :
    truncate (toDouble (toDouble (v : ℚ) * toDouble 1.46666667)) =
      Int.tdiv (v * 146666667) 100000000 := by
  obtain ⟨h1, h2⟩ := abs_le.mp hv
  have pos : ∀ u : Int, 0 ≤ u → u ≤ 219999996 →
      truncate (toDouble ((u : ℚ) * (6605279468488726 / 4503599627370496))) =
        u * 146666667 / 100000000 := by
    intro u hu0 hu1
    by_cases hs : u ≤ 90000000
    · exact fps_product u hu0 hs
    · exact fps_product_large u (by omega) hu1
  have hrep : toDouble (v : ℚ) = v := by
    apply toDouble_intCast
    rw [abs_lt]
    constructor
    · have : (-219999996 : ℚ) ≤ v := by exact_mod_cast h1
      norm_num
      linarith
    · have : (v : ℚ) ≤ 219999996 := by exact_mod_cast h2
      norm_num
      linarith
  rw [hrep, toDouble_fps]
  by_cases h0 : 0 ≤ v
  · rw [pos v h0 h2, Int.tdiv_eq_ediv (mul_nonneg h0 (by norm_num)) (by norm_num)]
  · have e : (v : ℚ) * (6605279468488726 / 4503599627370496) =
        -(((-v : Int) : ℚ) * (6605279468488726 / 4503599627370496)) := by
      push_cast
      ring
    rw [e, toDouble_neg, truncate_neg, pos (-v) (by omega) (by omega),
      tdiv_neg_of_nonpos _ _ (by omega) (by norm_num)]
    congr 2
    ring

/-- The double product of an `int` with the factor for kilometres per hour, truncated
toward zero, is the exact product truncated toward zero on every `int`. -/
theorem kph_truncate (v : Int) (h1 : INT_MIN ≤ v) (h2 : v ≤ INT_MAX) :
    truncate (toDouble (toDouble (v : ℚ) * toDouble 1.609344)) =
      Int.tdiv (v * 1609344) 1000000 := by
  unfold INT_MIN at h1
  unfold INT_MAX at h2
  have hrep : toDouble (v : ℚ) = v := by
    apply toDouble_intCast
    rw [abs_lt]
    constructor
    · have : (-2147483648 : ℚ) ≤ v := by exact_mod_cast h1
      norm_num
      linarith
    · have : (v : ℚ) ≤ 2147483647 := by exact_mod_cast h2
      norm_num
      linarith
  rw [hrep, toDouble_kph]
  by_cases h0 : 0 ≤ v
  · rw [kph_product v h0 (by omega),
      Int.tdiv_eq_ediv (mul_nonneg h0 (by norm_num)) (by norm_num)]
  · have e : (v : ℚ) * (7247841038710944 / 4503599627370496) =
        -(((-v : Int) : ℚ) * (7247841038710944 / 4503599627370496)) := by
      push_cast
      ring
    rw [e, toDouble_neg, truncate_neg, kph_product (-v) (by omega) (by omega),
      tdiv_neg_of_nonpos _ _ (by omega) (by norm_num)]
    congr 2
    ring

/-! ### The speed conversion -/

/-- C19 as stated fails: with feet per second as the unit, `convertSpeed(219999997)` is
322666663, while `219999997 * 1.46666667` truncated toward zero is 322666662: the exact
product, 322666662.99999999, is rounded to the nearest `double`, 322666663.0, before the
truncation. And with kilometres per hour as the unit the scaled value of the `int`
2000000000, which is 3218688000 truncated, is not an `int`, so the conversion to `int` is
undefined there. -/
theorem convertSpeed_counterexample :
    fpsObject.speedUnits = SpeedUnits.FPS ∧
    INT_MIN ≤ (219999997 : Int) ∧ (219999997 : Int) ≤ INT_MAX ∧
    Int.tdiv (219999997 * 146666667) 100000000 = 322666662 ∧
    fpsObject.convertSpeed 219999997 = some 322666663 ∧
    kphObject.speedUnits = SpeedUnits.KPH ∧
    INT_MIN ≤ (2000000000 : Int) ∧ (2000000000 : Int) ≤ INT_MAX ∧
    Int.tdiv (2000000000 * 1609344) 1000000 = 3218688000 ∧
    INT_MAX < (3218688000 : Int) ∧
    kphObject.convertSpeed 2000000000 = none := by
  have hrep : toDouble ((219999997 : Int) : ℚ) = 219999997 := by
    rw [toDouble_intCast 219999997 (by norm_num [abs_of_pos])]
    norm_num
  have hprod : toDouble ((219999997 : ℚ) * (6605279468488726 / 4503599627370496)) =
      ((322666663 : Int) : ℚ) := by
    rw [toDouble_eq _ 28 (322666663 * 16777216) (by norm_num [abs_of_pos])
      (by norm_num [abs_of_pos]) (by rw [abs_lt]; norm_num)]
    norm_num
  have hf : fpsObject.convertSpeed 219999997 = some 322666663 := by
    show doubleToInt (toDouble (toDouble ((219999997 : Int) : ℚ) * toDouble 1.46666667)) = _
    rw [hrep, toDouble_fps, hprod]
    exact doubleToInt_of_range (truncate_intCast 322666663) (by decide) (by decide)
  have hk : kphObject.convertSpeed 2000000000 = none := by
    show doubleToInt (toDouble (toDouble ((2000000000 : Int) : ℚ) * toDouble 1.609344)) = _
    apply doubleToInt_of_large (kph_truncate 2000000000 (by decide) (by decide))
    right
    decide
  exact ⟨rfl, by decide, by decide, by decide, hf, rfl, by decide, by decide, by decide,
    by decide, hk⟩

/-- C19 (amended): for every `int` speed `v` in miles per hour, `convertSpeed(v)` is `v`
itself when the unit is MPH; when the unit is KPH it is `v * 1.609344` truncated toward
zero whenever that value is an `int`, which it is for every `|v| ≤ 1300000000`, and
undefined otherwise; when the unit is FPS it is `v * 1.46666667` truncated toward zero for
every `|v| ≤ 219999996`, that is, up to the first `int` at which the rounding of the
product shows. The constants are the decimals written, and the products are the `double`
products of the code. -/
theorem convertSpeed_value (s : CUXInterface) (v : Int) (h1 : INT_MIN ≤ v)
    (h2 : v ≤ INT_MAX) :
    (s.speedUnits = SpeedUnits.MPH → s.convertSpeed v = some v) ∧
    (s.speedUnits = SpeedUnits.KPH →
      s.convertSpeed v =
        if INT_MIN ≤ Int.tdiv (v * 1609344) 1000000 ∧
            Int.tdiv (v * 1609344) 1000000 ≤ INT_MAX then
          some (Int.tdiv (v * 1609344) 1000000)
        else none) ∧
    (|v| ≤ 1300000000 →
      INT_MIN ≤ Int.tdiv (v * 1609344) 1000000 ∧
      Int.tdiv (v * 1609344) 1000000 ≤ INT_MAX) ∧
    (s.speedUnits = SpeedUnits.FPS → |v| ≤ 219999996 →
      s.convertSpeed v = some (Int.tdiv (v * 146666667) 100000000)) := by
  refine ⟨?_, ?_, ?_, ?_⟩
  · intro hu
    have hrep : toDouble (v : ℚ) = v := by
      apply toDouble_intCast
      unfold INT_MIN at h1
      unfold INT_MAX at h2
      rw [abs_lt]
      constructor
      · have : (-2147483648 : ℚ) ≤ v := by exact_mod_cast h1
        norm_num
        linarith
      · have : (v : ℚ) ≤ 2147483647 := by exact_mod_cast h2
        norm_num
        linarith
    unfold convertSpeed
    rw [hu]
    show doubleToInt (toDouble (v : ℚ)) = _
    rw [hrep]
    exact doubleToInt_of_range (truncate_intCast v) h1 h2
  · intro hu
    unfold convertSpeed
    rw [hu]
    show doubleToInt (toDouble (toDouble (v : ℚ) * toDouble 1.609344)) = _
    unfold doubleToInt
    rw [kph_truncate v h1 h2]
  · intro hb
    obtain ⟨b1, b2⟩ := abs_le.mp hb
    unfold INT_MIN INT_MAX
    by_cases hv : 0 ≤ v
    · rw [Int.tdiv_eq_ediv (by omega) (by omega)]
      omega
    · rw [tdiv_neg_of_nonpos _ _ (by omega) (by omega)]
      omega
  · intro hu hb
    obtain ⟨b1, b2⟩ := abs_le.mp hb
    unfold convertSpeed
    rw [hu]
    show doubleToInt (toDouble (toDouble (v : ℚ) * toDouble 1.46666667)) = _
    apply doubleToInt_of_range (fps_truncate v hb)
    · unfold INT_MIN
      by_cases hv : 0 ≤ v
      · rw [Int.tdiv_eq_ediv (by omega) (by omega)]
        omega
      · rw [tdiv_neg_of_nonpos _ _ (by omega) (by omega)]
        omega
    · unfold INT_MAX
      by_cases hv : 0 ≤ v
      · rw [Int.tdiv_eq_ediv (by omega) (by omega)]
        omega
      · rw [tdiv_neg_of_nonpos _ _ (by omega) (by omega)]
        omega

theorem convertSpeed_value_witness :
    INT_MIN ≤ (100 : Int) ∧ (100 : Int) ≤ INT_MAX ∧
    kphObject.speedUnits = SpeedUnits.KPH ∧ kphObject.convertSpeed 100 = some 160 ∧
    freshObject.speedUnits = SpeedUnits.MPH ∧ freshObject.convertSpeed 100 = some 100 ∧
    fpsObject.speedUnits = SpeedUnits.FPS ∧ |(100 : Int)| ≤ 219999996 ∧
    fpsObject.convertSpeed 100 = some 146 := by
  refine ⟨by decide, by decide, rfl, ?_, rfl,
    (convertSpeed_value freshObject 100 (by decide) (by decide)).1 rfl, rfl, by decide,
    (convertSpeed_value fpsObject 100 (by decide) (by decide)).2.2.2 rfl (by decide)⟩
  rw [(convertSpeed_value kphObject 100 (by decide) (by decide)).2.1 rfl]
  decide

/-! ## The sample registry -/

theorem foldl_writeSamples (f : SampleType → Bool) (keys : List SampleType) :
    ∀ s : CUXInterface,
      keys.foldl (fun x field =>
        { x with enabledSamples := Function.update x.enabledSamples field (f field) }) s =
      { s with enabledSamples := fun k => if k ∈ keys then f k else s.enabledSamples k } := by
  induction keys with
  | nil => intro s; simp
  | cons a l ih =>
    intro s
    rw [List.foldl_cons, ih]
    congr 1
    funext k
    by_cases hk : k ∈ l
    · simp [hk]
    · by_cases ha : k = a
      · subst ha
        simp [hk]
      · simp [hk, ha, Function.update]

theorem lookup_eq_none_iff_not_mem (samples : List (SampleType × Bool)) (k : SampleType) :
    samples.lookup k = none ↔ k ∉ samples.map Prod.fst := by
  induction samples with
  | nil => simp
  | cons e l ih =>
    obtain ⟨a, b⟩ := e
    by_cases h : k = a
    · subst h
      simp [List.lookup]
    · have hb : (k == a) = false := by simpa using h
      simp [List.lookup, hb, ih, h]

/-- C20: after `setEnabledSamples(samples)` the registry entry of every key present in
`samples` is the value `samples` has for it, the entry of every key absent from `samples`
is what it was, and no other member has changed; the entries are written key by key. -/
theorem setEnabledSamples_entries (samples : List (SampleType × Bool)) (s : CUXInterface) :
    (∀ k v, samples.lookup k = some v →
      (s.setEnabledSamples samples).enabledSamples k = v) ∧
    (∀ k, samples.lookup k = none →
      (s.setEnabledSamples samples).enabledSamples k = s.enabledSamples k) ∧
    s.setEnabledSamples samples =
      { s with enabledSamples := (s.setEnabledSamples samples).enabledSamples } ∧
    s.setEnabledSamples samples =
      (samples.map Prod.fst).foldl (fun x field =>
        { x with enabledSamples :=
            Function.update x.enabledSamples field ((samples.lookup field).getD false) }) s := by
  have e : s.setEnabledSamples samples =
      { s with enabledSamples := fun k =>
          if k ∈ samples.map Prod.fst then (samples.lookup k).getD false
          else s.enabledSamples k } := by
    unfold setEnabledSamples
    exact foldl_writeSamples (fun field => (samples.lookup field).getD false) _ s
  refine ⟨?_, ?_, ?_, rfl⟩
  · intro k v hv
    have hm : k ∈ samples.map Prod.fst := by
      by_contra hn
      rw [(lookup_eq_none_iff_not_mem samples k).mpr hn] at hv
      cases hv
    rw [e]
    show (if k ∈ samples.map Prod.fst then (samples.lookup k).getD false
      else s.enabledSamples k) = v
    rw [if_pos hm, hv]
    rfl
  · intro k hn
    have hm : k ∉ samples.map Prod.fst := (lookup_eq_none_iff_not_mem samples k).mp hn
    rw [e]
    show (if k ∈ samples.map Prod.fst then (samples.lookup k).getD false
      else s.enabledSamples k) = _
    rw [if_neg hm]
  · rw [e]

end RoverGauge

/-! ## What polling leaves alone -/

namespace RoverGauge

open CUXInterface

theorem afterRead_offline (p : Point) (s : CUXInterface) :
    (afterRead p s).offline = s.offline := by
  unfold afterRead
  cases p <;> rfl

theorem runReads_offline {l : List Point} :
    ∀ {a b : ReadResult × CUXInterface}, runReads l a = some b → b.2.offline = a.2.offline := by
  induction l with
  | nil =>
    intro a b h
    cases h
    rfl
  | cons p ps ih =>
    intro a b h
    change (mergeRead p a >>= runReads ps) = some b at h
    cases hm : mergeRead p a with
    | none => rw [hm] at h; cases h
    | some c =>
      rw [hm] at h
      rw [ih h, (mergeRead_eq_some hm).2, afterRead_offline]

theorem map_eq_some_elim {α β : Type} {f : α → β} {x : Option α} {b : β}
    (h : x.map f = some b) : ∃ a, x = some a ∧ f a = b := by
  cases x with
  | none => cases h
  | some a => exact ⟨a, rfl, by simpa using h⟩

theorem bind_eq_some_elim {α β : Type} {g : α → Option β} {x : Option α} {b : β}
    (h : (x >>= g) = some b) : ∃ a, x = some a ∧ g a = some b := by
  cases x with
  | none => cases h
  | some a => exact ⟨a, rfl, h⟩

theorem stampMid_offline (a : ReadResult × CUXInterface) :
    (stampMid a).2.offline = a.2.offline := by
  unfold stampMid
  split <;> rfl

theorem stampLow_offline (a : ReadResult × CUXInterface) :
    (stampLow a).2.offline = a.2.offline := by
  unfold stampLow
  split <;> rfl

theorem readHighFreqData_offline {s : CUXInterface} {b : ReadResult × CUXInterface}
    (h : readHighFreqData s = some b) : b.2.offline = s.offline := by
  rw [readHighFreqData_eq] at h
  exact runReads_offline h

theorem readMidFreqData_offline {s : CUXInterface} {b : ReadResult × CUXInterface}
    (h : readMidFreqData s = some b) : b.2.offline = s.offline := by
  rw [readMidFreqData_eq] at h
  obtain ⟨c, hc, rfl⟩ := map_eq_some_elim h
  rw [stampMid_offline]
  exact runReads_offline hc

theorem afterMIL_offline (s : CUXInterface) : s.afterMIL.offline = s.offline := by
  have h := afterRead_offline Point.MILOn (s.log (Event.tier Tier.low))
  unfold afterMIL
  cases (s.reply s.linkCalls Point.MILOn).ok
  · exact h
  · exact h

theorem readLowFreqData_offline {s : CUXInterface} {b : ReadResult × CUXInterface}
    (h : readLowFreqData s = some b) : b.2.offline = s.offline := by
  cases hc : s.cux with
  | none => rw [readLowFreqData_absent s hc] at h; cases h
  | some link =>
    rw [readLowFreqData_eq s (by rw [hc]; rfl)] at h
    obtain ⟨c, hr, rfl⟩ := map_eq_some_elim h
    rw [stampLow_offline, runReads_offline hr]
    exact afterMIL_offline s

theorem mergeTier_offline {tier : CUXInterface → Option (ReadResult × CUXInterface)}
    (ht : ∀ s b, tier s = some b → b.2.offline = s.offline)
    {a b : ReadResult × CUXInterface} (h : mergeTier tier a = some b) :
    b.2.offline = a.2.offline := by
  unfold mergeTier at h
  obtain ⟨c, hc, rfl⟩ := map_eq_some_elim h
  exact ht a.2 c hc

theorem onlyIf_offline {c : CUXInterface → Bool}
    {g : ReadResult × CUXInterface → Option (ReadResult × CUXInterface)}
    (hg : ∀ {a b}, g a = some b → b.2.offline = a.2.offline)
    {a b : ReadResult × CUXInterface} (h : onlyIf c g a = some b) :
    b.2.offline = a.2.offline := by
  unfold onlyIf at h
  split at h
  · exact hg h
  · cases h
    rfl

/-- Whenever `readData` returns, the members that polling does not write are as before. -/
theorem readData_offline {s : CUXInterface} {b : ReadResult × CUXInterface}
    (h : readData s = some b) : b.2.offline = s.offline := by
  unfold readData at h
  obtain ⟨a2, h2, h3⟩ := bind_eq_some_elim h
  obtain ⟨a1, h1, h2⟩ := bind_eq_some_elim h2
  rw [some_bind_eq] at h1
  have e1 := mergeTier_offline (fun _ _ h => readHighFreqData_offline h) h1
  have e2 := onlyIf_offline
    (fun h => mergeTier_offline (fun _ _ h => readMidFreqData_offline h) h) h2
  have e3 := onlyIf_offline
    (fun h => mergeTier_offline (fun _ _ h => readLowFreqData_offline h) h) h3
  rw [e3, e2, e1]
  rfl

theorem timerStart_offline {m : Int} {x y : CUXInterface} (h : timerStart m x = some y) :
    y.offline = x.offline := by
  unfold timerStart at h
  cases ht : x.timer with
  | none => rw [ht] at h; cases h
  | some t =>
    rw [ht] at h
    cases h
    rfl

/-- Whenever `pollEcu` returns, the members that polling does not write are as before. -/
theorem pollEcu_offline {s s2 : CUXInterface} (h : pollEcu s = some s2) :
    s2.offline = s.offline := by
  cases hs : s.stopCondition
  · rw [pollEcu_of_running s hs] at h
    obtain ⟨a, ha, hb⟩ := bind_eq_some_elim h
    rw [timerStart_offline hb]
    have e := readData_offline ha
    rw [emitVerdict_eq]
    exact e
  · rw [pollEcu_of_stop s hs] at h
    cases h
    rfl

theorem timeout_offline {s s2 : CUXInterface} (h : timeout s = some s2) :
    s2.offline = s.offline := by
  unfold timeout at h
  split at h
  · split at h
    · have e := pollEcu_offline h
      exact e
    · cases h
      rfl
  · cases h
    rfl

end RoverGauge

/-! ## The PROM image across a history of operations -/

namespace RoverGauge

open CUXInterface

theorem run_append (l1 l2 : List Command) :
    ∀ s : CUXInterface, run (l1 ++ l2) s = run l1 s >>= run l2 := by
  induction l1 with
  | nil => intro s; rfl
  | cons c cs ih =>
    intro s
    change (step c s >>= run (cs ++ l2)) = (step c s >>= run cs) >>= run l2
    cases step c s with
    | none => rfl
    | some a => exact ih a

theorem run_singleton (c : Command) (s : CUXInterface) : run [c] s = step c s := by
  change (step c s >>= run []) = step c s
  cases step c s <;> rfl

theorem connectToECU_promImage (env : Answers) (s : CUXInterface) :
    (s.connectToECU env).2.promImage = s.promImage := by
  unfold connectToECU
  cases s.cux <;> cases env.connect <;> cases env.first.ok <;> rfl

theorem onStartPollingRequest_promImage {env : Answers} {s s2 : CUXInterface}
    (h : s.onStartPollingRequest env = some s2) : s2.promImage = s.promImage := by
  unfold onStartPollingRequest at h
  dsimp only at h
  split at h
  · have e := congrArg Offline.promImage (pollEcu_offline h)
    exact e.trans (connectToECU_promImage env s)
  · cases h
    exact connectToECU_promImage env s

theorem setEnabledSamples_promImage (samples : List (SampleType × Bool)) (s : CUXInterface) :
    (s.setEnabledSamples samples).promImage = s.promImage := by
  unfold setEnabledSamples
  rw [foldl_writeSamples (fun field => (samples.lookup field).getD false)]

theorem onReadPROMImageRequested_absent (env : Answers) (s : CUXInterface)
    (hc : s.cux = none) : s.onReadPROMImageRequested env = s.emit Signal.notConnected := by
  unfold onReadPROMImageRequested
  rw [hc]

/-- What one operation does to the PROM buffer: `disconnectFromECU` deletes it, a PROM dump
request on a present link leaves one allocated, and everything else leaves it as it was. -/
theorem step_promImage {c : Command} {s s2 : CUXInterface} (h : step c s = some s2) :
    (c = Command.disconnect ∧ s2.promImage = none) ∨
    ((∃ env, c = Command.readPROMImage env) ∧ s.cux.isSome = true ∧
      s2.promImage.isSome = true) ∨
    (c ≠ Command.disconnect ∧ s2.promImage = s.promImage) := by
  cases c with
  | disconnect =>
    cases h
    exact Or.inl ⟨rfl, rfl⟩
  | readPROMImage env =>
    cases h
    cases hc : s.cux with
    | none =>
      refine Or.inr (Or.inr ⟨(fun e => by cases e), ?_⟩)
      rw [onReadPROMImageRequested_absent env s hc]
      rfl
    | some link =>
      have hs : s.cux.isSome = true := by rw [hc]; rfl
      exact Or.inr (Or.inl ⟨⟨env, rfl⟩, rfl,
        (onReadPROMImageRequested_present env s hs).2.2.1⟩)
  | startPolling env =>
    exact Or.inr (Or.inr ⟨(fun e => by cases e), onStartPollingRequest_promImage h⟩)
  | timeout =>
    exact Or.inr (Or.inr ⟨(fun e => by cases e),
      congrArg Offline.promImage (timeout_offline h)⟩)
  | connect env =>
    cases h
    exact Or.inr (Or.inr ⟨(fun e => by cases e), connectToECU_promImage env s⟩)
  | setEnabledSamples samples =>
    cases h
    exact Or.inr (Or.inr ⟨(fun e => by cases e), setEnabledSamples_promImage samples s⟩)
  | cancelRead =>
    refine Or.inr (Or.inr ⟨(fun e => by cases e), ?_⟩)
    change s.cancelRead = some s2 at h
    unfold cancelRead at h
    split at h
    · cases h
      rfl
    · cases h
  | parentThreadStarted =>
    cases h
    refine Or.inr (Or.inr ⟨(fun e => by cases e), ?_⟩)
    unfold onParentThreadStarted
    dsimp only
    split_ifs <;> rfl
  | shutdownThread =>
    cases h
    refine Or.inr (Or.inr ⟨(fun e => by cases e), ?_⟩)
    unfold onShutdownThreadRequest disconnectIfConnected
    split
    · split <;> rfl
    · rfl
  | faultCodes env =>
    cases h
    refine Or.inr (Or.inr ⟨(fun e => by cases e), ?_⟩)
    unfold onFaultCodesRequested
    cases s.cux <;> cases env.connect <;> cases env.first.ok <;> rfl
  | faultCodesClear env =>
    cases h
    refine Or.inr (Or.inr ⟨(fun e => by cases e), ?_⟩)
    unfold onFaultCodesClearRequested
    cases s.cux <;> cases env.connect <;> cases env.first.ok <;> cases env.second.ok <;> rfl
  | fuelMap fuelMapId env =>
    cases h
    refine Or.inr (Or.inr ⟨(fun e => by cases e), ?_⟩)
    unfold onFuelMapRequested
    cases s.cux with
    | none => rfl
    | some link =>
      dsimp only
      split_ifs <;> rfl
  | fuelPumpRun env =>
    cases h
    refine Or.inr (Or.inr ⟨(fun e => by cases e), ?_⟩)
    unfold onFuelPumpRunRequest
    cases s.cux <;> rfl
  | idleAirControl direction steps env =>
    cases h
    refine Or.inr (Or.inr ⟨(fun e => by cases e), ?_⟩)
    unfold onIdleAirControlMovementRequest
    cases s.cux <;> cases env.connect <;> rfl
  | parentThreadFinished => cases h; exact Or.inr (Or.inr ⟨(fun e => by cases e), rfl⟩)
  | setSerialDevice device => cases h; exact Or.inr (Or.inr ⟨(fun e => by cases e), rfl⟩)
  | setSpeedUnits units => cases h; exact Or.inr (Or.inr ⟨(fun e => by cases e), rfl⟩)
  | setTemperatureUnits units => cases h; exact Or.inr (Or.inr ⟨(fun e => by cases e), rfl⟩)
  | setLambdaTrimType type => cases h; exact Or.inr (Or.inr ⟨(fun e => by cases e), rfl⟩)
  | setMAFReadingType type => cases h; exact Or.inr (Or.inr ⟨(fun e => by cases e), rfl⟩)
  | setThrottleReadingType type => cases h; exact Or.inr (Or.inr ⟨(fun e => by cases e), rfl⟩)
  | simModeWrite => cases h; exact Or.inr (Or.inr ⟨(fun e => by cases e), rfl⟩)

/-- A history without `disconnectFromECU` keeps an allocated PROM buffer allocated. -/
theorem run_keeps_promImage (post : List Command) :
    ∀ {s1 s : CUXInterface}, Command.disconnect ∉ post → run post s1 = some s →
      s1.promImage.isSome = true → s.promImage.isSome = true := by
  induction post with
  | nil =>
    intro s1 s _ h hp
    cases h
    exact hp
  | cons c cs ih =>
    intro s1 s hn h hp
    obtain ⟨sm, hm, hr⟩ := bind_eq_some_elim h
    have hcs : Command.disconnect ∉ cs := fun hin => hn (List.mem_cons_of_mem _ hin)
    refine ih hcs hr ?_
    rcases step_promImage hm with ⟨hd, -⟩ | ⟨-, -, hi⟩ | ⟨-, he⟩
    · exact absurd (hd ▸ List.mem_cons_self _ _) hn
    · exact hi
    · rw [he]
      exact hp

/-- An allocated PROM buffer in a state reached from one without the buffer comes from a PROM
dump request that ran on a present link, with no `disconnectFromECU` after it. -/
theorem promImage_origin (cmds : List Command) :
    ∀ {s0 s : CUXInterface}, s0.promImage = none → run cmds s0 = some s →
      s.promImage.isSome = true →
      ∃ pre env post sp, cmds = pre ++ Command.readPROMImage env :: post ∧
        run pre s0 = some sp ∧ sp.cux.isSome = true ∧ Command.disconnect ∉ post := by
  induction cmds using List.reverseRecOn with
  | nil =>
    intro s0 s h0 h hp
    cases h
    rw [h0] at hp
    cases hp
  | append_singleton l c ih =>
    intro s0 s h0 h hp
    rw [run_append] at h
    obtain ⟨sm, hm, hr⟩ := bind_eq_some_elim h
    rw [run_singleton] at hr
    rcases step_promImage hr with ⟨-, hn⟩ | ⟨⟨env, hc⟩, hx, -⟩ | ⟨hd, he⟩
    · rw [hn] at hp
      cases hp
    · exact ⟨l, env, [], sm, by rw [hc], hm, hx, List.not_mem_nil _⟩
    · rw [he] at hp
      obtain ⟨pre, env, post, sp, hl, hpre, hx, hpost⟩ := ih h0 hm hp
      refine ⟨pre, env, post ++ [c], sp, by rw [hl]; simp, hpre, hx, ?_⟩
      intro hin
      rcases List.mem_append.1 hin with h1 | h1
      · exact hpost h1
      · exact hd (List.mem_singleton.1 h1).symm

/-- When a PROM dump request emits `promImageReady`: exactly when the link is present,
`connect` and `dumpROM` report success, and no cancellation was requested before or during
the transfer. -/
theorem promImageReady_iff (x : CUXInterface) (env : Answers) :
    Signal.promImageReady ∈ signalsOf (newEvents x (x.onReadPROMImageRequested env)) ↔
      (x.cux.isSome = true ∧ env.connect = true ∧ env.first.ok = true ∧
       x.readCanceled = false ∧ env.cancelDuring = false) := by
  cases hc : x.cux with
  | none =>
    rw [onReadPROMImageRequested_absent env x hc, newEvents_emit]
    simp [signalsOf]
  | some link =>
    have hs : x.cux.isSome = true := by rw [hc]; rfl
    rw [newEvents_of_trace (onReadPROMImageRequested_present env x hs).1]
    cases x.readCanceled <;> cases env.cancelDuring <;> cases env.connect <;>
      cases env.first.ok <;> simp [signalsOf]

/-- C14 as stated fails: after a PROM dump that failed, and after one that was cancelled,
`getPROMImage` returns the buffer although no `promImageReady` was emitted. -/
theorem promImage_counterexample :
    run [Command.parentThreadStarted, Command.readPROMImage failedAnswers] freshObject =
      some (startedObject.onReadPROMImageRequested failedAnswers) ∧
    signalsOf (newEvents startedObject (startedObject.onReadPROMImageRequested failedAnswers))
      = [Signal.promImageReadFailed] ∧
    (startedObject.onReadPROMImageRequested failedAnswers).getPROMImage.isSome = true ∧
    signalsOf (newEvents startedObject
      (startedObject.onReadPROMImageRequested cancelledAnswers)) = [] ∧
    (startedObject.onReadPROMImageRequested cancelledAnswers).getPROMImage.isSome = true :=
  ⟨rfl, by decide, by decide, by decide, by decide⟩

/-- C14 (amended): in every state reached from construction by a history of operations,
`getPROMImage` returns a non-null buffer exactly when some `onReadPROMImageRequested` of the
history ran on a present link and no `disconnectFromECU` came after it, whatever the outcome
of that dump, so after a failed or a cancelled dump it returns the buffer; completion is what
`promImageReady` tells, which a request emits exactly when the link is present, `connect`
and `dumpROM` report success, and no cancellation was requested before or during the
transfer. -/
theorem promImage_history (device : String) (sUnits : SpeedUnits) (tUnits : TemperatureUnits)
    (clock : Nat → Int) (reply : Nat → Point → Reply) (cmds : List Command)
    (s : CUXInterface)
    (hrun : run cmds (CUXInterface.init device sUnits tUnits clock reply) = some s) :
    (s.getPROMImage.isSome = true ↔
      ∃ pre env post sp, cmds = pre ++ Command.readPROMImage env :: post ∧
        run pre (CUXInterface.init device sUnits tUnits clock reply) = some sp ∧
        sp.cux.isSome = true ∧ Command.disconnect ∉ post) ∧
    ∀ (x : CUXInterface) (env : Answers),
      Signal.promImageReady ∈ signalsOf (newEvents x (x.onReadPROMImageRequested env)) ↔
        (x.cux.isSome = true ∧ env.connect = true ∧ env.first.ok = true ∧
         x.readCanceled = false ∧ env.cancelDuring = false) := by
  refine ⟨⟨fun hp => promImage_origin cmds rfl hrun hp, ?_⟩, promImageReady_iff⟩
  rintro ⟨pre, env, post, sp, hl, hpre, hx, hpost⟩
  rw [hl, run_append, hpre] at hrun
  obtain ⟨sm, hm, hr⟩ := bind_eq_some_elim hrun
  cases hm
  exact run_keeps_promImage post hpost hr (onReadPROMImageRequested_present env sp hx).2.2.1

theorem promImage_history_witness :
    run [Command.parentThreadStarted, Command.readPROMImage goodAnswers,
      Command.readPROMImage cancelledAnswers] freshObject =
      some ((startedObject.onReadPROMImageRequested goodAnswers).onReadPROMImageRequested
        cancelledAnswers) ∧
    (((startedObject.onReadPROMImageRequested goodAnswers).onReadPROMImageRequested
        cancelledAnswers).getPROMImage.isSome = true ↔
      ∃ pre env post sp,
        [Command.parentThreadStarted, Command.readPROMImage goodAnswers,
          Command.readPROMImage cancelledAnswers] =
          pre ++ Command.readPROMImage env :: post ∧
        run pre freshObject = some sp ∧ sp.cux.isSome = true ∧ Command.disconnect ∉ post) :=
  ⟨rfl, (promImage_history "COM1" SpeedUnits.MPH TemperatureUnits.Fahrenheit steadyClock allOk
    [Command.parentThreadStarted, Command.readPROMImage goodAnswers,
      Command.readPROMImage cancelledAnswers] _ rfl).1⟩

/-! ## The fuel-map table -/

/-- C15 fails in the code: from construction, with the worker thread started, a request for
fuel map 1 on which `connect` succeeds and the read of the map fails emits no
`fuelMapReady(1)` (it emits nothing), and yet `getFuelMap(1)`, null before, returns a buffer
after. -/
theorem getFuelMap_after_failed_read :
    run [Command.parentThreadStarted, Command.fuelMap 1 failedAnswers] freshObject =
      some (startedObject.onFuelMapRequested 1 failedAnswers) ∧
    startedObject.getFuelMap 1 = none ∧
    signalsOf (newEvents startedObject (startedObject.onFuelMapRequested 1 failedAnswers))
      = [] ∧
    (startedObject.onFuelMapRequested 1 failedAnswers).getFuelMap 1 =
      some (zeroBuffer 128) :=
  ⟨rfl, by decide, by decide, rfl⟩

end RoverGauge

/-! ## The two merges compared -/

namespace RoverGauge

/-- C23: for every running total `t` and every single verdict `s`, `mergeResult(t, s)` is
`s` if `t` is `NoStatement` or `s` is `Success`, and `t` otherwise; in particular
`mergeResult(Success, Failure)` and `mergeResult(Failure, Success)` are both `Success`. -/
theorem mergeResult_cases (t s : ReadResult) :
    mergeResult t s =
      (if t = ReadResult.NoStatement ∨ s = ReadResult.Success then s else t) ∧
    mergeResult ReadResult.Success ReadResult.Failure = ReadResult.Success ∧
    mergeResult ReadResult.Failure ReadResult.Success = ReadResult.Success := by
  cases t <;> cases s <;> decide

/-- C24: the boolean overload of `mergeResult` agrees with the tri-state one: for every
running total `t`, merging `true` is merging `Success` and merging `false` is merging
`Failure`; so for every boolean `b`, merging `b` is merging the verdict that `b` stands
for. -/
theorem mergeResultBool_agrees (t : ReadResult) (b : Bool) :
    mergeResultBool t true = mergeResult t ReadResult.Success ∧
    mergeResultBool t false = mergeResult t ReadResult.Failure ∧
    mergeResultBool t b =
      mergeResult t (if b = true then ReadResult.Success else ReadResult.Failure) := by
  cases t <;> cases b <;> decide

end RoverGauge

/-! ## Which tiers a call of `readData` executes -/

namespace RoverGauge

open CUXInterface

theorem tiersOf_append (l m : List Event) : tiersOf (l ++ m) = tiersOf l ++ tiersOf m := by
  induction l with
  | nil => rfl
  | cons e es ih =>
    cases e <;> simp [tiersOf, ih]

theorem tiersOf_readEvents (reply : Nat → Point → Reply) (l : List Point) :
    ∀ k, tiersOf (readEvents reply k l) = [] := by
  induction l with
  | nil => intro k; rfl
  | cons p ps ih =>
    intro k
    simp [readEvents, tiersOf, ih]

theorem mem_tiersOf (es : List Event) (t : Tier) : t ∈ tiersOf es ↔ Event.tier t ∈ es := by
  induction es with
  | nil => simp [tiersOf]
  | cons e es ih =>
    cases e <;> simp [tiersOf, ih]

theorem tiersOf_cycleEvents (s : CUXInterface) :
    tiersOf (cycleEvents s) =
      Tier.high ::
        ((if s.startTime > s.lastMidFreqReadTime + 200 then [Tier.mid] else []) ++
         (if s.startTime > s.lastLowFreqReadTime + 800 then [Tier.low] else [])) := by
  unfold cycleEvents highEvents midEvents lowEvents midGate lowGate
  by_cases hm : s.startTime > s.lastMidFreqReadTime + 200 <;>
    by_cases hl : s.startTime > s.lastLowFreqReadTime + 800 <;>
    simp [tiersOf_append, tiersOf, tiersOf_readEvents, hm, hl]

/-- C25: a call of `readData` on a present link, with start time `now` (the clock reading
it takes first), returns, and the tier functions it enters are, in this order: the high
tier, always; the mid tier, exactly when `now > lastMidFreqReadTime + 200`; the low tier,
exactly when `now > lastLowFreqReadTime + 800`. -/
theorem readData_tiers (s : CUXInterface) (h : s.cux.isSome = true) :
    ∃ r s1, readData s = some (r, s1) ∧
      tiersOf (newEvents s s1) =
        Tier.high ::
          ((if s.startTime > s.lastMidFreqReadTime + 200 then [Tier.mid] else []) ++
           (if s.startTime > s.lastLowFreqReadTime + 800 then [Tier.low] else [])) ∧
      Event.tier Tier.high ∈ newEvents s s1 ∧
      (Event.tier Tier.mid ∈ newEvents s s1 ↔ s.startTime > s.lastMidFreqReadTime + 200) ∧
      (Event.tier Tier.low ∈ newEvents s s1 ↔ s.startTime > s.lastLowFreqReadTime + 800) := by
  obtain ⟨s1, hr, -, ht, -, -, -⟩ := readData_spec s h
  have ev : newEvents s s1 = cycleEvents s := newEvents_of_trace ht
  refine ⟨_, s1, hr, ?_, ?_, ?_, ?_⟩
  · rw [ev]
    exact tiersOf_cycleEvents s
  · rw [ev, tier_mem_cycleEvents]
    exact Or.inl rfl
  · rw [ev, tier_mem_cycleEvents]
    simp [midGate]
  · rw [ev, tier_mem_cycleEvents]
    simp [lowGate]

theorem readData_tiers_witness :
    roadSession.cux.isSome = true ∧
    ∃ r s1, readData roadSession = some (r, s1) ∧
      tiersOf (newEvents roadSession s1) = [Tier.high, Tier.mid, Tier.low] := by
  obtain ⟨r, s1, hr, ht, -⟩ := readData_tiers roadSession (by decide)
  refine ⟨by decide, r, s1, hr, ?_⟩
  rw [ht]
  decide

end RoverGauge

/-! ## The tier timestamps -/

namespace RoverGauge

open CUXInterface

theorem true_mem_answers (reply : Nat → Point → Reply) (l : List Point) :
    ∀ k, true ∈ answers reply k l ↔ ∃ p, Event.read p true ∈ readEvents reply k l := by
  induction l with
  | nil => intro k; simp [answers, readEvents]
  | cons p ps ih =>
    intro k
    simp only [answers, readEvents, List.mem_cons, ih (k + 1)]
    constructor
    · rintro (h | ⟨q, h⟩)
      · exact ⟨p, Or.inl (by rw [← h])⟩
      · exact ⟨q, Or.inr h⟩
    · rintro ⟨q, h | h⟩
      · exact Or.inl (Event.read.inj h).2
      · exact Or.inr ⟨q, h⟩

/-- C26: on a present link each tier function returns, and: `readMidFreqData` takes a
clock reading and sets `lastMidFreqReadTime` to it exactly when at least one point read
that it issued succeeded, otherwise it takes no reading and leaves the timestamp as it was;
`readLowFreqData` does the same with `lastLowFreqReadTime` and its merged reads (all but
the MIL read); neither touches the other tier's timestamp; and `readHighFreqData` touches
neither timestamp and takes no clock reading. -/
theorem tier_stamps (x : CUXInterface) (h : x.cux.isSome = true) :
    (∃ r x1, readMidFreqData x = some (r, x1) ∧
      ((∃ p, Event.read p true ∈ newEvents x x1) →
        x1.lastMidFreqReadTime = x.clock x.clockReads ∧ x1.clockReads = x.clockReads + 1) ∧
      ((¬ ∃ p, Event.read p true ∈ newEvents x x1) →
        x1.lastMidFreqReadTime = x.lastMidFreqReadTime ∧ x1.clockReads = x.clockReads) ∧
      x1.lastLowFreqReadTime = x.lastLowFreqReadTime) ∧
    (∃ r x1, readLowFreqData x = some (r, x1) ∧
      ((∃ p, p ≠ Point.MILOn ∧ Event.read p true ∈ newEvents x x1) →
        x1.lastLowFreqReadTime = x.clock x.clockReads ∧ x1.clockReads = x.clockReads + 1) ∧
      ((¬ ∃ p, p ≠ Point.MILOn ∧ Event.read p true ∈ newEvents x x1) →
        x1.lastLowFreqReadTime = x.lastLowFreqReadTime ∧ x1.clockReads = x.clockReads) ∧
      x1.lastMidFreqReadTime = x.lastMidFreqReadTime) ∧
    (∃ r x1, readHighFreqData x = some (r, x1) ∧
      x1.lastMidFreqReadTime = x.lastMidFreqReadTime ∧
      x1.lastLowFreqReadTime = x.lastLowFreqReadTime ∧ x1.clockReads = x.clockReads) := by
  refine ⟨?_, ?_, ?_⟩
  · obtain ⟨x1, hr, -, hl, ht, -, hm, hc⟩ := readMidFreqData_spec x h
    have ev : newEvents x x1 =
        Event.tier Tier.mid :: readEvents x.reply x.linkCalls (midPlan x) :=
      newEvents_of_trace ht
    have key : verdict (answers x.reply x.linkCalls (midPlan x)) = ReadResult.Success ↔
        ∃ p, Event.read p true ∈ newEvents x x1 := by
      rw [verdict_eq_Success_iff, true_mem_answers, ev]
      simp
    refine ⟨_, x1, hr, ?_, ?_, hl⟩
    · intro hs
      rw [hm, hc, if_pos (key.mpr hs), if_pos (key.mpr hs)]
      exact ⟨rfl, rfl⟩
    · intro hs
      rw [hm, hc, if_neg (fun e => hs (key.mp e)), if_neg (fun e => hs (key.mp e))]
      exact ⟨rfl, rfl⟩
  · obtain ⟨x1, hr, -, hm, ht, -, hl, hc⟩ := readLowFreqData_spec x h
    have ev : newEvents x x1 = Event.tier Tier.low ::
        Event.read Point.MILOn (x.reply x.linkCalls Point.MILOn).ok ::
        readEvents x.reply (x.linkCalls + 1) (lowPlan x) :=
      newEvents_of_trace ht
    have key : verdict (answers x.reply (x.linkCalls + 1) (lowPlan x)) = ReadResult.Success ↔
        ∃ p, p ≠ Point.MILOn ∧ Event.read p true ∈ newEvents x x1 := by
      rw [← mergedOutcomes_readEvents x.reply (lowPlan x) (x.linkCalls + 1)
        (MILOn_not_mem_lowPlan x), ← mergedOutcomes_MIL (x.reply x.linkCalls Point.MILOn).ok,
        ← mergedOutcomes_tier Tier.low, ← ev]
      exact (verdict_mergedOutcomes (newEvents x x1)).1
    refine ⟨_, x1, hr, ?_, ?_, hm⟩
    · intro hs
      rw [hl, hc, if_pos (key.mpr hs), if_pos (key.mpr hs)]
      exact ⟨rfl, rfl⟩
    · intro hs
      rw [hl, hc, if_neg (fun e => hs (key.mp e)), if_neg (fun e => hs (key.mp e))]
      exact ⟨rfl, rfl⟩
  · obtain ⟨x1, hr, ⟨-, hm, hl, hc⟩, -, -⟩ := readHighFreqData_spec x h
    exact ⟨_, x1, hr, hm, hl, hc⟩

theorem tier_stamps_witness :
    roadSession.cux.isSome = true ∧
    ∃ r x1, readMidFreqData roadSession = some (r, x1) ∧
      ((∃ p, Event.read p true ∈ newEvents roadSession x1) →
        x1.lastMidFreqReadTime = roadSession.clock roadSession.clockReads ∧
        x1.clockReads = roadSession.clockReads + 1) ∧
      ((¬ ∃ p, Event.read p true ∈ newEvents roadSession x1) →
        x1.lastMidFreqReadTime = roadSession.lastMidFreqReadTime ∧
        x1.clockReads = roadSession.clockReads) ∧
      x1.lastLowFreqReadTime = roadSession.lastLowFreqReadTime :=
  ⟨by decide, (tier_stamps roadSession (by decide)).1⟩

end RoverGauge

/-! ## The temperature reads of the low tier -/

namespace RoverGauge

open CUXInterface

/-- C27 as stated fails: with the fuel temperature enabled and the coolant temperature
disabled, a low-tier execution at the even cycle count 0 reads the fuel temperature; so
does the first poll cycle of that session. -/
theorem temperature_reads_counterexample :
    fuelTempSession.enabledSamples SampleType.EngineTemperature = false ∧
    fuelTempSession.enabledSamples SampleType.FuelTemperature = true ∧
    fuelTempSession.readCount % 2 = 0 ∧
    (readLowFreqData fuelTempSession).map
        (fun a => readsOf (newEvents fuelTempSession a.2)) =
      some [(Point.MILOn, true), (Point.FuelTemp, true)] ∧
    (pollEcu fuelTempSession).map (fun s2 => readsOf (newEvents fuelTempSession s2)) =
      some [(Point.MILOn, true), (Point.FuelTemp, true)] := by
  decide

/-- C27 (amended): every low-tier execution on a present link returns, and in it the
coolant temperature is read exactly when `EngineTemperature` is enabled and `readCount` is
even; the fuel temperature is read exactly when `FuelTemperature` is enabled and the
coolant temperature is not read in that execution, that is, when `readCount` is odd or
`EngineTemperature` is disabled; so with `EngineTemperature` enabled the fuel temperature
is read exactly when `FuelTemperature` is enabled and `readCount` is odd, and the two are
never read in the same execution. -/
theorem temperature_reads (x : CUXInterface) (h : x.cux.isSome = true) :
    ∃ r x1, readLowFreqData x = some (r, x1) ∧
      ((∃ ok, Event.read Point.CoolantTemp ok ∈ newEvents x x1) ↔
        (x.enabledSamples SampleType.EngineTemperature = true ∧ x.readCount % 2 = 0)) ∧
      ((∃ ok, Event.read Point.FuelTemp ok ∈ newEvents x x1) ↔
        (x.enabledSamples SampleType.FuelTemperature = true ∧
          (x.readCount % 2 = 1 ∨ x.enabledSamples SampleType.EngineTemperature = false))) ∧
      (x.enabledSamples SampleType.EngineTemperature = true →
        ((∃ ok, Event.read Point.FuelTemp ok ∈ newEvents x x1) ↔
          (x.enabledSamples SampleType.FuelTemperature = true ∧ x.readCount % 2 = 1))) ∧
      ¬ ((∃ ok, Event.read Point.CoolantTemp ok ∈ newEvents x x1) ∧
         (∃ ok, Event.read Point.FuelTemp ok ∈ newEvents x x1)) := by
  obtain ⟨x1, hr, -, -, ht, -, -, -⟩ := readLowFreqData_spec x h
  have ev : newEvents x x1 = Event.tier Tier.low ::
      Event.read Point.MILOn (x.reply x.linkCalls Point.MILOn).ok ::
      readEvents x.reply (x.linkCalls + 1) (lowPlan x) :=
    newEvents_of_trace ht
  have mem : ∀ p, p ≠ Point.MILOn →
      ((∃ ok, Event.read p ok ∈ newEvents x x1) ↔ p ∈ lowPlan x) := by
    intro p hp
    rw [ev, ← mem_readEvents x.reply (lowPlan x) p (x.linkCalls + 1)]
    constructor
    · rintro ⟨ok, hm⟩
      simp only [List.mem_cons] at hm
      rcases hm with hm | hm | hm
      · cases hm
      · exact absurd (Event.read.inj hm).1 hp
      · exact ⟨ok, hm⟩
    · rintro ⟨ok, hm⟩
      exact ⟨ok, List.mem_cons_of_mem _ (List.mem_cons_of_mem _ hm)⟩
  have hc : Point.CoolantTemp ∈ lowPlan x ↔
      (x.enabledSamples SampleType.EngineTemperature = true ∧ x.readCount % 2 = 0) := by
    unfold lowPlan
    cases x.enabledSamples SampleType.EngineTemperature <;>
      cases x.enabledSamples SampleType.FuelTemperature <;>
      cases x.enabledSamples SampleType.FuelMap <;>
      by_cases h2 : x.readCount % 2 = 0 <;> by_cases h7 : x.readCount % 7 = 0 <;>
      simp [h2, h7]
  have hf : Point.FuelTemp ∈ lowPlan x ↔
      (x.enabledSamples SampleType.FuelTemperature = true ∧
        (x.readCount % 2 = 1 ∨ x.enabledSamples SampleType.EngineTemperature = false)) := by
    have hodd : x.readCount % 2 = 1 ↔ ¬ x.readCount % 2 = 0 := by omega
    unfold lowPlan
    rw [hodd]
    cases x.enabledSamples SampleType.EngineTemperature <;>
      cases x.enabledSamples SampleType.FuelTemperature <;>
      cases x.enabledSamples SampleType.FuelMap <;>
      by_cases h2 : x.readCount % 2 = 0 <;> by_cases h7 : x.readCount % 7 = 0 <;>
      simp [h2, h7]
  have mc := mem Point.CoolantTemp (by decide)
  have mf := mem Point.FuelTemp (by decide)
  refine ⟨_, x1, hr, mc.trans hc, mf.trans hf, ?_, ?_⟩
  · intro he
    rw [mf.trans hf, he]
    simp
  · rw [mc.trans hc, mf.trans hf]
    rintro ⟨⟨he, h0⟩, -, h1 | h1⟩
    · omega
    · rw [he] at h1
      cases h1

theorem temperature_reads_witness :
    fuelTempSession.cux.isSome = true ∧
    ∃ r x1, readLowFreqData fuelTempSession = some (r, x1) ∧
      ((∃ ok, Event.read Point.FuelTemp ok ∈ newEvents fuelTempSession x1) ↔
        (fuelTempSession.enabledSamples SampleType.FuelTemperature = true ∧
          (fuelTempSession.readCount % 2 = 1 ∨
            fuelTempSession.enabledSamples SampleType.EngineTemperature = false))) := by
  obtain ⟨r, x1, hr, -, hf, -⟩ := temperature_reads fuelTempSession (by decide)
  exact ⟨by decide, r, x1, hr, hf⟩

end RoverGauge

/-! ## The MIL read of the low tier -/

namespace RoverGauge

open CUXInterface

theorem afterRead_milOn (p : Point) (s : CUXInterface) (hp : p ≠ Point.MILOn) :
    (afterRead p s).milOn = s.milOn := by
  unfold afterRead
  cases p <;> first | rfl | exact absurd rfl hp

theorem runReads_milOn {l : List Point} (hl : Point.MILOn ∉ l) :
    ∀ {a b : ReadResult × CUXInterface}, runReads l a = some b → b.2.milOn = a.2.milOn := by
  induction l with
  | nil =>
    intro a b h
    cases h
    rfl
  | cons p ps ih =>
    intro a b h
    obtain ⟨c, hm, hr⟩ := bind_eq_some_elim h
    have hp : p ≠ Point.MILOn := fun e => hl (e ▸ List.mem_cons_self _ _)
    rw [ih (fun hin => hl (List.mem_cons_of_mem _ hin)) hr, (mergeRead_eq_some hm).2,
      afterRead_milOn p a.2 hp]

theorem stampLow_milOn (a : ReadResult × CUXInterface) : (stampLow a).2.milOn = a.2.milOn := by
  unfold stampLow
  split <;> rfl

theorem afterMIL_milOn (s : CUXInterface)
    (hf : (s.reply s.linkCalls Point.MILOn).ok = false) : s.afterMIL.milOn = false := by
  unfold afterMIL
  rw [hf]
  rfl

theorem answers_congr (reply reply2 : Nat → Point → Reply) (l : List Point) :
    ∀ k, (∀ i p, k ≤ i → reply2 i p = reply i p) → answers reply2 k l = answers reply k l := by
  induction l with
  | nil => intro k _; rfl
  | cons p ps ih =>
    intro k h
    simp only [answers]
    rw [h k p (Nat.le_refl k), ih (k + 1) (fun i q hi => h i q (by omega))]

/-- C28: every low-tier execution on a present link returns and issues the MIL read,
whatever the registry holds; if that read fails, `milOn` is false when the execution
returns; and with any other answer of the library to the MIL read (be it a success or a
failure) in place of the one given, the execution returns the same `ReadResult`, leaves the
same `lastLowFreqReadTime` and takes as many clock readings, so the MIL read changes
neither the verdict nor whether the timestamp is set. -/
theorem mil_read (x : CUXInterface) (h : x.cux.isSome = true) (r : Reply) :
    ∃ v x1 x2, readLowFreqData x = some (v, x1) ∧
      readLowFreqData (x.withAnswer x.linkCalls Point.MILOn r) = some (v, x2) ∧
      Event.read Point.MILOn (x.reply x.linkCalls Point.MILOn).ok ∈ newEvents x x1 ∧
      Event.read Point.MILOn r.ok ∈ newEvents (x.withAnswer x.linkCalls Point.MILOn r) x2 ∧
      ((x.reply x.linkCalls Point.MILOn).ok = false → x1.milOn = false) ∧
      (r.ok = false → x2.milOn = false) ∧
      x2.lastLowFreqReadTime = x1.lastLowFreqReadTime ∧
      x2.clockReads = x1.clockReads := by
  have milOff : ∀ (y y1 : CUXInterface) (w : ReadResult), y.cux.isSome = true →
      readLowFreqData y = some (w, y1) →
      (y.reply y.linkCalls Point.MILOn).ok = false → y1.milOn = false := by
    intro y y1 w hy hr hf
    rw [readLowFreqData_eq y hy] at hr
    obtain ⟨c, hc, hs⟩ := map_eq_some_elim hr
    have e1 : y1 = (stampLow c).2 := by rw [hs]
    rw [e1, stampLow_milOn, runReads_milOn (MILOn_not_mem_lowPlan y) hc]
    exact afterMIL_milOn y hf
  have hx2 : (x.withAnswer x.linkCalls Point.MILOn r).cux.isSome = true := h
  have hself : (x.withAnswer x.linkCalls Point.MILOn r).reply x.linkCalls Point.MILOn = r := by
    simp [withAnswer]
  have hans : answers (x.withAnswer x.linkCalls Point.MILOn r).reply (x.linkCalls + 1)
      (lowPlan x) = answers x.reply (x.linkCalls + 1) (lowPlan x) := by
    apply answers_congr
    intro i p hi
    have hne : i ≠ x.linkCalls := by omega
    simp [withAnswer, hne]
  obtain ⟨x1, hr1, -, -, ht1, -, hl1, hc1⟩ := readLowFreqData_spec x h
  obtain ⟨x2, hr2, -, -, ht2, -, hl2, hc2⟩ :=
    readLowFreqData_spec (x.withAnswer x.linkCalls Point.MILOn r) hx2
  have e : verdict (answers (x.withAnswer x.linkCalls Point.MILOn r).reply
      ((x.withAnswer x.linkCalls Point.MILOn r).linkCalls + 1)
      (lowPlan (x.withAnswer x.linkCalls Point.MILOn r))) =
      verdict (answers x.reply (x.linkCalls + 1) (lowPlan x)) := congrArg verdict hans
  rw [e] at hr2 hl2 hc2
  refine ⟨_, x1, x2, hr1, hr2, ?_, ?_, milOff x x1 _ h hr1, ?_, ?_, ?_⟩
  · rw [newEvents_of_trace ht1]
    simp
  · rw [newEvents_of_trace ht2]
    have hk : (x.withAnswer x.linkCalls Point.MILOn r).linkCalls = x.linkCalls := rfl
    rw [hk, hself]
    simp
  · intro hf
    apply milOff _ x2 _ hx2 hr2
    have hk : (x.withAnswer x.linkCalls Point.MILOn r).linkCalls = x.linkCalls := rfl
    rw [hk, hself]
    exact hf
  · rw [hl2, hl1]
    rfl
  · rw [hc2, hc1]
    rfl

/-- The MIL read fails on request 0 of `milFailSession`; with a success in its place the
low tier returns the same verdict and stamps as well. -/
theorem mil_read_witness :
    milFailSession.cux.isSome = true ∧
    (milFailSession.reply milFailSession.linkCalls Point.MILOn).ok = false ∧
    ∃ v x1 x2, readLowFreqData milFailSession = some (v, x1) ∧
      readLowFreqData (milFailSession.withAnswer milFailSession.linkCalls Point.MILOn
        { ok := true }) = some (v, x2) ∧
      x1.milOn = false ∧
      x2.lastLowFreqReadTime = x1.lastLowFreqReadTime := by
  obtain ⟨v, x1, x2, h1, h2, -, -, hm, -, hl, -⟩ :=
    mil_read milFailSession (by decide) { ok := true }
  exact ⟨by decide, by decide, v, x1, x2, h1, h2, hm (by decide), hl⟩

end RoverGauge

/-! ## The lambda-trim reads -/

namespace RoverGauge

open CUXInterface

theorem leadingReads_readEvents (reply : Nat → Point → Reply) (l : List Point)
    (rest : List Event) :
    ∀ k, leadingReads (readEvents reply k l ++ rest) = l ++ leadingReads rest := by
  induction l with
  | nil => intro k; rfl
  | cons p ps ih =>
    intro k
    simp [readEvents, leadingReads, ih]

theorem tierReads_readEvents (t : Tier) (reply : Nat → Point → Reply) (l : List Point)
    (rest : List Event) :
    ∀ k, tierReads t (readEvents reply k l ++ rest) = tierReads t rest := by
  induction l with
  | nil => intro k; rfl
  | cons p ps ih =>
    intro k
    simp [readEvents, tierReads, ih]

/-- The reads of the high tier and of the mid tier in the record of a poll cycle. -/
theorem tierReads_cycle (s : CUXInterface) (r : ReadResult) :
    tierReads Tier.high (cycleEvents s ++ verdictEvents r ++ [Event.timerStart 0]) =
      highPlan s ∧
    tierReads Tier.mid (cycleEvents s ++ verdictEvents r ++ [Event.timerStart 0]) =
      (if midGate s then midPlan s else []) := by
  unfold cycleEvents highEvents midEvents lowEvents
  cases midGate s <;> cases lowGate s <;> cases r <;>
    simp [tierReads, leadingReads, verdictEvents, leadingReads_readEvents,
      tierReads_readEvents]

theorem short_trim_mem (s : CUXInterface)
    (hl : s.enabledSamples SampleType.LambdaTrim = true) (p : Point)
    (hp : p = Point.LambdaTrimShortLeft ∨ p = Point.LambdaTrimShortRight) :
    (p ∈ highPlan s ↔ s.lambdaTrimType = 1) ∧ p ∉ midPlan s ∧ p ∉ lowPlan s ∧
      p ≠ Point.MILOn := by
  unfold highPlan midPlan lowPlan
  rw [hl]
  rcases hp with rfl | rfl <;>
    (refine ⟨?_, ?_, ?_, by decide⟩ <;> simp; split_ifs <;> simp)

theorem long_trim_mem (s : CUXInterface)
    (hl : s.enabledSamples SampleType.LambdaTrim = true) (p : Point)
    (hp : p = Point.LambdaTrimLongLeft ∨ p = Point.LambdaTrimLongRight) :
    (p ∈ midPlan s ↔ s.lambdaTrimType = 2) ∧ p ∉ highPlan s ∧ p ∉ lowPlan s ∧
      p ≠ Point.MILOn := by
  unfold highPlan midPlan lowPlan
  rw [hl]
  rcases hp with rfl | rfl <;>
    (refine ⟨?_, ?_, ?_, by decide⟩ <;> simp; split_ifs <;> simp)

/-- C29: with `LambdaTrim` enabled, a poll cycle without stop condition (the timer being
present) returns, and it reads the short-term lambda trim of either bank exactly when
`lambdaTrimType` is 1, both reads being those of the high tier; it reads the long-term
lambda trim of either bank exactly when `lambdaTrimType` is 2 and the mid tier executes,
which it does exactly when the start time exceeds `lastMidFreqReadTime` by more than 200 ms,
both reads being those of the mid tier; and no cycle reads a short-term and a long-term
trim. -/
theorem lambda_trim_reads (s : CUXInterface) (h : s.stopCondition = false)
    (ht : s.timer.isSome = true) (hl : s.enabledSamples SampleType.LambdaTrim = true) :
    ∃ s2, pollEcu s = some s2 ∧
      (∀ p, p = Point.LambdaTrimShortLeft ∨ p = Point.LambdaTrimShortRight →
        (((∃ ok, Event.read p ok ∈ newEvents s s2) ↔ s.lambdaTrimType = 1) ∧
         (s.lambdaTrimType = 1 → p ∈ tierReads Tier.high (newEvents s s2)))) ∧
      (Event.tier Tier.mid ∈ newEvents s s2 ↔
        s.startTime > s.lastMidFreqReadTime + 200) ∧
      (∀ p, p = Point.LambdaTrimLongLeft ∨ p = Point.LambdaTrimLongRight →
        (((∃ ok, Event.read p ok ∈ newEvents s s2) ↔
            (s.lambdaTrimType = 2 ∧ Event.tier Tier.mid ∈ newEvents s s2)) ∧
         (s.lambdaTrimType = 2 → Event.tier Tier.mid ∈ newEvents s s2 →
            p ∈ tierReads Tier.mid (newEvents s s2)))) ∧
      ¬ ((∃ p ok, (p = Point.LambdaTrimShortLeft ∨ p = Point.LambdaTrimShortRight) ∧
            Event.read p ok ∈ newEvents s s2) ∧
         (∃ p ok, (p = Point.LambdaTrimLongLeft ∨ p = Point.LambdaTrimLongRight) ∧
            Event.read p ok ∈ newEvents s s2)) := by
  obtain ⟨s2, p2, -, -, -, -, -, ev⟩ := pollEcu_keeps_polling s h ht
  obtain ⟨s3, p3, hreads⟩ := pollEcu_reads s h ht
  have e32 : s3 = s2 := Option.some.inj (p3.symm.trans p2)
  subst e32
  obtain ⟨tH, tM⟩ := tierReads_cycle s (verdict (mergedOutcomes (cycleEvents s)))
  rw [← ev] at tH tM
  have hmid : Event.tier Tier.mid ∈ newEvents s s3 ↔ midGate s = true := by
    rw [(pollEcu_cycle s s3 p2).2.2.1]
    exact and_iff_right h
  have hgate : midGate s = true ↔ s.startTime > s.lastMidFreqReadTime + 200 := by
    unfold midGate
    exact decide_eq_true_iff
  have hshort : ∀ p, p = Point.LambdaTrimShortLeft ∨ p = Point.LambdaTrimShortRight →
      ((∃ ok, Event.read p ok ∈ newEvents s s3) ↔ s.lambdaTrimType = 1) := by
    intro p hp
    obtain ⟨m1, m2, m3, m4⟩ := short_trim_mem s hl p hp
    have e : (∃ ok, Event.read p ok ∈ newEvents s s3) ↔
        (∃ ok, Event.read p ok ∈ cycleEvents s) :=
      exists_congr (fun ok => hreads p ok)
    rw [e, read_mem_cycleEvents, m1]
    constructor
    · rintro (h1 | ⟨-, h1⟩ | ⟨-, h1 | h1⟩)
      · exact h1
      · exact absurd h1 m2
      · exact absurd h1 m4
      · exact absurd h1 m3
    · exact Or.inl
  have hlong : ∀ p, p = Point.LambdaTrimLongLeft ∨ p = Point.LambdaTrimLongRight →
      ((∃ ok, Event.read p ok ∈ newEvents s s3) ↔
        (s.lambdaTrimType = 2 ∧ Event.tier Tier.mid ∈ newEvents s s3)) := by
    intro p hp
    obtain ⟨m1, m2, m3, m4⟩ := long_trim_mem s hl p hp
    have e : (∃ ok, Event.read p ok ∈ newEvents s s3) ↔
        (∃ ok, Event.read p ok ∈ cycleEvents s) :=
      exists_congr (fun ok => hreads p ok)
    rw [e, read_mem_cycleEvents, hmid, m1]
    constructor
    · rintro (h1 | ⟨hg, h1⟩ | ⟨-, h1 | h1⟩)
      · exact absurd h1 m2
      · exact ⟨h1, hg⟩
      · exact absurd h1 m4
      · exact absurd h1 m3
    · rintro ⟨h1, hg⟩
      exact Or.inr (Or.inl ⟨hg, h1⟩)
  refine ⟨s3, p2, ?_, hmid.trans hgate, ?_, ?_⟩
  · intro p hp
    refine ⟨hshort p hp, ?_⟩
    intro h1
    rw [tH]
    exact (short_trim_mem s hl p hp).1.mpr h1
  · intro p hp
    refine ⟨hlong p hp, ?_⟩
    intro h2 hm
    rw [tM, hmid.mp hm]
    exact (long_trim_mem s hl p hp).1.mpr h2
  · rintro ⟨⟨p, ok, hp, hr⟩, ⟨q, ok2, hq, hr2⟩⟩
    have h1 := (hshort p hp).mp ⟨ok, hr⟩
    have h2 := ((hlong q hq).mp ⟨ok2, hr2⟩).1
    rw [h1] at h2
    exact absurd h2 (by decide)

theorem lambda_trim_reads_witness :
    trimSession.stopCondition = false ∧ trimSession.timer.isSome = true ∧
    trimSession.enabledSamples SampleType.LambdaTrim = true ∧
    trimSession.lambdaTrimType = 1 ∧
    ∃ s2, pollEcu trimSession = some s2 ∧
      (∃ ok, Event.read Point.LambdaTrimShortLeft ok ∈ newEvents trimSession s2) ∧
      Point.LambdaTrimShortRight ∈ tierReads Tier.high (newEvents trimSession s2) ∧
      ¬ (∃ ok, Event.read Point.LambdaTrimLongLeft ok ∈ newEvents trimSession s2) := by
  obtain ⟨s2, p, hs, -, hg, -⟩ :=
    lambda_trim_reads trimSession (by decide) (by decide) (by decide)
  refine ⟨by decide, by decide, by decide, by decide, s2, p, ?_, ?_, ?_⟩
  · exact (hs _ (Or.inl rfl)).1.mpr (by decide)
  · exact (hs _ (Or.inr rfl)).2 (by decide)
  · intro hx
    exact absurd ((hg _ (Or.inl rfl)).1.mp hx).1 (by decide)

end RoverGauge

/-! ## The life of the link handle -/

namespace RoverGauge

open CUXInterface

theorem linkConnect_cux (ok : Bool) (s : CUXInterface) :
    (s.linkConnect ok).cux.isSome = s.cux.isSome := by
  unfold linkConnect
  cases s.cux <;> rfl

theorem pollEcu_cux {s s2 : CUXInterface} (hp : pollEcu s = some s2) :
    s2.cux.isSome = s.cux.isSome := by
  cases hs : s.stopCondition
  · cases ht : s.timer with
    | none =>
      rw [pollEcu_running_none s hs ht] at hp
      cases hp
    | some t =>
      obtain ⟨s3, p3, h3, -⟩ := pollEcu_keeps_polling s hs (by rw [ht]; rfl)
      have e : s3 = s2 := Option.some.inj (p3.symm.trans hp)
      subst e
      rw [(stopCondition_false h3).2.2.1, (stopCondition_false hs).2.2.1]
  · rw [pollEcu_of_stop s hs] at hp
    cases hp
    unfold stopped
    cases s.cux <;> rfl

theorem timeout_cux {s s2 : CUXInterface} (h : timeout s = some s2) :
    s2.cux.isSome = s.cux.isSome := by
  unfold timeout at h
  split at h
  · split at h
    · have e := pollEcu_cux h
      exact e
    · cases h
      rfl
  · cases h
    rfl

theorem connectToECU_cux (env : Answers) (s : CUXInterface) :
    (s.connectToECU env).2.cux.isSome = s.cux.isSome := by
  unfold connectToECU
  split
  · dsimp only
    split_ifs <;> simp [CUXInterface.emit, log, linkConnect, *]
  · simp [*]

theorem onStartPollingRequest_cux {env : Answers} {s s2 : CUXInterface}
    (h : s.onStartPollingRequest env = some s2) : s2.cux.isSome = s.cux.isSome := by
  unfold onStartPollingRequest at h
  dsimp only at h
  split at h
  · have e := pollEcu_cux h
    exact e.trans (connectToECU_cux env s)
  · cases h
    exact connectToECU_cux env s

theorem setEnabledSamples_cux (samples : List (SampleType × Bool)) (s : CUXInterface) :
    (s.setEnabledSamples samples).cux = s.cux := by
  unfold setEnabledSamples
  rw [foldl_writeSamples (fun field => (samples.lookup field).getD false)]

/-- No operation other than `onParentThreadStarted` and `onParentThreadFinished` changes
whether the link handle is present. -/
theorem step_cux {c : Command} {s s2 : CUXInterface} (h : step c s = some s2)
    (h1 : c ≠ Command.parentThreadStarted) (h2 : c ≠ Command.parentThreadFinished) :
    s2.cux.isSome = s.cux.isSome := by
  cases c with
  | parentThreadStarted => exact absurd rfl h1
  | parentThreadFinished => exact absurd rfl h2
  | connect env =>
    cases h
    exact connectToECU_cux env s
  | startPolling env => exact onStartPollingRequest_cux h
  | timeout => exact timeout_cux h
  | disconnect =>
    cases h
    rfl
  | shutdownThread =>
    cases h
    unfold onShutdownThreadRequest disconnectIfConnected
    split
    · split <;> simp [CUXInterface.emit, log, *]
    · simp [CUXInterface.emit, log, *]
  | faultCodes env =>
    cases h
    unfold onFaultCodesRequested
    split
    · dsimp only
      split_ifs <;> simp [CUXInterface.emit, log, linkConnect, *]
    · simp [CUXInterface.emit, log, *]
  | faultCodesClear env =>
    cases h
    unfold onFaultCodesClearRequested
    split
    · dsimp only
      split_ifs <;> simp [CUXInterface.emit, log, linkConnect, *]
    · simp [CUXInterface.emit, log, *]
  | readPROMImage env =>
    cases h
    cases hc : s.cux with
    | none =>
      rw [onReadPROMImageRequested_absent env s hc]
      exact congrArg Option.isSome hc
    | some link =>
      have hs : s.cux.isSome = true := by rw [hc]; rfl
      rw [(onReadPROMImageRequested_present env s hs).2.2.2.1]
      rfl
  | fuelMap fuelMapId env =>
    cases h
    unfold onFuelMapRequested
    cases hc : s.cux with
    | none => simp [hc]
    | some link =>
      dsimp only
      split_ifs <;> simp [CUXInterface.emit, log, linkConnect, hc]
  | fuelPumpRun env =>
    cases h
    unfold onFuelPumpRunRequest
    split
    · simp [linkConnect, *]
    · simp [*]
  | idleAirControl direction steps env =>
    cases h
    unfold onIdleAirControlMovementRequest
    split
    · dsimp only
      split_ifs <;> simp [CUXInterface.emit, log, linkConnect, *]
    · simp [CUXInterface.emit, log, *]
  | cancelRead =>
    change s.cancelRead = some s2 at h
    unfold cancelRead at h
    split at h
    · cases h
      rfl
    · cases h
  | setSerialDevice device => cases h; rfl
  | setSpeedUnits units => cases h; rfl
  | setTemperatureUnits units => cases h; rfl
  | setLambdaTrimType type => cases h; rfl
  | setMAFReadingType type => cases h; rfl
  | setThrottleReadingType type => cases h; rfl
  | setEnabledSamples samples =>
    cases h
    exact congrArg Option.isSome (setEnabledSamples_cux samples s)
  | simModeWrite => cases h; rfl

/-- C21: the link handle is absent in the state the constructor leaves;
`onParentThreadStarted` creates it when it is absent and keeps the existing one when it is
present (so a second call keeps it); `onParentThreadFinished` releases it; and every other
operation, whenever it returns, leaves the handle present if it was present and absent if
it was absent. -/
theorem link_handle_lifecycle (device : String) (sUnits : SpeedUnits)
    (tUnits : TemperatureUnits) (clock : Nat → Int) (reply : Nat → Point → Reply) :
    (CUXInterface.init device sUnits tUnits clock reply).cux = none ∧
    (∀ s : CUXInterface, s.cux = none →
      s.onParentThreadStarted.cux = some { connected := false }) ∧
    (∀ (s : CUXInterface) (link : Comm14CUX), s.cux = some link →
      s.onParentThreadStarted.cux = some link ∧
      s.onParentThreadStarted.onParentThreadStarted.cux = some link) ∧
    (∀ s : CUXInterface, s.onParentThreadFinished.cux = none) ∧
    (∀ (c : Command) (s s2 : CUXInterface), step c s = some s2 →
      c ≠ Command.parentThreadStarted → c ≠ Command.parentThreadFinished →
      s2.cux.isSome = s.cux.isSome) := by
  have kept : ∀ (s : CUXInterface) (link : Comm14CUX), s.cux = some link →
      s.onParentThreadStarted.cux = some link := by
    intro s link hc
    unfold onParentThreadStarted
    dsimp only
    split_ifs <;> simp_all [CUXInterface.emit, log]
  refine ⟨rfl, ?_, ?_, fun _ => rfl, fun c s s2 h h1 h2 => step_cux h h1 h2⟩
  · intro s hc
    unfold onParentThreadStarted
    dsimp only
    split_ifs <;> simp_all [CUXInterface.emit, log]
  · intro s link hc
    exact ⟨kept s link hc, kept _ link (kept s link hc)⟩

theorem link_handle_lifecycle_witness :
    freshObject.cux = none ∧
    startedObject.cux = some { connected := false } ∧
    step (Command.connect goodAnswers) startedObject =
      some (startedObject.connectToECU goodAnswers).2 ∧
    (startedObject.connectToECU goodAnswers).2.cux.isSome = startedObject.cux.isSome ∧
    (startedObject.connectToECU goodAnswers).2.onParentThreadStarted.cux =
      some { connected := true } ∧
    (startedObject.connectToECU goodAnswers).2.onParentThreadFinished.cux = none :=
  have h := link_handle_lifecycle "COM1" SpeedUnits.MPH TemperatureUnits.Fahrenheit
    steadyClock allOk
  ⟨h.1, h.2.1 freshObject h.1,
    rfl,
    h.2.2.2.2 (Command.connect goodAnswers) startedObject _ rfl
      (fun e => Command.noConfusion e) (fun e => Command.noConfusion e),
    (h.2.2.1 (startedObject.connectToECU goodAnswers).2 { connected := true } rfl).1,
    h.2.2.2.1 _⟩

end RoverGauge

/-! ## Operations on an absent link handle -/

namespace RoverGauge

open CUXInterface

theorem pollEcu_timer {s s2 : CUXInterface} (hp : pollEcu s = some s2) :
    s2.timer.isSome = s.timer.isSome := by
  cases hs : s.stopCondition
  · cases ht : s.timer with
    | none =>
      rw [pollEcu_running_none s hs ht] at hp
      cases hp
    | some t =>
      obtain ⟨s3, p3, -, t3, -⟩ := pollEcu_keeps_polling s hs (by rw [ht]; rfl)
      have e : s3 = s2 := Option.some.inj (p3.symm.trans hp)
      subst e
      rw [t3]
      rfl
  · rw [pollEcu_of_stop s hs] at hp
    cases hp
    rfl

theorem timeout_timer {s s2 : CUXInterface} (h : timeout s = some s2) :
    s2.timer.isSome = s.timer.isSome := by
  unfold timeout at h
  split at h
  · split at h
    · have e := pollEcu_timer h
      simp_all
    · cases h
      rfl
  · cases h
    rfl

theorem connectToECU_timer (env : Answers) (s : CUXInterface) :
    (s.connectToECU env).2.timer = s.timer := by
  unfold connectToECU
  split
  · dsimp only
    split_ifs <;> simp [CUXInterface.emit, log, linkConnect]
  · rfl

theorem onStartPollingRequest_timer {env : Answers} {s s2 : CUXInterface}
    (h : s.onStartPollingRequest env = some s2) : s2.timer.isSome = s.timer.isSome := by
  unfold onStartPollingRequest at h
  dsimp only at h
  split at h
  · have e := pollEcu_timer h
    exact e.trans (congrArg Option.isSome (connectToECU_timer env s))
  · cases h
    exact congrArg Option.isSome (connectToECU_timer env s)

theorem setEnabledSamples_timer (samples : List (SampleType × Bool)) (s : CUXInterface) :
    (s.setEnabledSamples samples).timer = s.timer := by
  unfold setEnabledSamples
  rw [foldl_writeSamples (fun field => (samples.lookup field).getD false)]

/-- No operation other than `onParentThreadStarted` and `onParentThreadFinished` changes
whether the timer is present. -/
theorem step_timer {c : Command} {s s2 : CUXInterface} (h : step c s = some s2)
    (h1 : c ≠ Command.parentThreadStarted) (h2 : c ≠ Command.parentThreadFinished) :
    s2.timer.isSome = s.timer.isSome := by
  cases c with
  | parentThreadStarted => exact absurd rfl h1
  | parentThreadFinished => exact absurd rfl h2
  | connect env =>
    cases h
    exact congrArg Option.isSome (connectToECU_timer env s)
  | startPolling env => exact onStartPollingRequest_timer h
  | timeout => exact timeout_timer h
  | disconnect =>
    cases h
    rfl
  | shutdownThread =>
    cases h
    unfold onShutdownThreadRequest disconnectIfConnected
    split
    · split <;> rfl
    · rfl
  | faultCodes env =>
    cases h
    unfold onFaultCodesRequested
    split
    · dsimp only
      split_ifs <;> rfl
    · rfl
  | faultCodesClear env =>
    cases h
    unfold onFaultCodesClearRequested
    split
    · dsimp only
      split_ifs <;> rfl
    · rfl
  | readPROMImage env =>
    cases h
    unfold onReadPROMImageRequested
    split
    · dsimp only
      split_ifs <;> rfl
    · rfl
  | fuelMap fuelMapId env =>
    cases h
    unfold onFuelMapRequested
    split
    · dsimp only
      split_ifs <;> rfl
    · rfl
  | fuelPumpRun env =>
    cases h
    unfold onFuelPumpRunRequest
    split <;> rfl
  | idleAirControl direction steps env =>
    cases h
    unfold onIdleAirControlMovementRequest
    split
    · dsimp only
      split_ifs <;> rfl
    · rfl
  | cancelRead =>
    change s.cancelRead = some s2 at h
    unfold cancelRead at h
    split at h
    · cases h
      rfl
    · cases h
  | setSerialDevice device => cases h; rfl
  | setSpeedUnits units => cases h; rfl
  | setTemperatureUnits units => cases h; rfl
  | setLambdaTrimType type => cases h; rfl
  | setMAFReadingType type => cases h; rfl
  | setThrottleReadingType type => cases h; rfl
  | setEnabledSamples samples =>
    cases h
    exact congrArg Option.isSome (setEnabledSamples_timer samples s)
  | simModeWrite => cases h; rfl

/-- The link handle and the timer are created together and released together. -/
theorem step_paired {c : Command} {s s2 : CUXInterface} (h : step c s = some s2)
    (hi : s.cux.isSome = s.timer.isSome) : s2.cux.isSome = s2.timer.isSome := by
  by_cases h1 : c = Command.parentThreadStarted
  · subst h1
    cases h
    unfold onParentThreadStarted
    dsimp only
    cases hc : s.cux <;> cases ht : s.timer <;> simp_all [CUXInterface.emit, log]
  · by_cases h2 : c = Command.parentThreadFinished
    · subst h2
      cases h
      rfl
    · rw [step_cux h h1 h2, step_timer h h1 h2]
      exact hi

theorem run_paired (cmds : List Command) :
    ∀ {s0 s : CUXInterface}, s0.cux.isSome = s0.timer.isSome → run cmds s0 = some s →
      s.cux.isSome = s.timer.isSome := by
  induction cmds with
  | nil =>
    intro s0 s hi h
    cases h
    exact hi
  | cons c cs ih =>
    intro s0 s hi h
    obtain ⟨sm, hm, hr⟩ := bind_eq_some_elim h
    exact ih (step_paired hm hi) hr

theorem pollEcu_defined (s : CUXInterface) (hi : s.cux.isSome = s.timer.isSome) :
    (pollEcu s).isSome = true := by
  cases hs : s.stopCondition
  · have ht : s.timer.isSome = true := by
      rw [← hi]
      exact (stopCondition_false hs).2.2.1
    obtain ⟨s2, p, -⟩ := pollEcu_keeps_polling s hs ht
    rw [p]
    rfl
  · rw [pollEcu_of_stop s hs]
    rfl

/-- In every state reached from construction, every operation other than `cancelRead` is
defined, and `cancelRead` and `getVersion` are defined exactly when the link handle is
present. -/
theorem reachable_operations (device : String) (sUnits : SpeedUnits)
    (tUnits : TemperatureUnits) (clock : Nat → Int) (reply : Nat → Point → Reply)
    (cmds : List Command) (s : CUXInterface)
    (hrun : run cmds (CUXInterface.init device sUnits tUnits clock reply) = some s) :
    (∀ c, c ≠ Command.cancelRead → (step c s).isSome = true) ∧
    ((step Command.cancelRead s).isSome = s.cux.isSome) ∧
    (∀ (Version : Type) (v : Version), (s.getVersion v).isSome = s.cux.isSome) := by
  have hi : s.cux.isSome = s.timer.isSome := run_paired cmds rfl hrun
  refine ⟨?_, ?_, ?_⟩
  · intro c hc
    cases c with
    | cancelRead => exact absurd rfl hc
    | startPolling env =>
      change (s.onStartPollingRequest env).isSome = true
      unfold onStartPollingRequest
      dsimp only
      split
      · apply pollEcu_defined
        change (s.connectToECU env).2.cux.isSome = (s.connectToECU env).2.timer.isSome
        rw [connectToECU_cux, connectToECU_timer]
        exact hi
      · rfl
    | timeout =>
      change (timeout s).isSome = true
      unfold timeout
      split
      · split
        · apply pollEcu_defined
          simp_all
        · rfl
      · rfl
    | _ => rfl
  · change s.cancelRead.isSome = _
    unfold cancelRead
    cases s.cux <;> rfl
  · intro Version v
    unfold getVersion
    cases s.cux <;> rfl

/-- C30 fails in the code: in the state the constructor leaves, where the link handle is
absent, `getVersion` and `cancelRead` dereference it, and so they do after
`onParentThreadFinished`; in between, with the handle present, both are defined. -/
theorem absent_link_dereferenced :
    freshObject.cux = none ∧
    freshObject.getVersion ((2, 1, 1) : Nat × Nat × Nat) = none ∧
    step Command.cancelRead freshObject = none ∧
    startedObject.getVersion ((2, 1, 1) : Nat × Nat × Nat) = some (2, 1, 1) ∧
    (step Command.cancelRead startedObject).isSome = true ∧
    run [Command.parentThreadStarted, Command.parentThreadFinished] freshObject =
      some startedObject.onParentThreadFinished ∧
    startedObject.onParentThreadFinished.getVersion ((2, 1, 1) : Nat × Nat × Nat) = none ∧
    step Command.cancelRead startedObject.onParentThreadFinished = none :=
  ⟨rfl, rfl, rfl, rfl, rfl, rfl, rfl, rfl⟩

end RoverGauge
